import Mathlib

/-! ACPI PCI interrupt link allocator.

A shallow embedding of `kernel/drivers/acpi/pci_link.c`: the link device
record, the penalty table, discovery (`_PRS` / `_CRS`), the allocator, the
reference counted acquire / release pair and the resume handler.

Conventions of the embedding

* `u8` members are `Nat` with `% 256` where the C code stores a wider value
  into them; `int` values that the C code only adds to or compares (penalty
  entries, `refcnt`, return codes) are `Int` (signed overflow is undefined in
  C and is given no meaning here).
* Everything outside the file (ACPICA, the ACPI bus, `kzalloc`, the mutex) is
  an oracle: `Platform` answers each call as a function of the log of calls
  made so far, and every call is appended to that log (`List Call`).  A
  theorem quantified over `Platform` therefore holds for every behaviour of
  firmware and allocator.
* `printk` / `ACPI_DEBUG_PRINT` output is not modelled.
-/

namespace PciLink

/-! ## Constants -/

abbrev ACPI_PCI_LINK_MAX_POSSIBLE : Nat := 16
abbrev ACPI_MAX_IRQS : Nat := 256
abbrev ACPI_MAX_ISA_IRQ : Nat := 16

abbrev PIRQ_PENALTY_PCI_AVAILABLE : Int := 0
abbrev PIRQ_PENALTY_PCI_POSSIBLE : Int := 16 * 16
abbrev PIRQ_PENALTY_PCI_USING : Int := 16 * 16 * 16
abbrev PIRQ_PENALTY_ISA_TYPICAL : Int := 16 * 16 * 16 * 16
abbrev PIRQ_PENALTY_ISA_USED : Int := 16 * 16 * 16 * 16 * 16
abbrev PIRQ_PENALTY_ISA_ALWAYS : Int := 16 * 16 * 16 * 16 * 16 * 16

/-- Modelled from the spec: the errno constants of `linux/errno.h` are not
under `src/`; the spec only names the errors (`ResourceQueryError`,
`AllocationFailed`).  The values are the usual Linux ones. -/
abbrev ENOMEM : Int := 12
/-- Modelled from the spec: see `ENOMEM`. -/
abbrev ENODEV : Int := 19
/-- Modelled from the spec: see `ENOMEM`. -/
abbrev EINVAL : Int := 22

/-- Modelled from the spec: the resource type tags of ACPICA (`acrestyp.h`)
are not under `src/`; the spec calls the two interrupt kinds `Simple` and
`Extended`.  The values are ACPICA's. -/
abbrev ACPI_RESOURCE_TYPE_IRQ : Nat := 0
/-- Modelled from the spec: see `ACPI_RESOURCE_TYPE_IRQ`. -/
abbrev ACPI_RESOURCE_TYPE_START_DEPENDENT : Nat := 2
/-- Modelled from the spec: see `ACPI_RESOURCE_TYPE_IRQ`. -/
abbrev ACPI_RESOURCE_TYPE_END_TAG : Nat := 7
/-- Modelled from the spec: see `ACPI_RESOURCE_TYPE_IRQ`. -/
abbrev ACPI_RESOURCE_TYPE_EXTENDED_IRQ : Nat := 15

/-- Modelled from the spec: ACPICA flag values (`acrestyp.h`), carried
through unchanged as the spec's opaque `triggering` / sharing flags. -/
abbrev ACPI_EDGE_SENSITIVE : Nat := 1
/-- Modelled from the spec: see `ACPI_EDGE_SENSITIVE`. -/
abbrev ACPI_EXCLUSIVE : Nat := 0
/-- Modelled from the spec: see `ACPI_EDGE_SENSITIVE`. -/
abbrev ACPI_SHARED : Nat := 1
/-- Modelled from the spec: see `ACPI_EDGE_SENSITIVE`. -/
abbrev ACPI_CONSUMER : Nat := 1

/-! ## Data model -/

/-- The C `struct acpi_pci_link_irq`.  `possible` is the array
`u8 possible[16]`; `possible_count` counts its used entries. -/
structure acpi_pci_link_irq where
  active : Nat
  triggering : Nat
  polarity : Nat
  resource_type : Nat
  possible_count : Nat
  possible : List Nat
  initialized : Bool
  deriving DecidableEq, Repr

/-- The C `struct acpi_pci_link`; `device` is the handle of the firmware
object, the `list` member is the position in `acpi_link_list`. -/
structure acpi_pci_link where
  device : Nat
  irq : acpi_pci_link_irq
  refcnt : Int
  deriving DecidableEq, Repr

/-- A record is a value of the C type: every `u8` member is below 256, the
array has its 16 entries and the count stays within the array. -/
def acpi_pci_link.wf (link : acpi_pci_link) : Prop :=
  link.irq.active < 256 ∧ link.irq.triggering < 256 ∧ link.irq.polarity < 256 ∧
  link.irq.resource_type < 256 ∧
  link.irq.possible_count ≤ ACPI_PCI_LINK_MAX_POSSIBLE ∧
  link.irq.possible.length = ACPI_PCI_LINK_MAX_POSSIBLE ∧
  ∀ x ∈ link.irq.possible, x < 256

instance (link : acpi_pci_link) : Decidable link.wf := by
  unfold acpi_pci_link.wf; infer_instance

/-- The record `kzalloc` returns in `acpi_pci_link_add`, all members zero,
after `link->device = device`. -/
def acpi_pci_link.fresh (device : Nat) : acpi_pci_link :=
  { device := device,
    irq := { active := 0, triggering := 0, polarity := 0, resource_type := 0,
             possible_count := 0, possible := List.replicate 16 0,
             initialized := false },
    refcnt := 0 }

/-- The read `link->irq.possible[i]` for an `int` index.  Index `-1`, which
`acpi_pci_link_allocate` uses when `possible_count` is 0, is the byte of the
member declared just before the array, `possible_count`. -/
def acpi_pci_link_irq.possible_at (q : acpi_pci_link_irq) (i : Int) : Nat :=
  if i = -1 then q.possible_count else q.possible.getD i.toNat 0

/-- The line is one of `possible[0 .. possible_count-1]`. -/
def acpi_pci_link_irq.is_possible (q : acpi_pci_link_irq) (line : Nat) : Prop :=
  ∃ i, i < q.possible_count ∧ q.possible.getD i 0 = line

instance (q : acpi_pci_link_irq) (line : Nat) : Decidable (q.is_possible line) := by
  unfold acpi_pci_link_irq.is_possible; infer_instance

/-- The table `acpi_irq_penalty[ACPI_MAX_IRQS]`, indexed by line number. -/
abbrev PenaltyTable := Nat → Int

/-- The static initialiser of `acpi_irq_penalty`. -/
def acpi_irq_penalty : PenaltyTable := fun irq =>
  [ PIRQ_PENALTY_ISA_ALWAYS, PIRQ_PENALTY_ISA_ALWAYS, PIRQ_PENALTY_ISA_ALWAYS,
    PIRQ_PENALTY_ISA_TYPICAL, PIRQ_PENALTY_ISA_TYPICAL, PIRQ_PENALTY_ISA_TYPICAL,
    PIRQ_PENALTY_ISA_TYPICAL, PIRQ_PENALTY_ISA_TYPICAL, PIRQ_PENALTY_ISA_TYPICAL,
    PIRQ_PENALTY_PCI_AVAILABLE, PIRQ_PENALTY_PCI_AVAILABLE, PIRQ_PENALTY_PCI_AVAILABLE,
    PIRQ_PENALTY_ISA_USED, PIRQ_PENALTY_ISA_USED, PIRQ_PENALTY_ISA_USED,
    PIRQ_PENALTY_ISA_USED ].getD irq 0

/-! ## The platform: firmware, bus and allocator as an oracle -/

/-- A resource descriptor handed to a walk callback (`struct acpi_resource`
with its `data.irq` / `data.extended_irq` part). -/
structure acpi_resource where
  type : Nat
  interrupt_count : Nat
  interrupts : List Nat
  triggering : Nat
  polarity : Nat
  deriving DecidableEq, Repr

/-- The resource `acpi_pci_link_set` builds for `_SRS`.  `sharable` is what
the code stores through `data.irq.sharable`; `interrupt` is `interrupts[0]`
and `interrupt_count` is always 1. -/
structure acpi_srs_resource where
  type : Nat
  producer_consumer : Nat
  triggering : Nat
  polarity : Nat
  sharable : Nat
  interrupt_count : Nat
  interrupt : Nat
  deriving DecidableEq, Repr

/-- The two methods `acpi_walk_resources` is called with. -/
inductive Method where
  | PRS
  | CRS
  deriving DecidableEq, Repr

/-- A call that leaves the file. -/
inductive Call where
  | kzalloc
  | mutex_lock
  | mutex_unlock
  | acpi_walk_resources (handle : Nat) (method : Method)
  | acpi_set_current_resources (handle : Nat) (res : acpi_srs_resource)
  | acpi_bus_get_status (handle : Nat)
  | acpi_evaluate_DIS (handle : Nat)
  deriving DecidableEq, Repr

/-- What a resource walk presents: the descriptors the callback is called
on, in order, and whether `acpi_walk_resources` reports success when the
callback never ends the walk (`resources = []`, `status = false` is a failed
evaluation of the method). -/
structure WalkResp where
  resources : List acpi_resource
  status : Bool
  deriving DecidableEq, Repr

/-- The answer of `acpi_bus_get_status`: its return value and, when that is
0, `device->status.enabled`. -/
structure StatusResp where
  result : Int
  enabled : Bool
  deriving DecidableEq, Repr

/-- The behaviour of everything outside the file, each answer a function of
the calls made so far. -/
structure Platform where
  kzalloc : List Call → Bool
  acpi_walk_resources : List Call → Nat → Method → WalkResp
  acpi_set_current_resources : List Call → Nat → acpi_srs_resource → Bool
  acpi_bus_get_status : List Call → Nat → StatusResp

/-- The globals the functions read and never write: the platform, the
`acpi_strict` flag and `acpi_irq_balance` (nonzero means balancing). -/
structure Env where
  platform : Platform
  acpi_strict : Bool
  acpi_irq_balance : Int

/-- The status a walk callback returns. -/
inductive acpi_status where
  | AE_OK
  | AE_CTRL_TERMINATE
  deriving DecidableEq, Repr

/-- The descriptor loop of `acpi_walk_resources`. -/
def walk_list {α : Type} (cb : acpi_resource → α → acpi_status × α) (final : Bool) :
    List acpi_resource → α → Bool × α
  | [], ctx => (final, ctx)
  | r :: rs, ctx =>
    match cb r ctx with
    | (acpi_status.AE_OK, ctx1) => walk_list cb final rs ctx1
    | (acpi_status.AE_CTRL_TERMINATE, ctx1) => (true, ctx1)

/-- Modelled from the spec: `acpi_walk_resources` (ACPICA, not under `src/`)
calls the callback on each enumerated descriptor in order; a callback
returning `AE_CTRL_TERMINATE` ends the walk with success, otherwise the walk
ends with the status the platform reports. -/
def acpi_walk_resources {α : Type} (w : WalkResp)
    (cb : acpi_resource → α → acpi_status × α) (ctx : α) : Bool × α :=
  walk_list cb w.status w.resources ctx

/-- The outcome of a function working on one record: return value, the
record afterwards, the call log afterwards. -/
structure LinkResult where
  result : Int
  link : acpi_pci_link
  trace : List Call
  deriving DecidableEq, Repr

/-! ## Discovery -/

/-- The body of the copy loop of `acpi_pci_link_check_possible` at index
`i`: a zero line is skipped, otherwise it is stored at index `i` (as a `u8`)
and `possible_count` is incremented. -/
def check_possible_step (p : acpi_resource) (link : acpi_pci_link) (i : Nat) :
    acpi_pci_link :=
  if p.interrupts.getD i 0 = 0 then link
  else
    { link with irq := { link.irq with
        possible := link.irq.possible.set i (p.interrupts.getD i 0 % 256),
        possible_count := (link.irq.possible_count + 1) % 256 } }

/-- The loop `for (i = 0; i < p->interrupt_count && i < 16; i++)` of
`acpi_pci_link_check_possible`. -/
def check_possible_loop (p : acpi_resource) (link : acpi_pci_link) : acpi_pci_link :=
  (List.range (min p.interrupt_count ACPI_PCI_LINK_MAX_POSSIBLE)).foldl
    (check_possible_step p) link

/-- The walk callback for `_PRS`. -/
def acpi_pci_link_check_possible (resource : acpi_resource) (link : acpi_pci_link) :
    acpi_status × acpi_pci_link :=
  if resource.type = ACPI_RESOURCE_TYPE_START_DEPENDENT ∨
      resource.type = ACPI_RESOURCE_TYPE_END_TAG then
    (acpi_status.AE_OK, link)
  else if resource.type = ACPI_RESOURCE_TYPE_IRQ then
    if resource.interrupt_count = 0 then (acpi_status.AE_OK, link)
    else
      let link1 := check_possible_loop resource link
      (acpi_status.AE_CTRL_TERMINATE,
        { link1 with irq := { link1.irq with
            triggering := resource.triggering % 256,
            polarity := resource.polarity % 256,
            resource_type := ACPI_RESOURCE_TYPE_IRQ } })
  else if resource.type = ACPI_RESOURCE_TYPE_EXTENDED_IRQ then
    if resource.interrupt_count = 0 then (acpi_status.AE_OK, link)
    else
      let link1 := check_possible_loop resource link
      (acpi_status.AE_CTRL_TERMINATE,
        { link1 with irq := { link1.irq with
            triggering := resource.triggering % 256,
            polarity := resource.polarity % 256,
            resource_type := ACPI_RESOURCE_TYPE_EXTENDED_IRQ } })
  else (acpi_status.AE_OK, link)

/-- Embeds `acpi_pci_link_get_possible`: walk `_PRS`. -/
def acpi_pci_link_get_possible (e : Env) (link : acpi_pci_link) (tr : List Call) :
    LinkResult :=
  let w := e.platform.acpi_walk_resources tr link.device Method.PRS
  let tr1 := tr ++ [Call.acpi_walk_resources link.device Method.PRS]
  let r := acpi_walk_resources w acpi_pci_link_check_possible link
  if r.1 = false then ⟨-ENODEV, r.2, tr1⟩ else ⟨0, r.2, tr1⟩

/-- The walk callback for `_CRS`; the context is `int *irq`. -/
def acpi_pci_link_check_current (resource : acpi_resource) (irq : Nat) :
    acpi_status × Nat :=
  if resource.type = ACPI_RESOURCE_TYPE_START_DEPENDENT ∨
      resource.type = ACPI_RESOURCE_TYPE_END_TAG then
    (acpi_status.AE_OK, irq)
  else if resource.type = ACPI_RESOURCE_TYPE_IRQ then
    if resource.interrupt_count = 0 then (acpi_status.AE_OK, irq)
    else (acpi_status.AE_CTRL_TERMINATE, resource.interrupts.getD 0 0)
  else if resource.type = ACPI_RESOURCE_TYPE_EXTENDED_IRQ then
    if resource.interrupt_count = 0 then (acpi_status.AE_OK, irq)
    else (acpi_status.AE_CTRL_TERMINATE, resource.interrupts.getD 0 0)
  else (acpi_status.AE_OK, irq)

/-- The part of `acpi_pci_link_get_current` from the `_CRS` walk on; `link`
already has `active = 0`. -/
def get_current_query (e : Env) (link : acpi_pci_link) (tr : List Call) : LinkResult :=
  let w := e.platform.acpi_walk_resources tr link.device Method.CRS
  let tr1 := tr ++ [Call.acpi_walk_resources link.device Method.CRS]
  let r := acpi_walk_resources w acpi_pci_link_check_current 0
  if r.1 = false then ⟨-ENODEV, link, tr1⟩
  else
    ⟨if e.acpi_strict = true ∧ r.2 = 0 then -ENODEV else 0,
     { link with irq := { link.irq with active := r.2 % 256 } }, tr1⟩

/-- Embeds `acpi_pci_link_get_current`. -/
def acpi_pci_link_get_current (e : Env) (link : acpi_pci_link) (tr : List Call) :
    LinkResult :=
  let link0 : acpi_pci_link := { link with irq := { link.irq with active := 0 } }
  if e.acpi_strict = true then
    let st := e.platform.acpi_bus_get_status tr link.device
    let tr1 := tr ++ [Call.acpi_bus_get_status link.device]
    if st.result ≠ 0 then ⟨st.result, link0, tr1⟩
    else if st.enabled = false then ⟨0, link0, tr1⟩
    else get_current_query e link0 tr1
  else get_current_query e link0 tr

/-! ## Programming a line -/

/-- The resource `acpi_pci_link_set` fills in for the record's
`resource_type` (only called for the two interrupt kinds). -/
def set_resource (link : acpi_pci_link) (irq : Nat) : acpi_srs_resource :=
  { type := link.irq.resource_type,
    producer_consumer :=
      if link.irq.resource_type = ACPI_RESOURCE_TYPE_EXTENDED_IRQ then ACPI_CONSUMER else 0,
    triggering := link.irq.triggering,
    polarity := link.irq.polarity,
    sharable :=
      if link.irq.triggering = ACPI_EDGE_SENSITIVE then ACPI_EXCLUSIVE else ACPI_SHARED,
    interrupt_count := 1,
    interrupt := irq }

/-- Embeds `acpi_pci_link_set`. -/
def acpi_pci_link_set (e : Env) (link : acpi_pci_link) (tr : List Call) (irq : Nat) :
    LinkResult :=
  if irq = 0 then ⟨-EINVAL, link, tr⟩
  else
    let tr1 := tr ++ [Call.kzalloc]
    if e.platform.kzalloc tr = false then ⟨-ENOMEM, link, tr1⟩
    else if link.irq.resource_type ≠ ACPI_RESOURCE_TYPE_IRQ ∧
        link.irq.resource_type ≠ ACPI_RESOURCE_TYPE_EXTENDED_IRQ then
      ⟨-EINVAL, link, tr1⟩
    else
      let res := set_resource link irq
      let tr2 := tr1 ++ [Call.acpi_set_current_resources link.device res]
      if e.platform.acpi_set_current_resources tr1 link.device res = false then
        ⟨-ENODEV, link, tr2⟩
      else
        let st := e.platform.acpi_bus_get_status tr2 link.device
        let tr3 := tr2 ++ [Call.acpi_bus_get_status link.device]
        if st.result ≠ 0 then ⟨st.result, link, tr3⟩
        else
          let g := acpi_pci_link_get_current e link tr3
          if g.result ≠ 0 then g
          else if g.link.irq.active ≠ irq then
            ⟨0, { g.link with irq := { g.link.irq with active := irq % 256 } }, g.trace⟩
          else ⟨0, g.link, g.trace⟩

/-- The call log at the point where `acpi_pci_link_set` re-reads the current
line: the log before the call, then its `kzalloc`, `_SRS` and status calls. -/
def set_readback_trace (link : acpi_pci_link) (tr : List Call) (irq : Nat) : List Call :=
  tr ++ [Call.kzalloc] ++
    [Call.acpi_set_current_resources link.device (set_resource link irq)] ++
    [Call.acpi_bus_get_status link.device]

/-! ## The allocator -/

/-- The outcome of `acpi_pci_link_allocate`. -/
structure AllocResult where
  result : Int
  link : acpi_pci_link
  penalty : PenaltyTable
  trace : List Call

/-- The search loop `for (i = 0; i < possible_count; ++i) if (active ==
possible[i]) break;` with `n` iterations left; the value is `i` at exit. -/
def search_loop (q : acpi_pci_link_irq) : Nat → Nat → Nat
  | 0, i => i
  | n + 1, i => if q.active = q.possible.getD i 0 then i else search_loop q n (i + 1)

/-- Lines 451-466 of `acpi_pci_link_allocate`: forget an active line that is
not among `possible[0 .. possible_count-1]`. -/
def allocate_validate (link : acpi_pci_link) : acpi_pci_link :=
  if search_loop link.irq link.irq.possible_count 0 = link.irq.possible_count then
    { link with irq := { link.irq with active := 0 } }
  else link

/-- The loop `for (i = possible_count - 1; i >= 0; i--) if (penalty[irq] >
penalty[possible[i]]) irq = possible[i];` with `i + 1 = n`. -/
def select_loop (penalty : PenaltyTable) (q : acpi_pci_link_irq) : Nat → Nat → Nat
  | 0, irq => irq
  | n + 1, irq =>
    select_loop penalty q n
      (if penalty irq > penalty (q.possible.getD n 0) then q.possible.getD n 0 else irq)

/-- Lines 468-486 of `acpi_pci_link_allocate`: the line handed to
`acpi_pci_link_set`, computed on the validated record. -/
def allocate_select (e : Env) (link : acpi_pci_link) (penalty : PenaltyTable) : Nat :=
  let irq :=
    if link.irq.active ≠ 0 then link.irq.active
    else link.irq.possible_at ((link.irq.possible_count : Int) - 1)
  if e.acpi_irq_balance ≠ 0 ∨ link.irq.active = 0 then
    select_loop penalty link.irq link.irq.possible_count irq
  else irq

/-- Embeds `acpi_pci_link_allocate`. -/
def acpi_pci_link_allocate (e : Env) (link : acpi_pci_link) (penalty : PenaltyTable)
    (tr : List Call) : AllocResult :=
  if link.irq.initialized = true then
    if link.refcnt = 0 then
      let r := acpi_pci_link_set e link tr link.irq.active
      ⟨0, r.link, penalty, r.trace⟩
    else ⟨0, link, penalty, tr⟩
  else
    let link1 := allocate_validate link
    let irq := allocate_select e link1 penalty
    let r := acpi_pci_link_set e link1 tr irq
    if r.result ≠ 0 then ⟨-ENODEV, r.link, penalty, r.trace⟩
    else
      ⟨0, { r.link with irq := { r.link.irq with initialized := true } },
       Function.update penalty r.link.irq.active
         (penalty r.link.irq.active + PIRQ_PENALTY_PCI_USING),
       r.trace⟩

/-! ## Acquire and release -/

/-- The outcome of `acpi_pci_link_allocate_irq` / `acpi_pci_link_free_irq`:
the return value, the out-parameters written on success, and the record,
table and call log afterwards. -/
structure IrqResult where
  ret : Int
  triggering : Option Nat
  polarity : Option Nat
  name : Option Nat
  link : Option acpi_pci_link
  penalty : PenaltyTable
  trace : List Call

/-- Embeds `acpi_pci_link_allocate_irq`.  `lookup` is the record that
`acpi_bus_get_device` and `acpi_driver_data` find for the handle (`none`
when either fails). -/
def acpi_pci_link_allocate_irq (e : Env) (lookup : Option acpi_pci_link) (index : Int)
    (penalty : PenaltyTable) (tr : List Call) : IrqResult :=
  match lookup with
  | none => ⟨-1, none, none, none, none, penalty, tr⟩
  | some link =>
    if index ≠ 0 then ⟨-1, none, none, none, some link, penalty, tr⟩
    else
      let a := acpi_pci_link_allocate e link penalty (tr ++ [Call.mutex_lock])
      if a.result ≠ 0 then
        ⟨-1, none, none, none, some a.link, a.penalty, a.trace ++ [Call.mutex_unlock]⟩
      else if a.link.irq.active = 0 then
        ⟨-1, none, none, none, some a.link, a.penalty, a.trace ++ [Call.mutex_unlock]⟩
      else
        ⟨a.link.irq.active, some a.link.irq.triggering, some a.link.irq.polarity,
         some a.link.device, some { a.link with refcnt := a.link.refcnt + 1 },
         a.penalty, a.trace ++ [Call.mutex_unlock]⟩

/-- Embeds `acpi_pci_link_free_irq` as compiled: `FUTURE_USE` is not
defined, so the statement `link->refcnt--` is not part of the function. -/
def acpi_pci_link_free_irq (lookup : Option acpi_pci_link) (penalty : PenaltyTable)
    (tr : List Call) : IrqResult :=
  match lookup with
  | none => ⟨-1, none, none, none, none, penalty, tr⟩
  | some link =>
    if link.irq.initialized = false then
      ⟨-1, none, none, none, some link, penalty,
       tr ++ [Call.mutex_lock] ++ [Call.mutex_unlock]⟩
    else if link.refcnt = 0 then
      ⟨link.irq.active, none, none, none, some link, penalty,
       tr ++ [Call.mutex_lock] ++ [Call.acpi_evaluate_DIS link.device] ++
         [Call.mutex_unlock]⟩
    else
      ⟨link.irq.active, none, none, none, some link, penalty,
       tr ++ [Call.mutex_lock] ++ [Call.mutex_unlock]⟩

/-! ## Resume -/

/-- Embeds `acpi_pci_link_resume`. -/
def acpi_pci_link_resume (e : Env) (link : acpi_pci_link) (tr : List Call) : LinkResult :=
  if link.refcnt ≠ 0 ∧ link.irq.active ≠ 0 ∧ link.irq.initialized = true then
    acpi_pci_link_set e link tr link.irq.active
  else ⟨0, link, tr⟩

/-! ## The registry and the operations on it -/

/-- The file's global state: the list `acpi_link_list`, the table
`acpi_irq_penalty`, and the log of calls that left the file. -/
structure State where
  acpi_link_list : List acpi_pci_link
  acpi_irq_penalty : PenaltyTable
  trace : List Call

/-- The state at subsystem start: no link registered, the static table. -/
def State.init : State :=
  { acpi_link_list := [], acpi_irq_penalty := PciLink.acpi_irq_penalty, trace := [] }

/-- Embeds `acpi_pci_link_add`; the record is appended (`list_add_tail`)
only when `_PRS` was walked successfully, and the return value of
`acpi_pci_link_get_current` is dropped as in the source. -/
def acpi_pci_link_add (e : Env) (s : State) (device : Nat) : Int × State :=
  if e.platform.kzalloc s.trace = false then
    (-ENOMEM, { s with trace := s.trace ++ [Call.kzalloc] })
  else
    let p := acpi_pci_link_get_possible e (acpi_pci_link.fresh device)
      (s.trace ++ [Call.kzalloc] ++ [Call.mutex_lock])
    if p.result ≠ 0 then
      (p.result,
        { s with trace := p.trace ++ [Call.acpi_evaluate_DIS device] ++ [Call.mutex_unlock] })
    else
      let c := acpi_pci_link_get_current e p.link p.trace
      (0,
        { acpi_link_list := s.acpi_link_list ++ [c.link],
          acpi_irq_penalty := s.acpi_irq_penalty,
          trace := c.trace ++ [Call.acpi_evaluate_DIS device] ++ [Call.mutex_unlock] })

/-- Embeds `acpi_pci_link_remove` (`list_del`). -/
def acpi_pci_link_remove (s : State) (device : Nat) : Int × State :=
  (0,
    { s with
      acpi_link_list := s.acpi_link_list.filter (fun l => decide (l.device ≠ device)),
      trace := s.trace ++ [Call.mutex_lock] ++ [Call.mutex_unlock] })

/-- The inner loop of `acpi_irq_penalty_init` for one record with a
non-empty `possible`. -/
def penalty_init_possible (share : Int) (q : acpi_pci_link_irq) (penalty : PenaltyTable) :
    PenaltyTable :=
  (List.range q.possible_count).foldl
    (fun t i =>
      if q.possible.getD i 0 < ACPI_MAX_ISA_IRQ then
        Function.update t (q.possible.getD i 0) (t (q.possible.getD i 0) + share)
      else t)
    penalty

/-- The body of the `list_for_each_entry` loop of `acpi_irq_penalty_init`. -/
def penalty_init_link (penalty : PenaltyTable) (link : acpi_pci_link) : PenaltyTable :=
  if link.irq.possible_count ≠ 0 then
    penalty_init_possible (PIRQ_PENALTY_PCI_POSSIBLE / (link.irq.possible_count : Int))
      link.irq penalty
  else if link.irq.active ≠ 0 then
    Function.update penalty link.irq.active
      (penalty link.irq.active + PIRQ_PENALTY_PCI_POSSIBLE)
  else penalty

/-- Embeds `acpi_irq_penalty_init`; `sci` is `acpi_gbl_FADT.sci_interrupt`. -/
def acpi_irq_penalty_init (sci : Nat) (s : State) : Int × State :=
  let t := s.acpi_link_list.foldl penalty_init_link s.acpi_irq_penalty
  (0, { s with acpi_irq_penalty := Function.update t sci (t sci + PIRQ_PENALTY_PCI_USING) })

/-- The `list_for_each_entry` loop of `irqrouter_resume`. -/
def resume_list (e : Env) : List acpi_pci_link → List Call → List acpi_pci_link × List Call
  | [], tr => ([], tr)
  | l :: ls, tr =>
    let r := acpi_pci_link_resume e l tr
    let rest := resume_list e ls r.trace
    (r.link :: rest.1, rest.2)

/-- Embeds `irqrouter_resume`. -/
def irqrouter_resume (e : Env) (s : State) : Int × State :=
  let r := resume_list e s.acpi_link_list s.trace
  (0, { s with acpi_link_list := r.1, trace := r.2 })

/-- The loop of `acpi_irq_penalty_update` with `n` iterations left.  The
list holds what the successive `get_option` calls return: the return value
and the number parsed; an exhausted list is a return value of 0. -/
def penalty_update_loop (used : Bool) : Nat → List (Nat × Int) → PenaltyTable → PenaltyTable
  | 0, _, t => t
  | _ + 1, [], t => t
  | n + 1, (retval, irq) :: rest, t =>
    if retval = 0 then t
    else if irq < 0 then penalty_update_loop used n rest t
    else if irq ≥ (ACPI_MAX_IRQS : Int) then penalty_update_loop used n rest t
    else
      let t1 :=
        if used = true then Function.update t irq.toNat (t irq.toNat + PIRQ_PENALTY_ISA_USED)
        else Function.update t irq.toNat PIRQ_PENALTY_PCI_AVAILABLE
      if retval ≠ 2 then t1 else penalty_update_loop used n rest t1

/-- Embeds `acpi_irq_penalty_update`. -/
def acpi_irq_penalty_update (options : List (Nat × Int)) (used : Bool)
    (penalty : PenaltyTable) : Int × PenaltyTable :=
  (1, penalty_update_loop used 16 options penalty)

/-- Embeds `acpi_penalize_isa_irq`. -/
def acpi_penalize_isa_irq (irq : Int) (active : Int) (penalty : PenaltyTable) : PenaltyTable :=
  if 0 ≤ irq ∧ irq < (ACPI_MAX_IRQS : Int) then
    if active ≠ 0 then Function.update penalty irq.toNat (penalty irq.toNat + PIRQ_PENALTY_ISA_USED)
    else Function.update penalty irq.toNat (penalty irq.toNat + PIRQ_PENALTY_PCI_USING)
  else penalty

/-- The record `acpi_bus_get_device` / `acpi_driver_data` find for a handle:
the registered record of that device. -/
def find_link (ls : List acpi_pci_link) (handle : Nat) : Option acpi_pci_link :=
  ls.find? (fun l => decide (l.device = handle))

/-- Writing through the pointer found by `find_link`. -/
def store_link (handle : Nat) (new : acpi_pci_link) : List acpi_pci_link → List acpi_pci_link
  | [] => []
  | l :: ls => if l.device = handle then new :: ls else l :: store_link handle new ls

/-- The consumer entry point `acquireLine`: `acpi_pci_link_allocate_irq` on
the registered record of `handle`. -/
def acquireLine (e : Env) (s : State) (handle : Nat) (index : Int) : IrqResult × State :=
  let r := acpi_pci_link_allocate_irq e (find_link s.acpi_link_list handle) index
    s.acpi_irq_penalty s.trace
  (r,
    { acpi_link_list :=
        match r.link with
        | some l => store_link handle l s.acpi_link_list
        | none => s.acpi_link_list,
      acpi_irq_penalty := r.penalty,
      trace := r.trace })

/-- The consumer entry point `releaseLine`: `acpi_pci_link_free_irq` on the
registered record of `handle`. -/
def releaseLine (s : State) (handle : Nat) : IrqResult × State :=
  let r := acpi_pci_link_free_irq (find_link s.acpi_link_list handle)
    s.acpi_irq_penalty s.trace
  (r,
    { acpi_link_list :=
        match r.link with
        | some l => store_link handle l s.acpi_link_list
        | none => s.acpi_link_list,
      acpi_irq_penalty := r.penalty,
      trace := r.trace })

/-! ## Sample platforms and records -/

/-- A descriptor of kind `ACPI_RESOURCE_TYPE_IRQ` listing the given lines. -/
def irq_descriptor (lines : List Nat) : acpi_resource :=
  { type := ACPI_RESOURCE_TYPE_IRQ, interrupt_count := lines.length, interrupts := lines,
    triggering := 0, polarity := 0 }

/-- Firmware that advertises lines 9, 10, 11, accepts every `_SRS`, reports
the device enabled and reads back `readback` from `_CRS`. -/
def sample_platform (readback : Nat) : Platform :=
  { kzalloc := fun _ => true,
    acpi_walk_resources := fun _ _ m =>
      match m with
      | Method.PRS => ⟨[irq_descriptor [9, 10, 11]], true⟩
      | Method.CRS => ⟨[irq_descriptor [readback]], true⟩,
    acpi_set_current_resources := fun _ _ _ => true,
    acpi_bus_get_status := fun _ _ => ⟨0, true⟩ }

/-- Firmware as `sample_platform 0`, except that `_CRS` can no longer be
evaluated once twelve calls have been logged. -/
def flaky_platform : Platform :=
  { kzalloc := fun _ => true,
    acpi_walk_resources := fun tr _ m =>
      match m with
      | Method.PRS => ⟨[irq_descriptor [9, 10, 11]], true⟩
      | Method.CRS => if tr.length < 12 then ⟨[], true⟩ else ⟨[], false⟩,
    acpi_set_current_resources := fun _ _ _ => true,
    acpi_bus_get_status := fun _ _ => ⟨0, true⟩ }

/-- Firmware as `sample_platform 0`, except that every `_SRS` is rejected. -/
def rejecting_platform : Platform :=
  { kzalloc := fun _ => true,
    acpi_walk_resources := fun _ _ m =>
      match m with
      | Method.PRS => ⟨[irq_descriptor [9, 10, 11]], true⟩
      | Method.CRS => ⟨[], true⟩,
    acpi_set_current_resources := fun _ _ _ => false,
    acpi_bus_get_status := fun _ _ => ⟨0, true⟩ }

/-- An unbound record of device 1 with `possible = [9, 10, 11]` and the
given active line. -/
def sample_link (active : Nat) : acpi_pci_link :=
  { device := 1,
    irq := { active := active, triggering := 0, polarity := 0,
             resource_type := ACPI_RESOURCE_TYPE_IRQ, possible_count := 3,
             possible := [9, 10, 11, 0, 0, 0, 0, 0, 0, 0, 0, 0, 0, 0, 0, 0],
             initialized := false },
    refcnt := 0 }

/-- Non-strict, non-balancing globals over the given platform. -/
def sample_env (p : Platform) : Env :=
  { platform := p, acpi_strict := false, acpi_irq_balance := 0 }

/-- Device 1 registered against `flaky_platform`. -/
def flaky_registered : State :=
  (acpi_pci_link_add (sample_env flaky_platform) State.init 1).2

/-- Then acquired once. -/
def flaky_acquired : State :=
  (acquireLine (sample_env flaky_platform) flaky_registered 1 0).2

/-- Then taken through a resume. -/
def flaky_resumed : State :=
  (irqrouter_resume (sample_env flaky_platform) flaky_acquired).2

/-- The sample record acquired once on firmware that accepts every
request and reads back line 0. -/
def sample_acquired : IrqResult :=
  acpi_pci_link_allocate_irq (sample_env (sample_platform 0)) (some (sample_link 0)) 0
    acpi_irq_penalty []

/-- A bound record of device 1 with `possible = [9, 10, 11]`, the given
active line and one reference. -/
def bound_link (active : Nat) : acpi_pci_link :=
  { device := 1,
    irq := { active := active, triggering := 0, polarity := 0,
             resource_type := ACPI_RESOURCE_TYPE_IRQ, possible_count := 3,
             possible := [9, 10, 11, 0, 0, 0, 0, 0, 0, 0, 0, 0, 0, 0, 0, 0],
             initialized := true },
    refcnt := 1 }

/-! ## Notions used to state the resume claims -/

/-- Whether a logged call is an `_SRS` request. -/
def Call.is_srs : Call → Bool
  | Call.acpi_set_current_resources _ _ => true
  | _ => false

/-- The test of `acpi_pci_link_resume`: `refcnt && active && initialized`. -/
def resume_applies (link : acpi_pci_link) : Bool :=
  decide (link.refcnt ≠ 0 ∧ link.irq.active ≠ 0 ∧ link.irq.initialized = true)

/-- The `_SRS` request that re-applies a record's stored setting: its
device, and the resource built from its stored `active`, `triggering`,
`polarity` and `resource_type`. -/
def resume_request (link : acpi_pci_link) : Call :=
  Call.acpi_set_current_resources link.device (set_resource link link.irq.active)

/-- Two bound records (devices 1 and 2, lines 11 and 10) and an unbound one
(device 3) on firmware that rejects every `_SRS`. -/
def resume_sample : State :=
  { acpi_link_list :=
      [bound_link 11,
       { bound_link 10 with device := 2 },
       { sample_link 9 with device := 3 }],
    acpi_irq_penalty := PciLink.acpi_irq_penalty,
    trace := [] }

/-! ## Notions used to state the penalty and discovery claims -/

/-- The number of indices `i < possible_count` with `possible[i] = line`. -/
def acpi_pci_link_irq.occurrences (q : acpi_pci_link_irq) (line : Nat) : Nat :=
  ((List.range q.possible_count).filter
    (fun i => decide (q.possible.getD i 0 = line))).length

/-- What one record contributes to `penalty[line]` in the Penalty
Initializer, in the words of the specification: for a non-empty `possible`,
`256 / len(possible)` per occurrence of a legacy line (below 16) and nothing
for other lines; for an empty `possible`, 256 on the nonzero active line. -/
def penalty_init_bias (link : acpi_pci_link) (line : Nat) : Int :=
  if link.irq.possible_count ≠ 0 then
    if line < 16 then
      (256 / (link.irq.possible_count : Int)) * (link.irq.occurrences line : Int)
    else 0
  else if link.irq.active ≠ 0 ∧ link.irq.active = line then 256
  else 0

/-- A registry of two records: `possible = [9, 10, 11]` and an empty
`possible` with the fixed active line 5. -/
def penalty_sample : State :=
  { acpi_link_list :=
      [sample_link 0,
       { device := 2,
         irq := { (acpi_pci_link.fresh 2).irq with active := 5 },
         refcnt := 0 }],
    acpi_irq_penalty := PciLink.acpi_irq_penalty,
    trace := [] }

/-- The effect of an administrative override on one line number, in the
words of the specification: a number outside `0 .. 255` changes nothing;
otherwise `UsedBias` adds the flat used bias and `Available` sets the entry
to the baseline available value. -/
def penalty_override (used : Bool) (t : PenaltyTable) (irq : Int) : PenaltyTable :=
  if irq < 0 ∨ irq ≥ 256 then t
  else if used = true then
    Function.update t irq.toNat (t irq.toNat + PIRQ_PENALTY_ISA_USED)
  else Function.update t irq.toNat PIRQ_PENALTY_PCI_AVAILABLE

/-- An unbound record of device 2 with no possible line and the fixed
active line 5. -/
def fixed_link : acpi_pci_link :=
  { device := 2, irq := { (acpi_pci_link.fresh 2).irq with active := 5 }, refcnt := 0 }

/-- Firmware that advertises lines 9, 10, 11, accepts every `_SRS` and then
reports the device disabled; its `_CRS` lists no line and can be evaluated
exactly when `crs_ok` holds. -/
def disabled_platform (crs_ok : Bool) : Platform :=
  { kzalloc := fun _ => true,
    acpi_walk_resources := fun _ _ m =>
      match m with
      | Method.PRS => ⟨[irq_descriptor [9, 10, 11]], true⟩
      | Method.CRS => ⟨[], crs_ok⟩,
    acpi_set_current_resources := fun _ _ _ => true,
    acpi_bus_get_status := fun _ _ => ⟨0, false⟩ }

/-- The operations that reach the file from outside. -/
inductive Op where
  | add (device : Nat)
  | remove (device : Nat)
  | penalty_init (sci : Nat)
  | acquire (handle : Nat) (index : Int)
  | release (handle : Nat)
  | resume
  | penalty_update (options : List (Nat × Int)) (used : Bool)
  | penalize_isa_irq (irq : Int) (active : Int)

/-- The state after one operation. -/
def step (e : Env) (s : State) : Op → State
  | Op.add device => (acpi_pci_link_add e s device).2
  | Op.remove device => (acpi_pci_link_remove s device).2
  | Op.penalty_init sci => (acpi_irq_penalty_init sci s).2
  | Op.acquire handle index => (acquireLine e s handle index).2
  | Op.release handle => (releaseLine s handle).2
  | Op.resume => (irqrouter_resume e s).2
  | Op.penalty_update options used =>
    { s with acpi_irq_penalty := (acpi_irq_penalty_update options used s.acpi_irq_penalty).2 }
  | Op.penalize_isa_irq irq active =>
    { s with acpi_irq_penalty := acpi_penalize_isa_irq irq active s.acpi_irq_penalty }

/-- The state after a sequence of operations. -/
def run (e : Env) (s : State) (ops : List Op) : State :=
  ops.foldl (step e) s

/-- The array bound on a record: `possible` has its 16 entries and
`possible_count` does not exceed them. -/
def possible_bounded (link : acpi_pci_link) : Prop :=
  link.irq.possible.length = ACPI_PCI_LINK_MAX_POSSIBLE ∧
    link.irq.possible_count ≤ ACPI_PCI_LINK_MAX_POSSIBLE

instance (link : acpi_pci_link) : Decidable (possible_bounded link) := by
  unfold possible_bounded; infer_instance

/-- A record as discovery on a fresh record leaves it: unbound, without a
reference, no active line, and every byte member a `u8`. -/
def discovered (link : acpi_pci_link) : Prop :=
  link.irq.active = 0 ∧ link.irq.triggering < 256 ∧ link.irq.polarity < 256 ∧
    link.irq.resource_type < 256 ∧ (∀ x ∈ link.irq.possible, x < 256) ∧
    link.irq.initialized = false ∧ link.refcnt = 0

/-- The reference-count invariant of a registered record: it is a value of
the C type, `refcnt` is not negative, and a bound record (`initialized`) has
at least one reference. -/
def referenced_when_bound (link : acpi_pci_link) : Prop :=
  link.wf ∧ 0 ≤ link.refcnt ∧ (link.irq.initialized = true → 1 ≤ link.refcnt)

instance (link : acpi_pci_link) : Decidable (referenced_when_bound link) := by
  unfold referenced_when_bound; infer_instance

/-- The forward step of the per-record state machine between a record
before an operation and the record at the same place after it: the same
device, and bound afterwards when bound before. -/
def stays_bound (a b : acpi_pci_link) : Prop :=
  a.device = b.device ∧ (a.irq.initialized = true → b.irq.initialized = true)

instance (a b : acpi_pci_link) : Decidable (stays_bound a b) := by
  unfold stays_bound; infer_instance

/-- The `initialized` flags of the registered records, in registry order. -/
def initialized_flags (s : State) : List Bool :=
  s.acpi_link_list.map (fun l => l.irq.initialized)

/-- Whether a logged call takes or releases `acpi_link_lock`. -/
def Call.is_lock : Call → Bool
  | Call.mutex_lock => true
  | Call.mutex_unlock => true
  | _ => false

/-- Whether a logged call goes to the Resource Provider: a resource walk,
an `_SRS` request, a status query or `_DIS`. -/
def Call.is_provider : Call → Bool
  | Call.acpi_walk_resources _ _ => true
  | Call.acpi_set_current_resources _ _ => true
  | Call.acpi_bus_get_status _ => true
  | Call.acpi_evaluate_DIS _ => true
  | _ => false

/-- The lock discipline on a stretch of the call log, read in order, with
`held` telling whether `acpi_link_lock` is held where the stretch begins:
the lock is taken only when free and released only when held, every Resource
Provider call is made while it is held, and it is free at the end. -/
def locked_calls : Bool → List Call → Bool
  | held, [] => !held
  | held, c :: cs =>
    match c with
    | Call.mutex_lock => !held && locked_calls true cs
    | Call.mutex_unlock => held && locked_calls false cs
    | _ => (held || !c.is_provider) && locked_calls held cs

/-- A descriptor at which the `_PRS` walk ends: a Simple-IRQ or Extended-IRQ
descriptor whose `interrupt_count` is not 0. -/
def ends_walk (r : acpi_resource) : Prop :=
  (r.type = ACPI_RESOURCE_TYPE_IRQ ∨ r.type = ACPI_RESOURCE_TYPE_EXTENDED_IRQ) ∧
    r.interrupt_count ≠ 0

instance (r : acpi_resource) : Decidable (ends_walk r) := by
  unfold ends_walk; infer_instance

/-- Firmware whose `_PRS` walk is `w`, with no current line, that accepts
every `_SRS` and reports the device enabled. -/
def prs_platform (w : WalkResp) : Platform :=
  { kzalloc := fun _ => true,
    acpi_walk_resources := fun _ _ m =>
      match m with
      | Method.PRS => w
      | Method.CRS => ⟨[], true⟩,
    acpi_set_current_resources := fun _ _ _ => true,
    acpi_bus_get_status := fun _ _ => ⟨0, true⟩ }

end PciLink

/-! ## Lemmas on the loops -/

namespace PciLink

theorem search_loop_bounds (q : acpi_pci_link_irq) (n : Nat) :
    ∀ i, i ≤ search_loop q n i ∧ search_loop q n i ≤ i + n := by
  induction n with
  | zero => intro i; simp [search_loop]
  | succ n ih =>
    intro i
    unfold search_loop
    split
    · omega
    · have := ih (i + 1); omega

theorem search_loop_found (q : acpi_pci_link_irq) (n : Nat) :
    ∀ i, search_loop q n i < i + n →
      q.active = q.possible.getD (search_loop q n i) 0 := by
  induction n with
  | zero => intro i h; simp [search_loop] at h
  | succ n ih =>
    intro i h
    unfold search_loop at h ⊢
    split
    · assumption
    · rename_i hne
      rw [if_neg hne] at h
      exact ih (i + 1) (by omega)

theorem search_loop_missing (q : acpi_pci_link_irq) (n : Nat) :
    ∀ i, search_loop q n i = i + n →
      ∀ k, i ≤ k → k < i + n → q.active ≠ q.possible.getD k 0 := by
  induction n with
  | zero => intro i _ k h1 h2; omega
  | succ n ih =>
    intro i h k h1 h2
    unfold search_loop at h
    split at h
    · omega
    · rename_i hne
      by_cases hk : k = i
      · subst hk; exact hne
      · exact ih (i + 1) (by omega) k (by omega) (by omega)

/-- The search loop ends at `possible_count` exactly when the active line is
not among `possible[0 .. possible_count-1]`. -/
theorem search_loop_eq_count_iff (q : acpi_pci_link_irq) :
    search_loop q q.possible_count 0 = q.possible_count ↔ ¬ q.is_possible q.active := by
  constructor
  · intro h ⟨k, hk, hk2⟩
    exact search_loop_missing q q.possible_count 0 (by omega) k (by omega) (by omega) hk2.symm
  · intro h
    by_contra hne
    have hb := search_loop_bounds q q.possible_count 0
    have hlt : search_loop q q.possible_count 0 < 0 + q.possible_count := by omega
    exact h ⟨_, by omega, (search_loop_found q q.possible_count 0 hlt).symm⟩

theorem allocate_validate_of_possible (link : acpi_pci_link)
    (h : link.irq.is_possible link.irq.active) : allocate_validate link = link := by
  unfold allocate_validate
  rw [if_neg]
  rw [search_loop_eq_count_iff]
  exact not_not_intro h

theorem allocate_validate_of_not_possible (link : acpi_pci_link)
    (h : ¬ link.irq.is_possible link.irq.active) :
    allocate_validate link = { link with irq := { link.irq with active := 0 } } := by
  unfold allocate_validate
  rw [if_pos]
  rw [search_loop_eq_count_iff]
  exact h

/-- Validation changes nothing but `active`, and leaves it 0 or possible. -/
theorem allocate_validate_spec (link : acpi_pci_link) :
    allocate_validate link =
        { link with irq := { link.irq with active := (allocate_validate link).irq.active } } ∧
      ((allocate_validate link).irq.active = 0 ∨
        (allocate_validate link = link ∧ link.irq.is_possible link.irq.active)) := by
  by_cases h : link.irq.is_possible link.irq.active
  · rw [allocate_validate_of_possible link h]
    exact ⟨rfl, Or.inr ⟨rfl, h⟩⟩
  · rw [allocate_validate_of_not_possible link h]
    exact ⟨rfl, Or.inl rfl⟩

/-- The reverse scan reads the record only through `possible`. -/
theorem select_loop_congr (penalty : PenaltyTable) (q1 q2 : acpi_pci_link_irq)
    (h : q1.possible = q2.possible) (n : Nat) :
    ∀ irq, select_loop penalty q1 n irq = select_loop penalty q2 n irq := by
  induction n with
  | zero => intro irq; rfl
  | succ n ih =>
    intro irq
    unfold select_loop
    rw [h, ih]

/-- The reverse scan returns the seed or an entry it looked at. -/
theorem select_loop_mem (penalty : PenaltyTable) (q : acpi_pci_link_irq) (n : Nat) :
    ∀ irq, select_loop penalty q n irq = irq ∨
      ∃ i, i < n ∧ q.possible.getD i 0 = select_loop penalty q n irq := by
  induction n with
  | zero => intro irq; simp [select_loop]
  | succ n ih =>
    intro irq
    unfold select_loop
    rcases ih (if penalty irq > penalty (q.possible.getD n 0) then q.possible.getD n 0 else irq)
      with h | ⟨i, hi, h⟩
    · rw [h]
      split
      · exact Or.inr ⟨n, by omega, rfl⟩
      · exact Or.inl rfl
    · exact Or.inr ⟨i, by omega, h⟩

/-- The reverse scan with strict comparison: either the seed survives and
nothing scanned is cheaper, or the result is the entry of the largest index
whose penalty is minimal, strictly cheaper than the seed. -/
theorem select_loop_spec (penalty : PenaltyTable) (q : acpi_pci_link_irq) (n : Nat) :
    ∀ irq,
      (select_loop penalty q n irq = irq ∧
          ∀ i, i < n → penalty irq ≤ penalty (q.possible.getD i 0)) ∨
      ∃ j, j < n ∧ select_loop penalty q n irq = q.possible.getD j 0 ∧
        penalty (q.possible.getD j 0) < penalty irq ∧
        (∀ i, i < n → penalty (q.possible.getD j 0) ≤ penalty (q.possible.getD i 0)) ∧
        ∀ i, j < i → i < n → penalty (q.possible.getD j 0) < penalty (q.possible.getD i 0) := by
  induction n with
  | zero => intro irq; left; simp [select_loop]
  | succ n ih =>
    intro irq
    unfold select_loop
    by_cases hgt : penalty irq > penalty (q.possible.getD n 0)
    · rw [if_pos hgt]
      rcases ih (q.possible.getD n 0) with ⟨h1, h2⟩ | ⟨j, hj, h1, h2, h3, h4⟩
      · right
        refine ⟨n, by omega, h1, hgt, ?_, ?_⟩
        · intro i hi
          by_cases hin : i = n
          · subst hin; exact le_refl _
          · exact h2 i (by omega)
        · intro i hi1 hi2; omega
      · right
        refine ⟨j, by omega, h1, lt_trans h2 hgt, ?_, ?_⟩
        · intro i hi
          by_cases hin : i = n
          · subst hin; exact le_of_lt h2
          · exact h3 i (by omega)
        · intro i hi1 hi2
          by_cases hin : i = n
          · subst hin; exact h2
          · exact h4 i hi1 (by omega)
    · rw [if_neg hgt]
      have hle : penalty irq ≤ penalty (q.possible.getD n 0) := not_lt.mp hgt
      rcases ih irq with ⟨h1, h2⟩ | ⟨j, hj, h1, h2, h3, h4⟩
      · left
        refine ⟨h1, ?_⟩
        intro i hi
        by_cases hin : i = n
        · subst hin; exact hle
        · exact h2 i (by omega)
      · right
        refine ⟨j, by omega, h1, h2, ?_, ?_⟩
        · intro i hi
          by_cases hin : i = n
          · subst hin; exact le_of_lt (lt_of_lt_of_le h2 hle)
          · exact h3 i (by omega)
        · intro i hi1 hi2
          by_cases hin : i = n
          · subst hin; exact lt_of_lt_of_le h2 hle
          · exact h4 i hi1 (by omega)

/-! ## Lemmas on discovery of the current line and on programming a line -/

/-- `acpi_pci_link_get_current` writes no member but `active`. -/
theorem get_current_frame (e : Env) (link : acpi_pci_link) (tr : List Call) :
    (acpi_pci_link_get_current e link tr).link =
      { link with irq := { link.irq with
          active := (acpi_pci_link_get_current e link tr).link.irq.active } } := by
  unfold acpi_pci_link_get_current get_current_query
  simp only []
  split_ifs <;> rfl

/-- `acpi_pci_link_get_current` only appends status and `_CRS` calls. -/
theorem get_current_trace (e : Env) (link : acpi_pci_link) (tr : List Call) :
    ∃ suf, (acpi_pci_link_get_current e link tr).trace = tr ++ suf ∧
      ∀ c ∈ suf, c = Call.acpi_bus_get_status link.device ∨
        c = Call.acpi_walk_resources link.device Method.CRS := by
  unfold acpi_pci_link_get_current get_current_query
  simp only []
  split_ifs
  all_goals first
    | (refine ⟨[Call.acpi_bus_get_status link.device], ?_, ?_⟩ <;> solve | simp)
    | (refine ⟨[Call.acpi_walk_resources link.device Method.CRS], ?_, ?_⟩ <;> solve | simp)
    | (refine ⟨[Call.acpi_bus_get_status link.device,
        Call.acpi_walk_resources link.device Method.CRS], ?_, ?_⟩ <;> solve | simp)

/-- When `acpi_pci_link_get_current` fails with the line it read still
unset, `active` is left 0. -/
theorem get_current_active_of_fail (e : Env) (link : acpi_pci_link) (tr : List Call)
    (h : (acpi_pci_link_get_current e link tr).result ≠ 0) :
    (acpi_pci_link_get_current e link tr).link.irq.active = 0 := by
  revert h
  unfold acpi_pci_link_get_current get_current_query
  simp only []
  split_ifs <;> simp_all

/-- The line `acpi_pci_link_get_current` stores is a `u8`. -/
theorem get_current_active_lt (e : Env) (link : acpi_pci_link) (tr : List Call) :
    (acpi_pci_link_get_current e link tr).link.irq.active < 256 := by
  unfold acpi_pci_link_get_current get_current_query
  simp only []
  split_ifs
  all_goals first
    | exact Nat.mod_lt _ (by decide)
    | exact (by decide : (0 : Nat) < 256)

/-- `acpi_pci_link_set` writes no member but `active`. -/
theorem set_frame (e : Env) (link : acpi_pci_link) (tr : List Call) (irq : Nat) :
    (acpi_pci_link_set e link tr irq).link =
      { link with irq := { link.irq with
          active := (acpi_pci_link_set e link tr irq).link.irq.active } } := by
  unfold acpi_pci_link_set
  simp only []
  split_ifs
  any_goals rfl
  all_goals first
    | exact get_current_frame e link _
    | (have h := get_current_frame e link
          (tr ++ [Call.kzalloc] ++
            [Call.acpi_set_current_resources link.device (set_resource link irq)] ++
            [Call.acpi_bus_get_status link.device])
       rw [h])

/-- After a successful `acpi_pci_link_set` the active line is the one asked
for (as a `u8`), and that line is not 0. -/
theorem set_success (e : Env) (link : acpi_pci_link) (tr : List Call) (irq : Nat)
    (h : (acpi_pci_link_set e link tr irq).result = 0) :
    (acpi_pci_link_set e link tr irq).link.irq.active = irq % 256 ∧ irq ≠ 0 := by
  revert h
  unfold acpi_pci_link_set
  simp only []
  have hlt := get_current_active_lt e link
    (tr ++ [Call.kzalloc] ++
      [Call.acpi_set_current_resources link.device (set_resource link irq)] ++
      [Call.acpi_bus_get_status link.device])
  split_ifs with h1 h2 h3 h4 h5 h6 h7
  all_goals simp_all
  omega

/-- After a failed `acpi_pci_link_set` the active line is what it was, or 0. -/
theorem set_fail_active (e : Env) (link : acpi_pci_link) (tr : List Call) (irq : Nat)
    (h : (acpi_pci_link_set e link tr irq).result ≠ 0) :
    (acpi_pci_link_set e link tr irq).link.irq.active = link.irq.active ∨
      (acpi_pci_link_set e link tr irq).link.irq.active = 0 := by
  revert h
  unfold acpi_pci_link_set
  simp only []
  split_ifs with h1 h2 h3 h4 h5 h6 h7
  any_goals (intro _; left; rfl)
  all_goals first
    | (intro _; right; exact get_current_active_of_fail e link _ h6)
    | (intro h; simp at h)

/-- The calls `acpi_pci_link_set` appends; every `_SRS` among them is for the
record's device and carries the resource built for the line asked for. -/
theorem set_trace (e : Env) (link : acpi_pci_link) (tr : List Call) (irq : Nat) :
    ∃ suf, (acpi_pci_link_set e link tr irq).trace = tr ++ suf ∧
      ∀ h res, Call.acpi_set_current_resources h res ∈ suf →
        h = link.device ∧ res = set_resource link irq := by
  obtain ⟨g, hg1, hg2⟩ := get_current_trace e link
    (tr ++ [Call.kzalloc] ++
      [Call.acpi_set_current_resources link.device (set_resource link irq)] ++
      [Call.acpi_bus_get_status link.device])
  have hgs : ∀ h res, Call.acpi_set_current_resources h res ∉ g := by
    intro h res hm
    rcases hg2 _ hm with h1 | h1 <;> cases h1
  unfold acpi_pci_link_set
  simp only []
  split_ifs
  · exact ⟨[], by simp, by simp⟩
  · exact ⟨[Call.kzalloc], rfl, by simp⟩
  · exact ⟨[Call.kzalloc], rfl, by simp⟩
  · exact ⟨[Call.kzalloc,
      Call.acpi_set_current_resources link.device (set_resource link irq)], by simp,
      by intro h res hm; simp at hm; exact hm⟩
  · exact ⟨[Call.kzalloc,
      Call.acpi_set_current_resources link.device (set_resource link irq),
      Call.acpi_bus_get_status link.device], by simp,
      by intro h res hm; simp at hm; exact hm⟩
  all_goals
    refine ⟨[Call.kzalloc,
      Call.acpi_set_current_resources link.device (set_resource link irq),
      Call.acpi_bus_get_status link.device] ++ g, by simp only [hg1]; simp, ?_⟩
    intro h res hm
    simp at hm
    rcases hm with hm | hm
    · exact hm
    · exact absurd hm (hgs h res)

/-! ## Lemmas on the allocator -/

/-- On a record whose active line is 0 or possible, and whose `possible` is
not empty, the line chosen is one of `possible[0 .. possible_count-1]`. -/
theorem allocate_select_possible (e : Env) (link : acpi_pci_link) (penalty : PenaltyTable)
    (hne : link.irq.possible_count ≠ 0)
    (hact : link.irq.active = 0 ∨ link.irq.is_possible link.irq.active) :
    link.irq.is_possible (allocate_select e link penalty) := by
  have hseed : link.irq.is_possible
      (if link.irq.active ≠ 0 then link.irq.active
        else link.irq.possible_at ((link.irq.possible_count : Int) - 1)) := by
    split
    · rcases hact with h | h
      · contradiction
      · exact h
    · refine ⟨link.irq.possible_count - 1, by omega, ?_⟩
      unfold acpi_pci_link_irq.possible_at
      rw [if_neg (by omega)]
      congr 1
      omega
  unfold allocate_select
  simp only []
  split
  · rcases select_loop_mem penalty link.irq link.irq.possible_count
        (if link.irq.active ≠ 0 then link.irq.active
          else link.irq.possible_at ((link.irq.possible_count : Int) - 1)) with h | ⟨i, hi, h⟩
    · rw [h]; exact hseed
    · exact ⟨i, hi, h⟩
  · exact hseed

/-- A possible line of a well-formed record is a `u8`. -/
theorem is_possible_lt (link : acpi_pci_link) (hwf : link.wf) (line : Nat)
    (h : link.irq.is_possible line) : line < 256 := by
  obtain ⟨i, hi, hl⟩ := h
  obtain ⟨_, _, _, _, hcount, hlen, hall⟩ := hwf
  have hi16 : i < link.irq.possible.length := by
    rw [hlen]; exact lt_of_lt_of_le hi hcount
  rw [List.getD_eq_getElem _ _ hi16] at hl
  rw [← hl]
  exact hall _ (List.getElem_mem _)

/-- Unfolding of `acpi_pci_link_allocate` on an unbound record. -/
theorem allocate_unbound (e : Env) (link : acpi_pci_link) (penalty : PenaltyTable)
    (tr : List Call) (hun : link.irq.initialized = false) :
    acpi_pci_link_allocate e link penalty tr =
      if (acpi_pci_link_set e (allocate_validate link) tr
            (allocate_select e (allocate_validate link) penalty)).result ≠ 0 then
        ⟨-ENODEV,
         (acpi_pci_link_set e (allocate_validate link) tr
            (allocate_select e (allocate_validate link) penalty)).link,
         penalty,
         (acpi_pci_link_set e (allocate_validate link) tr
            (allocate_select e (allocate_validate link) penalty)).trace⟩
      else
        ⟨0,
         { (acpi_pci_link_set e (allocate_validate link) tr
              (allocate_select e (allocate_validate link) penalty)).link with
           irq := { (acpi_pci_link_set e (allocate_validate link) tr
              (allocate_select e (allocate_validate link) penalty)).link.irq with
                initialized := true } },
         Function.update penalty
           (acpi_pci_link_set e (allocate_validate link) tr
              (allocate_select e (allocate_validate link) penalty)).link.irq.active
           (penalty (acpi_pci_link_set e (allocate_validate link) tr
              (allocate_select e (allocate_validate link) penalty)).link.irq.active +
             PIRQ_PENALTY_PCI_USING),
         (acpi_pci_link_set e (allocate_validate link) tr
            (allocate_select e (allocate_validate link) penalty)).trace⟩ := by
  unfold acpi_pci_link_allocate
  simp [hun]

/-- A successful allocation of an unbound record is a successful
`acpi_pci_link_set` of the chosen line on the validated record. -/
theorem allocate_unbound_success (e : Env) (link : acpi_pci_link) (penalty : PenaltyTable)
    (tr : List Call) (hun : link.irq.initialized = false)
    (hok : (acpi_pci_link_allocate e link penalty tr).result = 0) :
    (acpi_pci_link_set e (allocate_validate link) tr
        (allocate_select e (allocate_validate link) penalty)).result = 0 := by
  rw [allocate_unbound e link penalty tr hun] at hok
  by_contra h
  rw [if_pos h] at hok
  simp at hok

/-! ## The allocator's claims -/

/-- C1 (as amended): for every well-formed record that is Unbound
(`initialized = false`) and has a non-empty `possible`, whatever the penalty
table, the balance and strict settings and the platform's behaviour, a
successful `acpi_pci_link_allocate` leaves `active` among
`possible[0 .. possible_count-1]`, with `possible` itself untouched. -/
theorem allocate_unbound_active_possible (e : Env) (link : acpi_pci_link)
    (penalty : PenaltyTable) (tr : List Call) (hwf : link.wf)
    (hne : link.irq.possible_count ≠ 0) (hun : link.irq.initialized = false)
    (hok : (acpi_pci_link_allocate e link penalty tr).result = 0) :
    (acpi_pci_link_allocate e link penalty tr).link.irq.is_possible
        (acpi_pci_link_allocate e link penalty tr).link.irq.active ∧
      (acpi_pci_link_allocate e link penalty tr).link.irq.possible = link.irq.possible ∧
      (acpi_pci_link_allocate e link penalty tr).link.irq.possible_count =
        link.irq.possible_count := by
  have hset := allocate_unbound_success e link penalty tr hun hok
  have hact := (set_success e _ tr _ hset).1
  have hfr := set_frame e (allocate_validate link) tr
    (allocate_select e (allocate_validate link) penalty)
  obtain ⟨hv, hva⟩ := allocate_validate_spec link
  have hvcount : (allocate_validate link).irq.possible_count = link.irq.possible_count := by
    rw [hv]
  have hvposs : (allocate_validate link).irq.possible = link.irq.possible := by
    rw [hv]
  have hsel : (allocate_validate link).irq.is_possible
      (allocate_select e (allocate_validate link) penalty) := by
    apply allocate_select_possible
    · rw [hvcount]; exact hne
    · rcases hva with h | ⟨h1, h2⟩
      · exact Or.inl h
      · rw [h1]; exact Or.inr h2
  have hsel2 : link.irq.is_possible (allocate_select e (allocate_validate link) penalty) := by
    obtain ⟨i, hi, h⟩ := hsel
    exact ⟨i, by rw [← hvcount]; exact hi, by rw [← hvposs]; exact h⟩
  have hlt := is_possible_lt link hwf _ hsel2
  rw [Nat.mod_eq_of_lt hlt] at hact
  rw [allocate_unbound e link penalty tr hun, if_neg (by simpa using hset)]
  refine ⟨?_, ?_, ?_⟩
  · obtain ⟨i, hi, h⟩ := hsel2
    refine ⟨i, ?_, ?_⟩
    · show i < (acpi_pci_link_set e (allocate_validate link) tr
        (allocate_select e (allocate_validate link) penalty)).link.irq.possible_count
      rw [hfr]; show i < (allocate_validate link).irq.possible_count
      rw [hvcount]; exact hi
    · show (acpi_pci_link_set e (allocate_validate link) tr
          (allocate_select e (allocate_validate link) penalty)).link.irq.possible.getD i 0 =
        (acpi_pci_link_set e (allocate_validate link) tr
          (allocate_select e (allocate_validate link) penalty)).link.irq.active
      rw [hact, hfr]
      show (allocate_validate link).irq.possible.getD i 0 = _
      rw [hvposs]; exact h
  · show (acpi_pci_link_set e (allocate_validate link) tr
        (allocate_select e (allocate_validate link) penalty)).link.irq.possible = _
    rw [hfr]; exact hvposs
  · show (acpi_pci_link_set e (allocate_validate link) tr
        (allocate_select e (allocate_validate link) penalty)).link.irq.possible_count = _
    rw [hfr]; exact hvcount

/-- Witness for C1 (as amended): the record with `possible = [9, 10, 11]`
and no active line, allocated on firmware that accepts every request. -/
theorem allocate_unbound_active_possible_witness :
    (acpi_pci_link_allocate (sample_env (sample_platform 0)) (sample_link 0)
          acpi_irq_penalty []).link.irq.is_possible
        (acpi_pci_link_allocate (sample_env (sample_platform 0)) (sample_link 0)
          acpi_irq_penalty []).link.irq.active ∧
      (acpi_pci_link_allocate (sample_env (sample_platform 0)) (sample_link 0)
          acpi_irq_penalty []).link.irq.possible = (sample_link 0).irq.possible ∧
      (acpi_pci_link_allocate (sample_env (sample_platform 0)) (sample_link 0)
          acpi_irq_penalty []).link.irq.possible_count = (sample_link 0).irq.possible_count :=
  allocate_unbound_active_possible (sample_env (sample_platform 0)) (sample_link 0)
    acpi_irq_penalty [] (by decide) (by decide) (by decide) (by decide)

/-- C1 counterexample: device 1 is registered with `possible = [9, 10, 11]`,
acquired (line 11), and resumed on firmware whose `_CRS` fails during the
resume.  The record is then Bound with one reference and `active = 0`;
`acpi_pci_link_allocate` on it returns success and `active` stays 0, which is
not a possible line. -/
theorem allocate_bound_active_not_possible :
    find_link flaky_resumed.acpi_link_list 1 = some (bound_link 0) ∧
      (acpi_pci_link_allocate (sample_env flaky_platform) (bound_link 0)
        flaky_resumed.acpi_irq_penalty flaky_resumed.trace).result = 0 ∧
      (acpi_pci_link_allocate (sample_env flaky_platform) (bound_link 0)
        flaky_resumed.acpi_irq_penalty flaky_resumed.trace).link.irq.active = 0 ∧
      ¬ (acpi_pci_link_allocate (sample_env flaky_platform) (bound_link 0)
          flaky_resumed.acpi_irq_penalty flaky_resumed.trace).link.irq.is_possible
        (acpi_pci_link_allocate (sample_env flaky_platform) (bound_link 0)
          flaky_resumed.acpi_irq_penalty flaky_resumed.trace).link.irq.active := by
  decide

/-- Validation of a record whose active line is 0 or not possible leaves
`active = 0`. -/
theorem allocate_validate_active_zero (link : acpi_pci_link)
    (hact : link.irq.active = 0 ∨ ¬ link.irq.is_possible link.irq.active) :
    (allocate_validate link).irq.active = 0 := by
  by_cases h : link.irq.is_possible link.irq.active
  · rw [allocate_validate_of_possible link h]
    rcases hact with h0 | h0
    · exact h0
    · exact absurd h h0
  · rw [allocate_validate_of_not_possible link h]

/-- The calls an allocation of an unbound record appends are those of
`acpi_pci_link_set`: every `_SRS` among them carries the chosen line. -/
theorem allocate_unbound_srs (e : Env) (link : acpi_pci_link) (penalty : PenaltyTable)
    (tr : List Call) (hun : link.irq.initialized = false) :
    ∀ h res, Call.acpi_set_current_resources h res ∈
        (acpi_pci_link_allocate e link penalty tr).trace.drop tr.length →
      res.interrupt = allocate_select e (allocate_validate link) penalty := by
  obtain ⟨suf, hs1, hs2⟩ := set_trace e (allocate_validate link) tr
    (allocate_select e (allocate_validate link) penalty)
  have htr : (acpi_pci_link_allocate e link penalty tr).trace = tr ++ suf := by
    rw [allocate_unbound e link penalty tr hun]
    split <;> exact hs1
  intro h res hm
  rw [htr, List.drop_left] at hm
  rw [(hs2 h res hm).2]
  rfl

/-- C2: on an Unbound record with non-empty `possible` whose active line is
0 after validation (it is 0, or it is not a possible line), whatever the
balance setting, the line `acpi_pci_link_allocate` hands to
`acpi_pci_link_set` is `possible[j]` for the largest index `j` whose penalty
is minimal over `possible[0 .. possible_count-1]`; every `_SRS` request the
allocation issues carries that line, and on success `active` is that line. -/
theorem allocate_selects_last_minimum (e : Env) (link : acpi_pci_link)
    (penalty : PenaltyTable) (tr : List Call) (hwf : link.wf)
    (hne : link.irq.possible_count ≠ 0) (hun : link.irq.initialized = false)
    (hact : link.irq.active = 0 ∨ ¬ link.irq.is_possible link.irq.active) :
    ∃ j, j < link.irq.possible_count ∧
      allocate_select e (allocate_validate link) penalty = link.irq.possible.getD j 0 ∧
      (∀ i, i < link.irq.possible_count →
        penalty (link.irq.possible.getD j 0) ≤ penalty (link.irq.possible.getD i 0)) ∧
      (∀ i, j < i → i < link.irq.possible_count →
        penalty (link.irq.possible.getD j 0) < penalty (link.irq.possible.getD i 0)) ∧
      (∀ h res, Call.acpi_set_current_resources h res ∈
          (acpi_pci_link_allocate e link penalty tr).trace.drop tr.length →
        res.interrupt = link.irq.possible.getD j 0) ∧
      ((acpi_pci_link_allocate e link penalty tr).result = 0 →
        (acpi_pci_link_allocate e link penalty tr).link.irq.active =
          link.irq.possible.getD j 0) := by
  have hz := allocate_validate_active_zero link hact
  obtain ⟨hv, _⟩ := allocate_validate_spec link
  have hvcount : (allocate_validate link).irq.possible_count = link.irq.possible_count := by
    rw [hv]
  have hvposs : (allocate_validate link).irq.possible = link.irq.possible := by
    rw [hv]
  have hseed : (allocate_validate link).irq.possible_at
      (((allocate_validate link).irq.possible_count : Int) - 1) =
      link.irq.possible.getD (link.irq.possible_count - 1) 0 := by
    unfold acpi_pci_link_irq.possible_at
    rw [hvcount, hvposs, if_neg (by omega)]
    congr 1
    omega
  have hsel : allocate_select e (allocate_validate link) penalty =
      select_loop penalty link.irq link.irq.possible_count
        (link.irq.possible.getD (link.irq.possible_count - 1) 0) := by
    have h1 : allocate_select e (allocate_validate link) penalty =
        select_loop penalty (allocate_validate link).irq
          (allocate_validate link).irq.possible_count
          ((allocate_validate link).irq.possible_at
            (((allocate_validate link).irq.possible_count : Int) - 1)) := by
      unfold allocate_select
      simp [hz]
    rw [h1, hseed, hvcount]
    exact select_loop_congr penalty _ _ hvposs _ _
  have key : ∃ j, j < link.irq.possible_count ∧
      allocate_select e (allocate_validate link) penalty = link.irq.possible.getD j 0 ∧
      (∀ i, i < link.irq.possible_count →
        penalty (link.irq.possible.getD j 0) ≤ penalty (link.irq.possible.getD i 0)) ∧
      (∀ i, j < i → i < link.irq.possible_count →
        penalty (link.irq.possible.getD j 0) < penalty (link.irq.possible.getD i 0)) := by
    rw [hsel]
    rcases select_loop_spec penalty link.irq link.irq.possible_count
        (link.irq.possible.getD (link.irq.possible_count - 1) 0)
      with ⟨h1, h2⟩ | ⟨j, hj, h1, _, h3, h4⟩
    · exact ⟨link.irq.possible_count - 1, by omega, h1, h2, by intro i hi1 hi2; omega⟩
    · exact ⟨j, hj, h1, h3, h4⟩
  obtain ⟨j, hj, hc, hmin, hlast⟩ := key
  refine ⟨j, hj, hc, hmin, hlast, ?_, ?_⟩
  · intro h res hm
    rw [← hc]
    exact allocate_unbound_srs e link penalty tr hun h res hm
  · intro hok
    have hset := allocate_unbound_success e link penalty tr hun hok
    have hactive := (set_success e _ tr _ hset).1
    have hlt : link.irq.possible.getD j 0 < 256 :=
      is_possible_lt link hwf _ ⟨j, hj, rfl⟩
    rw [hc, Nat.mod_eq_of_lt hlt] at hactive
    rw [allocate_unbound e link penalty tr hun, if_neg (by simpa using hset)]
    rw [← hc] at hactive ⊢
    exact hactive

/-- Witness for C2: `possible = [9, 10, 11]`, no active line.  With the
static table (lines 9, 10, 11 all at 0) line 11 is chosen; with only
`penalty[10]` raised line 11 is chosen as well. -/
theorem allocate_selects_last_minimum_witness :
    (∃ j, j < (sample_link 0).irq.possible_count ∧
      allocate_select (sample_env (sample_platform 0)) (allocate_validate (sample_link 0))
          acpi_irq_penalty = (sample_link 0).irq.possible.getD j 0 ∧
      (∀ i, i < (sample_link 0).irq.possible_count →
        acpi_irq_penalty ((sample_link 0).irq.possible.getD j 0) ≤
          acpi_irq_penalty ((sample_link 0).irq.possible.getD i 0)) ∧
      (∀ i, j < i → i < (sample_link 0).irq.possible_count →
        acpi_irq_penalty ((sample_link 0).irq.possible.getD j 0) <
          acpi_irq_penalty ((sample_link 0).irq.possible.getD i 0)) ∧
      (∀ h res, Call.acpi_set_current_resources h res ∈
          (acpi_pci_link_allocate (sample_env (sample_platform 0)) (sample_link 0)
            acpi_irq_penalty []).trace.drop ([] : List Call).length →
        res.interrupt = (sample_link 0).irq.possible.getD j 0) ∧
      ((acpi_pci_link_allocate (sample_env (sample_platform 0)) (sample_link 0)
          acpi_irq_penalty []).result = 0 →
        (acpi_pci_link_allocate (sample_env (sample_platform 0)) (sample_link 0)
          acpi_irq_penalty []).link.irq.active = (sample_link 0).irq.possible.getD j 0)) ∧
      allocate_select (sample_env (sample_platform 0)) (allocate_validate (sample_link 0))
        acpi_irq_penalty = 11 ∧
      (acpi_pci_link_allocate (sample_env (sample_platform 0)) (sample_link 0)
        acpi_irq_penalty []).link.irq.active = 11 ∧
      allocate_select (sample_env (sample_platform 0)) (allocate_validate (sample_link 0))
        (Function.update acpi_irq_penalty 10 PIRQ_PENALTY_PCI_USING) = 11 ∧
      (acpi_pci_link_allocate (sample_env (sample_platform 0)) (sample_link 0)
        (Function.update acpi_irq_penalty 10 PIRQ_PENALTY_PCI_USING) []).link.irq.active = 11 :=
  ⟨allocate_selects_last_minimum (sample_env (sample_platform 0)) (sample_link 0)
      acpi_irq_penalty [] (by decide) (by decide) (by decide) (Or.inl (by decide)),
    by decide, by decide, by decide, by decide⟩

/-- C3 (as amended): when `acpi_pci_link_allocate` on an Unbound record
succeeds and the record ends with `active = l`, `penalty[l]` is its value
before the call plus `PIRQ_PENALTY_PCI_USING` (4096), and no other entry
changes. -/
theorem allocate_unbound_adds_using_penalty (e : Env) (link : acpi_pci_link)
    (penalty : PenaltyTable) (tr : List Call) (l : Nat)
    (hun : link.irq.initialized = false)
    (hok : (acpi_pci_link_allocate e link penalty tr).result = 0)
    (hl : (acpi_pci_link_allocate e link penalty tr).link.irq.active = l) :
    (acpi_pci_link_allocate e link penalty tr).penalty l = penalty l + 4096 ∧
      ∀ k, k ≠ l → (acpi_pci_link_allocate e link penalty tr).penalty k = penalty k := by
  have hset := allocate_unbound_success e link penalty tr hun hok
  rw [allocate_unbound e link penalty tr hun, if_neg (by simpa using hset)] at hl ⊢
  simp only [] at hl
  subst hl
  refine ⟨?_, ?_⟩
  · simp only [Function.update_same]
    norm_num
  · intro k hk
    simp [Function.update_noteq hk]

/-- Witness for C3 (as amended): allocating the sample record chooses line
11 and raises `penalty[11]` from 0 to 4096. -/
theorem allocate_unbound_adds_using_penalty_witness :
    (acpi_pci_link_allocate (sample_env (sample_platform 0)) (sample_link 0)
        acpi_irq_penalty []).penalty 11 = acpi_irq_penalty 11 + 4096 ∧
      ∀ k, k ≠ 11 →
        (acpi_pci_link_allocate (sample_env (sample_platform 0)) (sample_link 0)
          acpi_irq_penalty []).penalty k = acpi_irq_penalty k :=
  allocate_unbound_adds_using_penalty (sample_env (sample_platform 0)) (sample_link 0)
    acpi_irq_penalty [] 11 (by decide) (by decide) (by decide)

/-- C3 counterexample: acquiring the sample record binds it to line 11 with
one reference and `penalty[11] = 4096`; a further `acpi_pci_link_allocate`
on that Bound record, in that state, succeeds and ends with `active = 11`,
yet `penalty[11]` stays 4096 instead of growing by another 4096. -/
theorem allocate_bound_penalty_unchanged :
    sample_acquired.link = some (bound_link 11) ∧
      sample_acquired.penalty 11 = 4096 ∧
      (acpi_pci_link_allocate (sample_env (sample_platform 0)) (bound_link 11)
        sample_acquired.penalty sample_acquired.trace).result = 0 ∧
      (acpi_pci_link_allocate (sample_env (sample_platform 0)) (bound_link 11)
        sample_acquired.penalty sample_acquired.trace).link.irq.active = 11 ∧
      (acpi_pci_link_allocate (sample_env (sample_platform 0)) (bound_link 11)
        sample_acquired.penalty sample_acquired.trace).penalty 11 = 4096 ∧
      (acpi_pci_link_allocate (sample_env (sample_platform 0)) (bound_link 11)
        sample_acquired.penalty sample_acquired.trace).penalty 11 ≠
          sample_acquired.penalty 11 + 4096 := by
  decide

/-- C4: on a record with `initialized = true` and `refcnt > 0`,
`acpi_pci_link_allocate` returns 0 and changes nothing: the record (so
`active`), the penalty table and the call log (so no `_SRS`, no platform call
at all) are what they were; and so they stay however often the call is
repeated. -/
theorem allocate_bound_idempotent (e : Env) (link : acpi_pci_link)
    (penalty : PenaltyTable) (tr : List Call) (hin : link.irq.initialized = true)
    (href : 0 < link.refcnt) :
    acpi_pci_link_allocate e link penalty tr = ⟨0, link, penalty, tr⟩ ∧
      ∀ n : Nat,
        Nat.iterate (fun r => acpi_pci_link_allocate e r.link r.penalty r.trace) n
          ⟨0, link, penalty, tr⟩ = ⟨0, link, penalty, tr⟩ := by
  have h1 : acpi_pci_link_allocate e link penalty tr = ⟨0, link, penalty, tr⟩ := by
    unfold acpi_pci_link_allocate
    rw [if_pos hin, if_neg (by omega)]
  refine ⟨h1, fun n => ?_⟩
  induction n with
  | zero => rfl
  | succ n ih => rw [Function.iterate_succ_apply', ih]; exact h1

/-- Witness for C4: the Bound sample record with one reference. -/
theorem allocate_bound_idempotent_witness :
    acpi_pci_link_allocate (sample_env (sample_platform 0)) (bound_link 11)
        acpi_irq_penalty [] = ⟨0, bound_link 11, acpi_irq_penalty, []⟩ ∧
      ∀ n : Nat,
        Nat.iterate
          (fun r => acpi_pci_link_allocate (sample_env (sample_platform 0))
            r.link r.penalty r.trace) n
          ⟨0, bound_link 11, acpi_irq_penalty, []⟩ = ⟨0, bound_link 11, acpi_irq_penalty, []⟩ :=
  allocate_bound_idempotent (sample_env (sample_platform 0)) (bound_link 11)
    acpi_irq_penalty [] (by decide) (by decide)

/-- Validation gives the same record whether an untrusted active line is
still there or has been replaced by 0. -/
theorem allocate_validate_untrusted (link : acpi_pci_link)
    (hnp : ¬ link.irq.is_possible link.irq.active) :
    allocate_validate link =
      allocate_validate { link with irq := { link.irq with active := 0 } } := by
  rw [allocate_validate_of_not_possible link hnp]
  by_cases h0 : ({ link with irq := { link.irq with active := 0 } } :
      acpi_pci_link).irq.is_possible 0
  · rw [allocate_validate_of_possible _ h0]
  · rw [allocate_validate_of_not_possible _ h0]

/-- C5: on an Unbound record whose active line is not among
`possible[0 .. possible_count-1]`, in strict and non-strict mode alike,
validation clears `active` to 0, and `acpi_pci_link_allocate` then does what
it does on the same record with `active = 0`: same line handed to
`acpi_pci_link_set`, same return value, same final record, penalty table and
call log. -/
theorem allocate_untrusted_active_as_zero (e : Env) (link : acpi_pci_link)
    (penalty : PenaltyTable) (tr : List Call) (hun : link.irq.initialized = false)
    (hnp : ¬ link.irq.is_possible link.irq.active) :
    (allocate_validate link).irq.active = 0 ∧
      allocate_select e (allocate_validate link) penalty =
        allocate_select e
          (allocate_validate { link with irq := { link.irq with active := 0 } }) penalty ∧
      acpi_pci_link_allocate e link penalty tr =
        acpi_pci_link_allocate e { link with irq := { link.irq with active := 0 } }
          penalty tr := by
  refine ⟨allocate_validate_active_zero link (Or.inr hnp), ?_, ?_⟩
  · rw [← allocate_validate_untrusted link hnp]
  · rw [allocate_unbound e link penalty tr hun,
      allocate_unbound e { link with irq := { link.irq with active := 0 } } penalty tr hun,
      ← allocate_validate_untrusted link hnp]

/-- Witness for C5: `active = 7`, `possible = [9, 10, 11]`, strict mode. -/
theorem allocate_untrusted_active_as_zero_witness :
    (allocate_validate (sample_link 7)).irq.active = 0 ∧
      allocate_select ⟨sample_platform 11, true, 0⟩ (allocate_validate (sample_link 7))
          acpi_irq_penalty =
        allocate_select ⟨sample_platform 11, true, 0⟩
          (allocate_validate
            { sample_link 7 with irq := { (sample_link 7).irq with active := 0 } })
          acpi_irq_penalty ∧
      acpi_pci_link_allocate ⟨sample_platform 11, true, 0⟩ (sample_link 7)
          acpi_irq_penalty [] =
        acpi_pci_link_allocate ⟨sample_platform 11, true, 0⟩
          { sample_link 7 with irq := { (sample_link 7).irq with active := 0 } }
          acpi_irq_penalty [] :=
  allocate_untrusted_active_as_zero ⟨sample_platform 11, true, 0⟩ (sample_link 7)
    acpi_irq_penalty [] (by decide) (by decide)

/-! ## Acquire and release: the claims -/

/-- Writing back the record that was found changes nothing. -/
theorem store_link_find (handle : Nat) (link : acpi_pci_link) :
    ∀ ls : List acpi_pci_link, find_link ls handle = some link →
      store_link handle link ls = ls := by
  intro ls
  induction ls with
  | nil => intro _; rfl
  | cons l ls ih =>
    intro h
    unfold find_link at h
    rw [List.find?_cons] at h
    unfold store_link
    by_cases hd : l.device = handle
    · simp [hd] at h
      rw [if_pos hd, h]
    · simp [hd] at h
      rw [if_neg hd, ih h]

/-- C6: with `index ≠ 0`, `acpi_pci_link_allocate_irq` returns -1 whatever
the record, writes no out-parameter, makes no call (the call log is
unchanged) and leaves the record and the penalty table as they were; on the
registry, `acquireLine` returns -1 and leaves the whole state unchanged. -/
theorem allocate_irq_invalid_index (e : Env) (lookup : Option acpi_pci_link)
    (index : Int) (penalty : PenaltyTable) (tr : List Call) (s : State) (handle : Nat)
    (hidx : index ≠ 0) :
    (acpi_pci_link_allocate_irq e lookup index penalty tr).ret = -1 ∧
      (acpi_pci_link_allocate_irq e lookup index penalty tr).link = lookup ∧
      (acpi_pci_link_allocate_irq e lookup index penalty tr).penalty = penalty ∧
      (acpi_pci_link_allocate_irq e lookup index penalty tr).trace = tr ∧
      (acpi_pci_link_allocate_irq e lookup index penalty tr).triggering = none ∧
      (acpi_pci_link_allocate_irq e lookup index penalty tr).polarity = none ∧
      (acquireLine e s handle index).1.ret = -1 ∧
      (acquireLine e s handle index).2 = s := by
  have h1 : ∀ lk : Option acpi_pci_link, ∀ p : PenaltyTable, ∀ t : List Call,
      acpi_pci_link_allocate_irq e lk index p t = ⟨-1, none, none, none, lk, p, t⟩ := by
    intro lk p t
    unfold acpi_pci_link_allocate_irq
    cases lk with
    | none => rfl
    | some l => simp [hidx]
  refine ⟨by rw [h1], by rw [h1], by rw [h1], by rw [h1], by rw [h1], by rw [h1], ?_, ?_⟩
  · unfold acquireLine
    simp only [h1]
  · unfold acquireLine
    simp only [h1]
    cases hf : find_link s.acpi_link_list handle with
    | none => rfl
    | some l => simp only [store_link_find handle l _ hf]

/-- Witness for C6: index 1 on the sample record and on the registry that
holds device 1. -/
theorem allocate_irq_invalid_index_witness :
    (acpi_pci_link_allocate_irq (sample_env (sample_platform 0)) (some (sample_link 0)) 1
        acpi_irq_penalty []).ret = -1 ∧
      (acpi_pci_link_allocate_irq (sample_env (sample_platform 0)) (some (sample_link 0)) 1
        acpi_irq_penalty []).link = some (sample_link 0) ∧
      (acpi_pci_link_allocate_irq (sample_env (sample_platform 0)) (some (sample_link 0)) 1
        acpi_irq_penalty []).penalty = acpi_irq_penalty ∧
      (acpi_pci_link_allocate_irq (sample_env (sample_platform 0)) (some (sample_link 0)) 1
        acpi_irq_penalty []).trace = [] ∧
      (acpi_pci_link_allocate_irq (sample_env (sample_platform 0)) (some (sample_link 0)) 1
        acpi_irq_penalty []).triggering = none ∧
      (acpi_pci_link_allocate_irq (sample_env (sample_platform 0)) (some (sample_link 0)) 1
        acpi_irq_penalty []).polarity = none ∧
      (acquireLine (sample_env (sample_platform 0)) flaky_registered 1 1).1.ret = -1 ∧
      (acquireLine (sample_env (sample_platform 0)) flaky_registered 1 1).2 =
        flaky_registered :=
  allocate_irq_invalid_index (sample_env (sample_platform 0)) (some (sample_link 0)) 1
    acpi_irq_penalty [] flaky_registered 1 (by decide)

/-- `acpi_pci_link_allocate` never writes `refcnt`, `triggering` or
`polarity`. -/
theorem allocate_frame (e : Env) (link : acpi_pci_link) (penalty : PenaltyTable)
    (tr : List Call) :
    (acpi_pci_link_allocate e link penalty tr).link.refcnt = link.refcnt ∧
      (acpi_pci_link_allocate e link penalty tr).link.irq.triggering = link.irq.triggering ∧
      (acpi_pci_link_allocate e link penalty tr).link.irq.polarity = link.irq.polarity := by
  have hv := (allocate_validate_spec link).1
  have hs1 := set_frame e link tr link.irq.active
  have hs2 := set_frame e (allocate_validate link) tr
    (allocate_select e (allocate_validate link) penalty)
  unfold acpi_pci_link_allocate
  simp only []
  split_ifs
  · refine ⟨?_, ?_, ?_⟩ <;> (simp only []; rw [hs1])
  · exact ⟨rfl, rfl, rfl⟩
  · refine ⟨?_, ?_, ?_⟩ <;> (simp only []; rw [hs2]; simp only []; rw [hv])
  · refine ⟨?_, ?_, ?_⟩ <;> (simp only []; rw [hs2]; simp only []; rw [hv])

/-- C7: with index 0, `acpi_pci_link_allocate_irq` adds exactly one to
`refcnt` if and only if it succeeds (returns something other than -1), and
leaves `refcnt` alone when it fails; on success the value returned is the
record's `active`, which is not 0, and the triggering and polarity written
out are the record's; when the allocation succeeds with `active` still 0 the
call fails with `refcnt` unchanged. -/
theorem allocate_irq_refcnt (e : Env) (link : acpi_pci_link) (penalty : PenaltyTable)
    (tr : List Call) :
    ∃ after, (acpi_pci_link_allocate_irq e (some link) 0 penalty tr).link = some after ∧
      (after.refcnt = link.refcnt + 1 ↔
        (acpi_pci_link_allocate_irq e (some link) 0 penalty tr).ret ≠ -1) ∧
      ((acpi_pci_link_allocate_irq e (some link) 0 penalty tr).ret = -1 →
        after.refcnt = link.refcnt) ∧
      ((acpi_pci_link_allocate_irq e (some link) 0 penalty tr).ret ≠ -1 →
        (acpi_pci_link_allocate_irq e (some link) 0 penalty tr).ret = after.irq.active ∧
        after.irq.active ≠ 0 ∧
        (acpi_pci_link_allocate_irq e (some link) 0 penalty tr).triggering =
          some after.irq.triggering ∧
        (acpi_pci_link_allocate_irq e (some link) 0 penalty tr).polarity =
          some after.irq.polarity ∧
        after.irq.triggering = link.irq.triggering ∧
        after.irq.polarity = link.irq.polarity) ∧
      ((acpi_pci_link_allocate e link penalty (tr ++ [Call.mutex_lock])).result = 0 →
        (acpi_pci_link_allocate e link penalty (tr ++ [Call.mutex_lock])).link.irq.active = 0 →
        (acpi_pci_link_allocate_irq e (some link) 0 penalty tr).ret = -1 ∧
        after.refcnt = link.refcnt) := by
  obtain ⟨hr, ht, hp⟩ := allocate_frame e link penalty (tr ++ [Call.mutex_lock])
  by_cases hfail : (acpi_pci_link_allocate e link penalty (tr ++ [Call.mutex_lock])).result ≠ 0 ∨
      (acpi_pci_link_allocate e link penalty (tr ++ [Call.mutex_lock])).link.irq.active = 0
  · have hq : acpi_pci_link_allocate_irq e (some link) 0 penalty tr =
        ⟨-1, none, none, none,
          some (acpi_pci_link_allocate e link penalty (tr ++ [Call.mutex_lock])).link,
          (acpi_pci_link_allocate e link penalty (tr ++ [Call.mutex_lock])).penalty,
          (acpi_pci_link_allocate e link penalty (tr ++ [Call.mutex_lock])).trace ++
            [Call.mutex_unlock]⟩ := by
      unfold acpi_pci_link_allocate_irq
      simp only [ne_eq, not_true_eq_false, if_false]
      rcases hfail with h | h
      · rw [if_pos h]
      · split_ifs <;> rfl
    rw [hq]
    refine ⟨_, rfl, ?_, ?_, ?_, ?_⟩
    · simp only [hr]
      constructor
      · intro h; omega
      · intro h; exact absurd rfl h
    · intro _; exact hr
    · intro h; exact absurd rfl h
    · intro _ _; exact ⟨rfl, hr⟩
  · have hres : (acpi_pci_link_allocate e link penalty (tr ++ [Call.mutex_lock])).result = 0 := by
      by_contra h; exact hfail (Or.inl h)
    have hnz : (acpi_pci_link_allocate e link penalty (tr ++ [Call.mutex_lock])).link.irq.active
        ≠ 0 := by
      intro h; exact hfail (Or.inr h)
    have hq : acpi_pci_link_allocate_irq e (some link) 0 penalty tr =
        ⟨(acpi_pci_link_allocate e link penalty (tr ++ [Call.mutex_lock])).link.irq.active,
          some (acpi_pci_link_allocate e link penalty (tr ++ [Call.mutex_lock])).link.irq.triggering,
          some (acpi_pci_link_allocate e link penalty (tr ++ [Call.mutex_lock])).link.irq.polarity,
          some (acpi_pci_link_allocate e link penalty (tr ++ [Call.mutex_lock])).link.device,
          some { (acpi_pci_link_allocate e link penalty (tr ++ [Call.mutex_lock])).link with
            refcnt :=
              (acpi_pci_link_allocate e link penalty (tr ++ [Call.mutex_lock])).link.refcnt + 1 },
          (acpi_pci_link_allocate e link penalty (tr ++ [Call.mutex_lock])).penalty,
          (acpi_pci_link_allocate e link penalty (tr ++ [Call.mutex_lock])).trace ++
            [Call.mutex_unlock]⟩ := by
      unfold acpi_pci_link_allocate_irq
      simp only [ne_eq, not_true_eq_false, if_false]
      rw [if_neg (by simpa using hres), if_neg hnz]
    rw [hq]
    refine ⟨_, rfl, ?_, ?_, ?_, ?_⟩
    · simp only [hr]
      constructor
      · intro _ h; omega
      · intro _; trivial
    · intro h; simp only [] at h; omega
    · intro _; exact ⟨rfl, hnz, rfl, rfl, ht, hp⟩
    · intro _ h0; exact absurd h0 hnz

/-- Witness for C7: acquiring the sample record on firmware that accepts
every request. -/
theorem allocate_irq_refcnt_witness :
    ∃ after,
      (acpi_pci_link_allocate_irq (sample_env (sample_platform 0)) (some (sample_link 0)) 0
        acpi_irq_penalty []).link = some after ∧
      (after.refcnt = (sample_link 0).refcnt + 1 ↔
        (acpi_pci_link_allocate_irq (sample_env (sample_platform 0)) (some (sample_link 0)) 0
          acpi_irq_penalty []).ret ≠ -1) ∧
      ((acpi_pci_link_allocate_irq (sample_env (sample_platform 0)) (some (sample_link 0)) 0
          acpi_irq_penalty []).ret = -1 →
        after.refcnt = (sample_link 0).refcnt) ∧
      ((acpi_pci_link_allocate_irq (sample_env (sample_platform 0)) (some (sample_link 0)) 0
          acpi_irq_penalty []).ret ≠ -1 →
        (acpi_pci_link_allocate_irq (sample_env (sample_platform 0)) (some (sample_link 0)) 0
          acpi_irq_penalty []).ret = after.irq.active ∧
        after.irq.active ≠ 0 ∧
        (acpi_pci_link_allocate_irq (sample_env (sample_platform 0)) (some (sample_link 0)) 0
          acpi_irq_penalty []).triggering = some after.irq.triggering ∧
        (acpi_pci_link_allocate_irq (sample_env (sample_platform 0)) (some (sample_link 0)) 0
          acpi_irq_penalty []).polarity = some after.irq.polarity ∧
        after.irq.triggering = (sample_link 0).irq.triggering ∧
        after.irq.polarity = (sample_link 0).irq.polarity) ∧
      ((acpi_pci_link_allocate (sample_env (sample_platform 0)) (sample_link 0)
          acpi_irq_penalty ([] ++ [Call.mutex_lock])).result = 0 →
        (acpi_pci_link_allocate (sample_env (sample_platform 0)) (sample_link 0)
          acpi_irq_penalty ([] ++ [Call.mutex_lock])).link.irq.active = 0 →
        (acpi_pci_link_allocate_irq (sample_env (sample_platform 0)) (some (sample_link 0)) 0
          acpi_irq_penalty []).ret = -1 ∧
        after.refcnt = (sample_link 0).refcnt) :=
  allocate_irq_refcnt (sample_env (sample_platform 0)) (sample_link 0) acpi_irq_penalty []

/-- C8 (as amended): on an initialized record `acpi_pci_link_free_irq`
leaves `refcnt` (and the whole record, and the penalty table) as it was,
returns the active line, and evaluates `_DIS` exactly when that unchanged
`refcnt` is 0; with `refcnt ≥ 1` it makes no call to the firmware. -/
theorem free_irq_keeps_refcnt (link : acpi_pci_link) (penalty : PenaltyTable)
    (tr : List Call) (hin : link.irq.initialized = true) :
    (acpi_pci_link_free_irq (some link) penalty tr).link = some link ∧
      (acpi_pci_link_free_irq (some link) penalty tr).penalty = penalty ∧
      (acpi_pci_link_free_irq (some link) penalty tr).ret = link.irq.active ∧
      (acpi_pci_link_free_irq (some link) penalty tr).trace =
        tr ++ [Call.mutex_lock] ++
          (if link.refcnt = 0 then [Call.acpi_evaluate_DIS link.device] else []) ++
          [Call.mutex_unlock] ∧
      (Call.acpi_evaluate_DIS link.device ∈
          (acpi_pci_link_free_irq (some link) penalty tr).trace.drop tr.length ↔
        link.refcnt = 0) := by
  have hq : acpi_pci_link_free_irq (some link) penalty tr =
      ⟨link.irq.active, none, none, none, some link, penalty,
        tr ++ [Call.mutex_lock] ++
          (if link.refcnt = 0 then [Call.acpi_evaluate_DIS link.device] else []) ++
          [Call.mutex_unlock]⟩ := by
    unfold acpi_pci_link_free_irq
    by_cases h0 : link.refcnt = 0
    · simp [hin, h0]
    · simp [hin, h0]
  rw [hq]
  refine ⟨rfl, rfl, rfl, rfl, ?_⟩
  simp only [List.append_assoc, List.drop_left]
  by_cases h0 : link.refcnt = 0
  · simp [h0]
  · simp [h0]

/-- Witness for C8 (as amended): the Bound sample record with one
reference. -/
theorem free_irq_keeps_refcnt_witness :
    (acpi_pci_link_free_irq (some (bound_link 11)) acpi_irq_penalty []).link =
        some (bound_link 11) ∧
      (acpi_pci_link_free_irq (some (bound_link 11)) acpi_irq_penalty []).penalty =
        acpi_irq_penalty ∧
      (acpi_pci_link_free_irq (some (bound_link 11)) acpi_irq_penalty []).ret =
        (bound_link 11).irq.active ∧
      (acpi_pci_link_free_irq (some (bound_link 11)) acpi_irq_penalty []).trace =
        [] ++ [Call.mutex_lock] ++
          (if (bound_link 11).refcnt = 0 then [Call.acpi_evaluate_DIS (bound_link 11).device]
            else []) ++
          [Call.mutex_unlock] ∧
      (Call.acpi_evaluate_DIS (bound_link 11).device ∈
          (acpi_pci_link_free_irq (some (bound_link 11)) acpi_irq_penalty []).trace.drop
            ([] : List Call).length ↔
        (bound_link 11).refcnt = 0) :=
  free_irq_keeps_refcnt (bound_link 11) acpi_irq_penalty [] (by decide)

/-- C8 counterexample: acquiring the fresh sample record leaves it Bound
with `refcnt = 1`; the release that follows leaves `refcnt = 1`, not 0, and
the calls it adds are the lock and the unlock only, with no `_DIS`. -/
theorem free_irq_no_decrement :
    sample_acquired.link = some (bound_link 11) ∧
      (bound_link 11).refcnt = 1 ∧
      (acpi_pci_link_free_irq (some (bound_link 11)) sample_acquired.penalty
        sample_acquired.trace).link = some (bound_link 11) ∧
      (acpi_pci_link_free_irq (some (bound_link 11)) sample_acquired.penalty
        sample_acquired.trace).trace.drop sample_acquired.trace.length =
        [Call.mutex_lock, Call.mutex_unlock] ∧
      Call.acpi_evaluate_DIS 1 ∉
        (acpi_pci_link_free_irq (some (bound_link 11)) sample_acquired.penalty
          sample_acquired.trace).trace := by
  decide

/-! ## Failure and readback of the set operation: the claims -/

/-- A failed `acpi_pci_link_set` leaves the record Unbound and the table
untouched, and `acpi_pci_link_allocate` reports `-ENODEV`. -/
theorem allocate_fails_of_set_fails (e : Env) (link : acpi_pci_link)
    (penalty : PenaltyTable) (tr : List Call) (hun : link.irq.initialized = false)
    (hset : (acpi_pci_link_set e (allocate_validate link) tr
      (allocate_select e (allocate_validate link) penalty)).result ≠ 0) :
    (acpi_pci_link_allocate e link penalty tr).result = -ENODEV ∧
      (acpi_pci_link_allocate e link penalty tr).link.irq.initialized = false ∧
      (acpi_pci_link_allocate e link penalty tr).penalty = penalty := by
  have hfr := set_frame e (allocate_validate link) tr
    (allocate_select e (allocate_validate link) penalty)
  have hv := (allocate_validate_spec link).1
  rw [allocate_unbound e link penalty tr hun, if_pos hset]
  refine ⟨rfl, ?_, rfl⟩
  simp only []
  rw [hfr]
  simp only []
  rw [hv]
  exact hun

/-- C9: on an Unbound record, if `acpi_pci_link_set` fails for the chosen
line (the firmware rejects `_SRS`, the resource type cannot be encoded, or
any later step of the set fails), `acpi_pci_link_allocate` returns the error
`-ENODEV`, the record stays Unbound and the penalty table is untouched; and
`acpi_pci_link_allocate_irq`, whose allocation runs after the lock is taken,
returns -1 to its caller with the record Unbound and `refcnt` unchanged. -/
theorem allocate_set_failure (e : Env) (link : acpi_pci_link) (penalty : PenaltyTable)
    (tr : List Call) (hun : link.irq.initialized = false) :
    ((acpi_pci_link_set e (allocate_validate link) tr
        (allocate_select e (allocate_validate link) penalty)).result ≠ 0 →
      (acpi_pci_link_allocate e link penalty tr).result = -ENODEV ∧
      (acpi_pci_link_allocate e link penalty tr).link.irq.initialized = false ∧
      (acpi_pci_link_allocate e link penalty tr).penalty = penalty) ∧
    ((acpi_pci_link_set e (allocate_validate link) (tr ++ [Call.mutex_lock])
        (allocate_select e (allocate_validate link) penalty)).result ≠ 0 →
      (acpi_pci_link_allocate_irq e (some link) 0 penalty tr).ret = -1 ∧
      (acpi_pci_link_allocate_irq e (some link) 0 penalty tr).penalty = penalty ∧
      ∃ after, (acpi_pci_link_allocate_irq e (some link) 0 penalty tr).link = some after ∧
        after.irq.initialized = false ∧ after.refcnt = link.refcnt) := by
  refine ⟨allocate_fails_of_set_fails e link penalty tr hun, ?_⟩
  intro hset
  obtain ⟨h1, h2, h3⟩ :=
    allocate_fails_of_set_fails e link penalty (tr ++ [Call.mutex_lock]) hun hset
  have hr := (allocate_frame e link penalty (tr ++ [Call.mutex_lock])).1
  have hq : acpi_pci_link_allocate_irq e (some link) 0 penalty tr =
      ⟨-1, none, none, none,
        some (acpi_pci_link_allocate e link penalty (tr ++ [Call.mutex_lock])).link,
        (acpi_pci_link_allocate e link penalty (tr ++ [Call.mutex_lock])).penalty,
        (acpi_pci_link_allocate e link penalty (tr ++ [Call.mutex_lock])).trace ++
          [Call.mutex_unlock]⟩ := by
    unfold acpi_pci_link_allocate_irq
    simp only [ne_eq, not_true_eq_false, if_false]
    rw [if_pos (by rw [h1]; decide)]
  rw [hq]
  exact ⟨rfl, h3, _, rfl, h2, hr⟩

/-- Witness for C9: the sample record on firmware that rejects every
`_SRS`. -/
theorem allocate_set_failure_witness :
    ((acpi_pci_link_allocate (sample_env rejecting_platform) (sample_link 0)
          acpi_irq_penalty []).result = -ENODEV ∧
      (acpi_pci_link_allocate (sample_env rejecting_platform) (sample_link 0)
          acpi_irq_penalty []).link.irq.initialized = false ∧
      (acpi_pci_link_allocate (sample_env rejecting_platform) (sample_link 0)
          acpi_irq_penalty []).penalty = acpi_irq_penalty) ∧
    ((acpi_pci_link_allocate_irq (sample_env rejecting_platform) (some (sample_link 0)) 0
          acpi_irq_penalty []).ret = -1 ∧
      (acpi_pci_link_allocate_irq (sample_env rejecting_platform) (some (sample_link 0)) 0
          acpi_irq_penalty []).penalty = acpi_irq_penalty ∧
      ∃ after,
        (acpi_pci_link_allocate_irq (sample_env rejecting_platform) (some (sample_link 0)) 0
          acpi_irq_penalty []).link = some after ∧
        after.irq.initialized = false ∧ after.refcnt = (sample_link 0).refcnt) :=
  ⟨(allocate_set_failure (sample_env rejecting_platform) (sample_link 0)
      acpi_irq_penalty [] (by decide)).1 (by decide),
   (allocate_set_failure (sample_env rejecting_platform) (sample_link 0)
      acpi_irq_penalty [] (by decide)).2 (by decide)⟩

/-- When the status query (strict mode) and the `_CRS` walk succeed and the
walk reads a line that strict mode accepts, `acpi_pci_link_get_current`
succeeds. -/
theorem get_current_readback (e : Env) (link : acpi_pci_link) (tr : List Call) (r : Nat)
    (hstrict : e.acpi_strict = true →
      (e.platform.acpi_bus_get_status tr link.device).result = 0 ∧
      (e.platform.acpi_bus_get_status tr link.device).enabled = true ∧ r ≠ 0)
    (hrb : acpi_walk_resources
        (e.platform.acpi_walk_resources
          (if e.acpi_strict = true then tr ++ [Call.acpi_bus_get_status link.device] else tr)
          link.device Method.CRS)
        acpi_pci_link_check_current 0 = (true, r)) :
    (acpi_pci_link_get_current e link tr).result = 0 := by
  unfold acpi_pci_link_get_current get_current_query
  by_cases hs : e.acpi_strict = true
  · obtain ⟨h1, h2, h3⟩ := hstrict hs
    rw [if_pos hs] at hrb
    simp [hs, h1, h2, hrb, h3]
  · rw [if_neg hs] at hrb
    simp [hs, hrb]

/-- With an empty `possible` the line chosen is 0. -/
theorem allocate_select_empty (e : Env) (link : acpi_pci_link) (penalty : PenaltyTable)
    (h0 : link.irq.possible_count = 0) :
    allocate_select e (allocate_validate link) penalty = 0 := by
  have hv : allocate_validate link = { link with irq := { link.irq with active := 0 } } := by
    unfold allocate_validate
    rw [h0]
    rfl
  rw [hv]
  unfold allocate_select acpi_pci_link_irq.possible_at
  simp [h0, select_loop]

/-- C10 (as amended): on an Unbound record with chosen line `c`, if the
`_SRS` call and the status query after it succeed and the `_CRS` readback
then reports a line `r` (whatever it is, so in particular `r ≠ c`), the
allocation succeeds, ends with `active = c` and marks the record Bound:
in non-strict mode for every `r`, 0 included; in strict mode for every
`r ≠ 0` read from a device that reports enabled. -/
theorem allocate_readback_mismatch (e : Env) (link : acpi_pci_link)
    (penalty : PenaltyTable) (tr : List Call) (c r : Nat) (hwf : link.wf)
    (hun : link.irq.initialized = false)
    (hc : allocate_select e (allocate_validate link) penalty = c) (hc0 : c ≠ 0)
    (hk : e.platform.kzalloc tr = true)
    (hty : link.irq.resource_type = ACPI_RESOURCE_TYPE_IRQ ∨
      link.irq.resource_type = ACPI_RESOURCE_TYPE_EXTENDED_IRQ)
    (hsrs : e.platform.acpi_set_current_resources (tr ++ [Call.kzalloc]) link.device
      (set_resource link c) = true)
    (hsta : (e.platform.acpi_bus_get_status
      (tr ++ [Call.kzalloc] ++
        [Call.acpi_set_current_resources link.device (set_resource link c)])
      link.device).result = 0)
    (hstrict : e.acpi_strict = true →
      (e.platform.acpi_bus_get_status (set_readback_trace link tr c) link.device).result = 0 ∧
      (e.platform.acpi_bus_get_status (set_readback_trace link tr c) link.device).enabled
        = true ∧ r ≠ 0)
    (hrb : acpi_walk_resources
        (e.platform.acpi_walk_resources
          (if e.acpi_strict = true then
            set_readback_trace link tr c ++ [Call.acpi_bus_get_status link.device]
           else set_readback_trace link tr c)
          link.device Method.CRS)
        acpi_pci_link_check_current 0 = (true, r)) :
    (acpi_pci_link_allocate e link penalty tr).result = 0 ∧
      (acpi_pci_link_allocate e link penalty tr).link.irq.active = c ∧
      (acpi_pci_link_allocate e link penalty tr).link.irq.initialized = true := by
  obtain ⟨hv, hva⟩ := allocate_validate_spec link
  have hdev : (allocate_validate link).device = link.device := by rw [hv]
  have hres : set_resource (allocate_validate link) c = set_resource link c := by
    rw [hv]; rfl
  have htype : (allocate_validate link).irq.resource_type = link.irq.resource_type := by
    rw [hv]
  have hcount : link.irq.possible_count ≠ 0 := by
    intro h0
    exact hc0 (by rw [← hc]; exact allocate_select_empty e link penalty h0)
  have hposs : link.irq.is_possible c := by
    have h1 : (allocate_validate link).irq.is_possible
        (allocate_select e (allocate_validate link) penalty) := by
      apply allocate_select_possible
      · rw [hv]; exact hcount
      · rcases hva with h | ⟨h1, h2⟩
        · exact Or.inl h
        · rw [h1]; exact Or.inr h2
    rw [hc] at h1
    obtain ⟨i, hi, h⟩ := h1
    rw [hv] at hi h
    exact ⟨i, hi, h⟩
  have hlt : c < 256 := is_possible_lt link hwf c hposs
  have hget : (acpi_pci_link_get_current e (allocate_validate link)
      (set_readback_trace link tr c)).result = 0 := by
    apply get_current_readback e (allocate_validate link) (set_readback_trace link tr c) r
    · rw [hdev]; exact hstrict
    · rw [hdev]; exact hrb
  have hset : (acpi_pci_link_set e (allocate_validate link) tr c).result = 0 := by
    unfold acpi_pci_link_set
    simp only [hdev, hres, htype]
    unfold set_readback_trace at hget
    rw [if_neg hc0, if_neg (by rw [hk]; decide), if_neg (by omega),
      if_neg (by rw [hsrs]; decide), if_neg (not_not_intro hsta),
      if_neg (not_not_intro hget)]
    split_ifs <;> rfl
  have hact := (set_success e (allocate_validate link) tr c hset).1
  rw [Nat.mod_eq_of_lt hlt] at hact
  rw [allocate_unbound e link penalty tr hun, hc, if_neg (by simp [hset])]
  exact ⟨rfl, hact, rfl⟩

/-- Witness for C10 (as amended): the sample record in strict mode; the
line chosen and set is 11, the readback reports 5, and the record ends Bound
to line 11. -/
theorem allocate_readback_mismatch_witness :
    (acpi_pci_link_allocate ⟨sample_platform 5, true, 0⟩ (sample_link 0)
        acpi_irq_penalty []).result = 0 ∧
      (acpi_pci_link_allocate ⟨sample_platform 5, true, 0⟩ (sample_link 0)
        acpi_irq_penalty []).link.irq.active = 11 ∧
      (acpi_pci_link_allocate ⟨sample_platform 5, true, 0⟩ (sample_link 0)
        acpi_irq_penalty []).link.irq.initialized = true :=
  allocate_readback_mismatch ⟨sample_platform 5, true, 0⟩ (sample_link 0)
    acpi_irq_penalty [] 11 5 (by decide) (by decide) (by decide) (by decide) (by decide)
    (by decide) (by decide) (by decide) (by decide) (by decide)

/-- C10 counterexample: strict mode, the sample record, firmware that
accepts the `_SRS` for the chosen line 11 and then reads back line 0.  The
allocation fails with `-ENODEV`, the record stays Unbound and `active` is 0,
not 11. -/
theorem allocate_strict_readback_zero_fails :
    allocate_select ⟨sample_platform 0, true, 0⟩ (allocate_validate (sample_link 0))
        acpi_irq_penalty = 11 ∧
      (acpi_pci_link_allocate ⟨sample_platform 0, true, 0⟩ (sample_link 0)
        acpi_irq_penalty []).trace =
        [Call.kzalloc,
         Call.acpi_set_current_resources 1 (set_resource (sample_link 0) 11),
         Call.acpi_bus_get_status 1, Call.acpi_bus_get_status 1,
         Call.acpi_walk_resources 1 Method.CRS] ∧
      (sample_platform 0).acpi_set_current_resources [Call.kzalloc] 1
        (set_resource (sample_link 0) 11) = true ∧
      acpi_walk_resources
        ((sample_platform 0).acpi_walk_resources
          (set_readback_trace (sample_link 0) [] 11 ++ [Call.acpi_bus_get_status 1]) 1
          Method.CRS)
        acpi_pci_link_check_current 0 = (true, 0) ∧
      (acpi_pci_link_allocate ⟨sample_platform 0, true, 0⟩ (sample_link 0)
        acpi_irq_penalty []).result = -ENODEV ∧
      (acpi_pci_link_allocate ⟨sample_platform 0, true, 0⟩ (sample_link 0)
        acpi_irq_penalty []).link.irq.initialized = false ∧
      (acpi_pci_link_allocate ⟨sample_platform 0, true, 0⟩ (sample_link 0)
        acpi_irq_penalty []).link.irq.active = 0 := by
  decide

/-! ## Resume: lemmas and claims -/

/-- The calls `acpi_pci_link_get_current` appends hold no `_SRS` and no
`kzalloc`. -/
theorem get_current_calls (e : Env) (link : acpi_pci_link) (tr : List Call) :
    ∃ suf, (acpi_pci_link_get_current e link tr).trace = tr ++ suf ∧
      suf.filter Call.is_srs = [] ∧ suf.count Call.kzalloc = 0 := by
  obtain ⟨suf, h1, h2⟩ := get_current_trace e link tr
  refine ⟨suf, h1, ?_, ?_⟩
  · rw [List.filter_eq_nil_iff]
    intro c hc
    rcases h2 c hc with h | h <;> (rw [h]; simp [Call.is_srs])
  · rw [List.count_eq_zero]
    intro hc
    rcases h2 _ hc with h | h <;> cases h

/-- The calls one `acpi_pci_link_set` for a nonzero line appends: exactly
one `kzalloc`, at most one `_SRS`, which is the request for that line, and
exactly that one when the allocation succeeds and the resource type can be
encoded. -/
theorem set_calls (e : Env) (link : acpi_pci_link) (tr : List Call) (irq : Nat)
    (hirq : irq ≠ 0) :
    ∃ suf, (acpi_pci_link_set e link tr irq).trace = tr ++ suf ∧
      suf.count Call.kzalloc = 1 ∧
      (suf.filter Call.is_srs = [] ∨
        suf.filter Call.is_srs =
          [Call.acpi_set_current_resources link.device (set_resource link irq)]) ∧
      (e.platform.kzalloc tr = true →
        (link.irq.resource_type = ACPI_RESOURCE_TYPE_IRQ ∨
          link.irq.resource_type = ACPI_RESOURCE_TYPE_EXTENDED_IRQ) →
        suf.filter Call.is_srs =
          [Call.acpi_set_current_resources link.device (set_resource link irq)]) := by
  obtain ⟨g, hg1, hg2, hg3⟩ := get_current_calls e link
    (tr ++ [Call.kzalloc] ++
      [Call.acpi_set_current_resources link.device (set_resource link irq)] ++
      [Call.acpi_bus_get_status link.device])
  have hlong : ∀ suf, suf = [Call.kzalloc,
        Call.acpi_set_current_resources link.device (set_resource link irq),
        Call.acpi_bus_get_status link.device] ++ g →
      suf.count Call.kzalloc = 1 ∧
      suf.filter Call.is_srs =
        [Call.acpi_set_current_resources link.device (set_resource link irq)] := by
    intro suf hs
    subst hs
    constructor
    · rw [List.count_append, hg3]; simp
    · rw [List.filter_append, hg2]; rfl
  unfold acpi_pci_link_set
  simp only []
  rw [if_neg hirq]
  split_ifs with h2 h3 h4 h5 h6 h7
  · exact ⟨[Call.kzalloc], rfl, by decide, Or.inl rfl,
      fun hk _ => absurd h2 (by rw [hk]; decide)⟩
  · exact ⟨[Call.kzalloc], rfl, by decide, Or.inl rfl,
      fun _ ht => by omega⟩
  · exact ⟨[Call.kzalloc,
      Call.acpi_set_current_resources link.device (set_resource link irq)],
      by simp, by simp, Or.inr rfl, fun _ _ => rfl⟩
  · exact ⟨[Call.kzalloc,
      Call.acpi_set_current_resources link.device (set_resource link irq),
      Call.acpi_bus_get_status link.device],
      by simp, by simp, Or.inr rfl, fun _ _ => rfl⟩
  all_goals
    obtain ⟨hc, hf⟩ := hlong _ rfl
    exact ⟨_, by simp only [hg1]; simp, hc, Or.inr hf, fun _ _ => hf⟩

/-- Unfolding of the test of `acpi_pci_link_resume`. -/
theorem resume_applies_iff (link : acpi_pci_link) :
    resume_applies link = true ↔
      link.refcnt ≠ 0 ∧ link.irq.active ≠ 0 ∧ link.irq.initialized = true := by
  unfold resume_applies
  exact decide_eq_true_iff

/-- The calls `acpi_pci_link_resume` appends for one record. -/
theorem resume_calls (e : Env) (link : acpi_pci_link) (tr : List Call) :
    ∃ suf, (acpi_pci_link_resume e link tr).trace = tr ++ suf ∧
      suf.count Call.kzalloc = (if resume_applies link = true then 1 else 0) ∧
      (suf.filter Call.is_srs).Sublist
        (if resume_applies link = true then [resume_request link] else []) ∧
      (e.platform.kzalloc tr = true →
        (link.irq.resource_type = ACPI_RESOURCE_TYPE_IRQ ∨
          link.irq.resource_type = ACPI_RESOURCE_TYPE_EXTENDED_IRQ) →
        suf.filter Call.is_srs =
          (if resume_applies link = true then [resume_request link] else [])) := by
  unfold acpi_pci_link_resume
  by_cases h : resume_applies link = true
  · have h3 := (resume_applies_iff link).mp h
    obtain ⟨suf, h1, h2, h4, h5⟩ := set_calls e link tr link.irq.active h3.2.1
    rw [if_pos h3]
    simp only [if_pos h]
    refine ⟨suf, h1, h2, ?_, h5⟩
    rcases h4 with h4 | h4
    · rw [h4]; exact List.nil_sublist _
    · rw [h4]; exact List.Sublist.refl _
  · have h3 : ¬ (link.refcnt ≠ 0 ∧ link.irq.active ≠ 0 ∧ link.irq.initialized = true) :=
      fun hc => h ((resume_applies_iff link).mpr hc)
    rw [if_neg h3]
    simp only [if_neg h]
    exact ⟨[], by simp, rfl, List.Sublist.refl _, fun _ _ => rfl⟩

/-- The calls the loop of `irqrouter_resume` appends. -/
theorem resume_list_calls (e : Env) :
    ∀ (ls : List acpi_pci_link) (tr : List Call),
      ∃ suf, (resume_list e ls tr).2 = tr ++ suf ∧
        suf.count Call.kzalloc = (ls.filter resume_applies).length ∧
        (suf.filter Call.is_srs).Sublist ((ls.filter resume_applies).map resume_request) ∧
        ((∀ t, e.platform.kzalloc t = true) →
          (∀ l ∈ ls, l.irq.resource_type = ACPI_RESOURCE_TYPE_IRQ ∨
            l.irq.resource_type = ACPI_RESOURCE_TYPE_EXTENDED_IRQ) →
          suf.filter Call.is_srs = (ls.filter resume_applies).map resume_request) := by
  intro ls
  induction ls with
  | nil => intro tr; exact ⟨[], by simp [resume_list], rfl, List.Sublist.refl _, fun _ _ => rfl⟩
  | cons l ls ih =>
    intro tr
    obtain ⟨s1, h1, h2, h3, h4⟩ := resume_calls e l tr
    obtain ⟨s2, k1, k2, k3, k4⟩ := ih (acpi_pci_link_resume e l tr).trace
    refine ⟨s1 ++ s2, ?_, ?_, ?_, ?_⟩
    · unfold resume_list
      simp only []
      rw [k1, h1, List.append_assoc]
    · rw [List.count_append, h2, k2]
      by_cases h : resume_applies l = true
      · rw [if_pos h, List.filter_cons_of_pos h, List.length_cons]; omega
      · rw [if_neg h, List.filter_cons_of_neg h]; omega
    · rw [List.filter_append]
      by_cases h : resume_applies l = true
      · rw [if_pos h] at h3
        rw [List.filter_cons_of_pos h, List.map_cons]
        exact List.Sublist.append h3 k3
      · rw [if_neg h] at h3
        rw [List.filter_cons_of_neg h, List.eq_nil_of_sublist_nil h3]
        exact k3
    · intro hk ht
      rw [List.filter_append, h4 (hk tr) (ht l (List.mem_cons_self _ _)),
        k4 hk (fun x hx => ht x (List.mem_cons_of_mem _ hx))]
      by_cases h : resume_applies l = true
      · rw [if_pos h, List.filter_cons_of_pos h, List.map_cons]; rfl
      · rw [if_neg h, List.filter_cons_of_neg h]; rfl

/-- The loop of `irqrouter_resume` leaves records it does not re-apply, and
the call log, alone when no record passes the test. -/
theorem resume_list_skip (e : Env) :
    ∀ (ls : List acpi_pci_link) (tr : List Call),
      (∀ l ∈ ls, resume_applies l = false) → resume_list e ls tr = (ls, tr) := by
  intro ls
  induction ls with
  | nil => intro tr _; rfl
  | cons l ls ih =>
    intro tr h
    have hl : ¬ (l.refcnt ≠ 0 ∧ l.irq.active ≠ 0 ∧ l.irq.initialized = true) := by
      intro hc
      have := (resume_applies_iff l).mpr hc
      rw [h l (List.mem_cons_self _ _)] at this
      cases this
    unfold resume_list acpi_pci_link_resume
    simp only [if_neg hl]
    rw [ih tr (fun x hx => h x (List.mem_cons_of_mem _ hx))]

/-- C11: `acpi_pci_link_resume` does nothing for a record whose `refcnt` is
0 or whose `active` is 0 (record and call log unchanged, so no set is
issued); every `_SRS` request that `irqrouter_resume` adds to the log is the
re-apply request of a registered record with `refcnt ≠ 0` and `active ≠ 0`;
and when every registered record has `refcnt = 0` or `active = 0` the resume
adds no call at all and changes no record. -/
theorem resume_skips_unreferenced (e : Env) (s : State) (link : acpi_pci_link)
    (tr : List Call) :
    ((link.refcnt = 0 ∨ link.irq.active = 0) →
      acpi_pci_link_resume e link tr = ⟨0, link, tr⟩) ∧
    (∀ c ∈ (irqrouter_resume e s).2.trace.drop s.trace.length, c.is_srs = true →
      ∃ l ∈ s.acpi_link_list, l.refcnt ≠ 0 ∧ l.irq.active ≠ 0 ∧ c = resume_request l) ∧
    ((∀ l ∈ s.acpi_link_list, l.refcnt = 0 ∨ l.irq.active = 0) →
      (irqrouter_resume e s).2.trace = s.trace ∧
      (irqrouter_resume e s).2.acpi_link_list = s.acpi_link_list) := by
  refine ⟨?_, ?_, ?_⟩
  · intro h
    unfold acpi_pci_link_resume
    rw [if_neg]
    rintro ⟨h1, h2, _⟩
    rcases h with h | h
    · exact h1 h
    · exact h2 h
  · obtain ⟨suf, h1, _, h3, _⟩ := resume_list_calls e s.acpi_link_list s.trace
    intro c hc hsrs
    have htr : (irqrouter_resume e s).2.trace = s.trace ++ suf := h1
    rw [htr, List.drop_left] at hc
    have hmem : c ∈ suf.filter Call.is_srs := List.mem_filter.mpr ⟨hc, hsrs⟩
    obtain ⟨l, hl, hlc⟩ := List.mem_map.mp (h3.subset hmem)
    obtain ⟨hl1, hl2⟩ := List.mem_filter.mp hl
    obtain ⟨ha, hb, _⟩ := (resume_applies_iff l).mp hl2
    exact ⟨l, hl1, ha, hb, hlc.symm⟩
  · intro h
    have hskip := resume_list_skip e s.acpi_link_list s.trace (by
      intro l hl
      cases hr : resume_applies l with
      | false => rfl
      | true =>
        obtain ⟨ha, hb, _⟩ := (resume_applies_iff l).mp hr
        rcases h l hl with h0 | h0
        · exact absurd h0 ha
        · exact absurd h0 hb)
    unfold irqrouter_resume
    rw [hskip]
    exact ⟨rfl, rfl⟩

/-- Witness for C11: the registry of `resume_sample`, whose third record is
unbound with no reference, on firmware that rejects every `_SRS`. -/
theorem resume_skips_unreferenced_witness :
    acpi_pci_link_resume (sample_env rejecting_platform) { sample_link 9 with device := 3 } [] =
        ⟨0, { sample_link 9 with device := 3 }, []⟩ ∧
      (∀ c ∈ (irqrouter_resume (sample_env rejecting_platform) resume_sample).2.trace.drop
            resume_sample.trace.length, c.is_srs = true →
        ∃ l ∈ resume_sample.acpi_link_list,
          l.refcnt ≠ 0 ∧ l.irq.active ≠ 0 ∧ c = resume_request l) ∧
      (irqrouter_resume (sample_env rejecting_platform) resume_sample).2.trace.filter
          Call.is_srs =
        [resume_request (bound_link 11), resume_request { bound_link 10 with device := 2 }] :=
  ⟨(resume_skips_unreferenced (sample_env rejecting_platform) resume_sample
      { sample_link 9 with device := 3 } []).1 (Or.inl (by decide)),
   (resume_skips_unreferenced (sample_env rejecting_platform) resume_sample
      { sample_link 9 with device := 3 } []).2.1,
   by decide⟩

/-- C12: `irqrouter_resume` returns 0 whatever the firmware does.  Every
record that passes the test `refcnt && active && initialized` (so every
initialized record with `refcnt > 0` and `active ≠ 0`) has
`acpi_pci_link_set` entered exactly once (one `kzalloc` per such record);
the `_SRS` requests issued are, in registry order and at most once each, the
requests built from the stored `active`, `triggering`, `polarity` and
`resource_type`; and when allocations succeed and the resource types can be
encoded they are exactly those requests, one per such record, whether the
individual sets then succeed or fail. -/
theorem irqrouter_resume_reapplies (e : Env) (s : State) :
    (irqrouter_resume e s).1 = 0 ∧
    ((irqrouter_resume e s).2.trace.drop s.trace.length).count Call.kzalloc =
      (s.acpi_link_list.filter resume_applies).length ∧
    (((irqrouter_resume e s).2.trace.drop s.trace.length).filter Call.is_srs).Sublist
      ((s.acpi_link_list.filter resume_applies).map resume_request) ∧
    ((∀ t, e.platform.kzalloc t = true) →
      (∀ l ∈ s.acpi_link_list, l.irq.resource_type = ACPI_RESOURCE_TYPE_IRQ ∨
        l.irq.resource_type = ACPI_RESOURCE_TYPE_EXTENDED_IRQ) →
      ((irqrouter_resume e s).2.trace.drop s.trace.length).filter Call.is_srs =
        (s.acpi_link_list.filter resume_applies).map resume_request) ∧
    (∀ l : acpi_pci_link, 0 < l.refcnt → l.irq.active ≠ 0 → l.irq.initialized = true →
      resume_applies l = true) ∧
    (∀ l : acpi_pci_link,
      resume_request l =
        Call.acpi_set_current_resources l.device (set_resource l l.irq.active) ∧
      (set_resource l l.irq.active).interrupt = l.irq.active ∧
      (set_resource l l.irq.active).triggering = l.irq.triggering ∧
      (set_resource l l.irq.active).polarity = l.irq.polarity ∧
      (set_resource l l.irq.active).type = l.irq.resource_type) := by
  obtain ⟨suf, h1, h2, h3, h4⟩ := resume_list_calls e s.acpi_link_list s.trace
  have htr : (irqrouter_resume e s).2.trace = s.trace ++ suf := h1
  rw [htr, List.drop_left]
  refine ⟨rfl, h2, h3, h4, ?_, ?_⟩
  · intro l hr ha hi
    exact (resume_applies_iff l).mpr ⟨by omega, ha, hi⟩
  · intro l
    exact ⟨rfl, rfl, rfl, rfl, rfl⟩

/-- Witness for C12: the registry of `resume_sample` on firmware that
rejects every `_SRS`.  Both bound records are re-applied, in registry order,
although the first set already fails. -/
theorem irqrouter_resume_reapplies_witness :
    (acpi_pci_link_set (sample_env rejecting_platform) (bound_link 11) [] 11).result ≠ 0 ∧
      (irqrouter_resume (sample_env rejecting_platform) resume_sample).1 = 0 ∧
      ((irqrouter_resume (sample_env rejecting_platform) resume_sample).2.trace.drop
          resume_sample.trace.length).filter Call.is_srs =
        (resume_sample.acpi_link_list.filter resume_applies).map resume_request ∧
      (resume_sample.acpi_link_list.filter resume_applies).map resume_request =
        [resume_request (bound_link 11), resume_request { bound_link 10 with device := 2 }] :=
  ⟨by decide,
   (irqrouter_resume_reapplies (sample_env rejecting_platform) resume_sample).1,
   (irqrouter_resume_reapplies (sample_env rejecting_platform) resume_sample).2.2.2.1
      (fun _ => rfl) (by decide),
   by decide⟩

/-! ## The Penalty Initializer: lemmas and claim -/

/-- A loop that adds `share` at `v i` for each `i < n` with `v i < 16`
adds, at every legacy line, `share` per index holding that line. -/
theorem penalty_fold_range (share : Int) (v : Nat → Nat) (penalty : PenaltyTable)
    (line : Nat) :
    ∀ n : Nat,
      ((List.range n).foldl
        (fun t i => if v i < 16 then Function.update t (v i) (t (v i) + share) else t)
        penalty) line =
      penalty line +
        (if line < 16 then
          share * (((List.range n).filter (fun i => decide (v i = line))).length : Int)
         else 0) := by
  intro n
  induction n with
  | zero => simp
  | succ n ih =>
    rw [List.range_succ, List.foldl_append, List.filter_append, List.length_append]
    simp only [List.foldl_cons, List.foldl_nil]
    by_cases hp : v n < 16
    · rw [if_pos hp]
      by_cases hl : v n = line
      · subst hl
        rw [Function.update_same, ih]
        simp only [hp, if_true, List.filter_cons, decide_True, List.filter_nil,
          List.length_cons, List.length_nil]
        push_cast
        ring
      · rw [Function.update_noteq (Ne.symm hl), ih]
        simp [List.filter_cons, hl]
    · rw [if_neg hp, ih]
      by_cases hl : v n = line
      · subst hl
        simp [hp]
      · simp [List.filter_cons, hl]

/-- The inner loop of the initializer over the first `n` entries. -/
theorem penalty_init_range (share : Int) (q : acpi_pci_link_irq) (penalty : PenaltyTable)
    (line : Nat) (n : Nat) :
      ((List.range n).foldl
        (fun t i =>
          if q.possible.getD i 0 < ACPI_MAX_ISA_IRQ then
            Function.update t (q.possible.getD i 0) (t (q.possible.getD i 0) + share)
          else t) penalty) line =
      penalty line +
        (if line < 16 then
          share * (((List.range n).filter
            (fun i => decide (q.possible.getD i 0 = line))).length : Int)
         else 0) :=
  penalty_fold_range share (fun i => q.possible.getD i 0) penalty line n

/-- One record adds its bias to every entry. -/
theorem penalty_init_link_entry (penalty : PenaltyTable) (link : acpi_pci_link)
    (line : Nat) :
    penalty_init_link penalty link line = penalty line + penalty_init_bias link line := by
  unfold penalty_init_link penalty_init_bias
  by_cases hc : link.irq.possible_count ≠ 0
  · rw [if_pos hc, if_pos hc]
    unfold penalty_init_possible acpi_pci_link_irq.occurrences
    exact penalty_init_range _ link.irq penalty line link.irq.possible_count
  · rw [if_neg hc, if_neg hc]
    by_cases ha : link.irq.active ≠ 0
    · rw [if_pos ha]
      by_cases hl : link.irq.active = line
      · rw [if_pos ⟨ha, hl⟩, hl, Function.update_same]
        norm_num
      · rw [if_neg (fun h => hl h.2), Function.update_noteq (Ne.symm hl)]
        ring
    · rw [if_neg ha, if_neg (fun h => ha h.1)]
      ring

/-- The registry loop adds the biases of all records. -/
theorem penalty_init_list_entry (line : Nat) :
    ∀ (ls : List acpi_pci_link) (penalty : PenaltyTable),
      (ls.foldl penalty_init_link penalty) line =
        penalty line + (ls.map (fun link => penalty_init_bias link line)).sum := by
  intro ls
  induction ls with
  | nil => intro penalty; simp
  | cons l ls ih =>
    intro penalty
    rw [List.foldl_cons, ih, penalty_init_link_entry, List.map_cons, List.sum_cons]
    ring

/-- The entry of line `l` after `acpi_irq_penalty_init`: its prior value,
the bias of each record, and 4096 on the SCI line. -/
theorem penalty_init_sum (sci : Nat) (s : State) (l : Nat) :
    (acpi_irq_penalty_init sci s).2.acpi_irq_penalty l =
      s.acpi_irq_penalty l +
        (s.acpi_link_list.map (fun link => penalty_init_bias link l)).sum +
        (if l = sci then 4096 else 0) := by
  unfold acpi_irq_penalty_init
  simp only []
  by_cases hl : l = sci
  · rw [if_pos hl, hl, Function.update_same, penalty_init_list_entry]
    norm_num
  · rw [if_neg hl, Function.update_noteq hl, penalty_init_list_entry]
    ring

/-- C13: after `acpi_irq_penalty_init`, for every registry, every initial
table, every SCI line and every line `l`, `penalty[l]` is its prior value
plus the bias of each record (for a non-empty `possible`,
`256 / possible_count` per occurrence of `l` in `possible` when `l < 16`
and nothing when `l ≥ 16`; for an empty `possible`, 256 when `l` is the
nonzero active line) plus 4096 when `l` is the SCI line; the function
returns 0 and changes nothing else.  On an empty registry the only change is
the 4096 at the SCI line. -/
theorem penalty_init_entry (sci : Nat) (s : State) (l : Nat) :
    (acpi_irq_penalty_init sci s).2.acpi_irq_penalty l =
        s.acpi_irq_penalty l +
          (s.acpi_link_list.map (fun link => penalty_init_bias link l)).sum +
          (if l = sci then 4096 else 0) ∧
      (acpi_irq_penalty_init sci s).1 = 0 ∧
      (acpi_irq_penalty_init sci s).2.acpi_link_list = s.acpi_link_list ∧
      (acpi_irq_penalty_init sci s).2.trace = s.trace ∧
      (s.acpi_link_list = [] →
        (acpi_irq_penalty_init sci s).2.acpi_irq_penalty l =
          s.acpi_irq_penalty l + (if l = sci then 4096 else 0)) := by
  have h1 := penalty_init_sum sci s l
  refine ⟨h1, rfl, rfl, rfl, ?_⟩
  intro hnil
  rw [h1, hnil]
  simp

/-- Witness for C13: the registry of `penalty_sample` with SCI line 9.
Line 9 gets `256 / 3 = 85` from the first record and 4096 as SCI line, line
5 gets 256 from the fixed assignment of the second record, and on the empty
registry only the SCI line changes. -/
theorem penalty_init_entry_witness :
    (acpi_irq_penalty_init 9 penalty_sample).2.acpi_irq_penalty 9 =
        penalty_sample.acpi_irq_penalty 9 +
          (penalty_sample.acpi_link_list.map (fun link => penalty_init_bias link 9)).sum +
          (if 9 = 9 then 4096 else 0) ∧
      (acpi_irq_penalty_init 9 penalty_sample).2.acpi_irq_penalty 9 = 85 + 4096 ∧
      (acpi_irq_penalty_init 9 penalty_sample).2.acpi_irq_penalty 10 = 85 ∧
      (acpi_irq_penalty_init 9 penalty_sample).2.acpi_irq_penalty 5 =
        PIRQ_PENALTY_ISA_TYPICAL + 256 ∧
      (acpi_irq_penalty_init 9 State.init).2.acpi_irq_penalty 9 = 4096 ∧
      (acpi_irq_penalty_init 9 State.init).2.acpi_irq_penalty 10 = 0 :=
  ⟨(penalty_init_entry 9 penalty_sample 9).1, by decide, by decide, by decide,
   by decide, by decide⟩

/-! ## Discovery of the possible lines: lemmas and claims -/

/-- C14, the code at a failing input: a Simple-IRQ descriptor listing
`[0, 5]`, walked on a fresh record.  The valid line 5 is stored at index 1
while `possible_count` becomes 1, so `possible[0 .. possible_count-1]` is
`[0]`: the zero value is in it and line 5 is not, where the claim gives
`[5]`.  The record can then not be allocated. -/
theorem get_possible_leaves_hole :
    (acpi_pci_link_get_possible (sample_env (prs_platform ⟨[irq_descriptor [0, 5]], true⟩))
        (acpi_pci_link.fresh 1) []).result = 0 ∧
      (acpi_pci_link_get_possible (sample_env (prs_platform ⟨[irq_descriptor [0, 5]], true⟩))
        (acpi_pci_link.fresh 1) []).link.irq.possible_count = 1 ∧
      (acpi_pci_link_get_possible (sample_env (prs_platform ⟨[irq_descriptor [0, 5]], true⟩))
        (acpi_pci_link.fresh 1) []).link.irq.possible =
          [0, 5, 0, 0, 0, 0, 0, 0, 0, 0, 0, 0, 0, 0, 0, 0] ∧
      (acpi_pci_link_get_possible (sample_env (prs_platform ⟨[irq_descriptor [0, 5]], true⟩))
        (acpi_pci_link.fresh 1) []).link.irq.is_possible 0 ∧
      ¬ (acpi_pci_link_get_possible (sample_env (prs_platform ⟨[irq_descriptor [0, 5]], true⟩))
        (acpi_pci_link.fresh 1) []).link.irq.is_possible 5 ∧
      (acpi_pci_link_allocate (sample_env (prs_platform ⟨[irq_descriptor [0, 5]], true⟩))
        (acpi_pci_link_get_possible (sample_env (prs_platform ⟨[irq_descriptor [0, 5]], true⟩))
          (acpi_pci_link.fresh 1) []).link acpi_irq_penalty []).result = -ENODEV := by
  decide

/-- A descriptor that does not end the walk leaves the record alone. -/
theorem check_possible_continue (r : acpi_resource) (link : acpi_pci_link)
    (h : ¬ ends_walk r) :
    acpi_pci_link_check_possible r link = (acpi_status.AE_OK, link) := by
  unfold ends_walk at h
  unfold acpi_pci_link_check_possible
  split_ifs with h1 h2 h3 h4 h5
  all_goals first
    | rfl
    | (exfalso; exact h ⟨Or.inl h2, h3⟩)
    | (exfalso; exact h ⟨Or.inr h4, h5⟩)

/-- A descriptor that ends the walk does so whatever its lines are. -/
theorem check_possible_terminate (r : acpi_resource) (link : acpi_pci_link)
    (h : ends_walk r) :
    (acpi_pci_link_check_possible r link).1 = acpi_status.AE_CTRL_TERMINATE := by
  obtain ⟨ht, hc⟩ := h
  unfold acpi_pci_link_check_possible
  rcases ht with ht | ht
  · rw [if_neg (by rw [ht]; decide), if_pos ht, if_neg hc]
  · rw [if_neg (by rw [ht]; decide), if_neg (by rw [ht]; decide), if_pos ht, if_neg hc]

/-- The walk over descriptors of which the first that ends the walk is `d`. -/
theorem walk_list_stops (final : Bool) (d : acpi_resource) (post : List acpi_resource)
    (hd : ends_walk d) :
    ∀ (pre : List acpi_resource) (link : acpi_pci_link),
      (∀ r ∈ pre, ¬ ends_walk r) →
      walk_list acpi_pci_link_check_possible final (pre ++ d :: post) link =
        (true, (acpi_pci_link_check_possible d link).2) := by
  intro pre
  induction pre with
  | nil =>
    intro link _
    have h := check_possible_terminate d link hd
    rw [List.nil_append]
    unfold walk_list
    cases hc : acpi_pci_link_check_possible d link with
    | mk st l2 =>
      rw [hc] at h
      simp only [] at h
      subst h
      rfl
  | cons r rs ih =>
    intro link h
    rw [List.cons_append]
    unfold walk_list
    rw [check_possible_continue r link (h r (List.mem_cons_self _ _))]
    exact ih link (fun x hx => h x (List.mem_cons_of_mem _ hx))

/-- The walk over descriptors none of which ends it. -/
theorem walk_list_through (final : Bool) :
    ∀ (ds : List acpi_resource) (link : acpi_pci_link),
      (∀ r ∈ ds, ¬ ends_walk r) →
      walk_list acpi_pci_link_check_possible final ds link = (final, link) := by
  intro ds
  induction ds with
  | nil => intro link _; rfl
  | cons r rs ih =>
    intro link h
    unfold walk_list
    rw [check_possible_continue r link (h r (List.mem_cons_self _ _))]
    exact ih link (fun x hx => h x (List.mem_cons_of_mem _ hx))

/-- C15 (as amended): the `_PRS` walk stops at the first Simple-IRQ or
Extended-IRQ descriptor whose `interrupt_count` is not 0, whatever lines it
lists.  Descriptors before it (blank ones, other kinds) leave the record
unchanged and do not end the walk, the record is what the callback makes of
that one descriptor, and the descriptors after it have no effect; when no
descriptor ends the walk the record is unchanged. -/
theorem get_possible_stops_at_first (e : Env) (link : acpi_pci_link) (tr : List Call) :
    (∀ (pre post : List acpi_resource) (d : acpi_resource) (st : Bool),
      e.platform.acpi_walk_resources tr link.device Method.PRS = ⟨pre ++ d :: post, st⟩ →
      (∀ r ∈ pre, ¬ ends_walk r) → ends_walk d →
      acpi_pci_link_get_possible e link tr =
        ⟨0, (acpi_pci_link_check_possible d link).2,
          tr ++ [Call.acpi_walk_resources link.device Method.PRS]⟩) ∧
    (∀ (ds : List acpi_resource) (st : Bool),
      e.platform.acpi_walk_resources tr link.device Method.PRS = ⟨ds, st⟩ →
      (∀ r ∈ ds, ¬ ends_walk r) →
      acpi_pci_link_get_possible e link tr =
        ⟨if st = false then -ENODEV else 0, link,
          tr ++ [Call.acpi_walk_resources link.device Method.PRS]⟩) := by
  constructor
  · intro pre post d st hw hpre hd
    unfold acpi_pci_link_get_possible acpi_walk_resources
    simp only [hw]
    rw [walk_list_stops st d post hd pre link hpre]
    rfl
  · intro ds st hw hds
    unfold acpi_pci_link_get_possible acpi_walk_resources
    simp only [hw]
    rw [walk_list_through st ds link hds]
    cases st <;> rfl

/-- Witness for C15 (as amended): a blank Simple-IRQ descriptor, a
descriptor of another kind, then `[9, 10, 11]` and `[5]`.  The walk ends at
`[9, 10, 11]`; `[5]` is not looked at. -/
theorem get_possible_stops_at_first_witness :
    acpi_pci_link_get_possible
        (sample_env (prs_platform
          ⟨[irq_descriptor [], { irq_descriptor [4] with type := 4 }] ++
            irq_descriptor [9, 10, 11] :: [irq_descriptor [5]], true⟩))
        (acpi_pci_link.fresh 1) [] =
      ⟨0, (acpi_pci_link_check_possible (irq_descriptor [9, 10, 11])
            (acpi_pci_link.fresh 1)).2,
        [] ++ [Call.acpi_walk_resources (acpi_pci_link.fresh 1).device Method.PRS]⟩ ∧
    (acpi_pci_link_check_possible (irq_descriptor [9, 10, 11])
        (acpi_pci_link.fresh 1)).2.irq.possible =
      [9, 10, 11, 0, 0, 0, 0, 0, 0, 0, 0, 0, 0, 0, 0, 0] :=
  ⟨(get_possible_stops_at_first
      (sample_env (prs_platform
        ⟨[irq_descriptor [], { irq_descriptor [4] with type := 4 }] ++
          irq_descriptor [9, 10, 11] :: [irq_descriptor [5]], true⟩))
      (acpi_pci_link.fresh 1) []).1
      [irq_descriptor [], { irq_descriptor [4] with type := 4 }] [irq_descriptor [5]]
      (irq_descriptor [9, 10, 11]) true rfl (by decide) (by decide),
   by decide⟩

/-- C15 counterexample: the descriptors `[0]` and `[5]`, walked on a fresh
record.  The first lists only a zero value and yields no line, yet the walk
ends there: `possible_count` stays 0 and line 5 of the next descriptor is
stored nowhere. -/
theorem get_possible_stops_at_zero_descriptor :
    (acpi_pci_link_get_possible
        (sample_env (prs_platform ⟨[irq_descriptor [0], irq_descriptor [5]], true⟩))
        (acpi_pci_link.fresh 1) []).result = 0 ∧
      (acpi_pci_link_get_possible
        (sample_env (prs_platform ⟨[irq_descriptor [0], irq_descriptor [5]], true⟩))
        (acpi_pci_link.fresh 1) []).link.irq.possible_count = 0 ∧
      5 ∉ (acpi_pci_link_get_possible
        (sample_env (prs_platform ⟨[irq_descriptor [0], irq_descriptor [5]], true⟩))
        (acpi_pci_link.fresh 1) []).link.irq.possible ∧
      (acpi_pci_link_get_possible
        (sample_env (prs_platform ⟨[irq_descriptor [5]], true⟩))
        (acpi_pci_link.fresh 1) []).link.irq.possible_count = 1 := by
  decide

/-! ## Registration: lemmas and claims -/

/-- The `_PRS` callback never writes the `device` member. -/
theorem check_possible_device (r : acpi_resource) (link : acpi_pci_link) :
    (acpi_pci_link_check_possible r link).2.device = link.device := by
  have hstep : ∀ (l : acpi_pci_link) (i : Nat), (check_possible_step r l i).device = l.device := by
    intro l i
    unfold check_possible_step
    split <;> rfl
  have hloop : ∀ (is : List Nat) (l : acpi_pci_link),
      (is.foldl (check_possible_step r) l).device = l.device := by
    intro is
    induction is with
    | nil => intro l; rfl
    | cons i is ih => intro l; rw [List.foldl_cons, ih, hstep]
  unfold acpi_pci_link_check_possible check_possible_loop
  split_ifs
  all_goals first
    | rfl
    | exact hloop _ link

/-- `acpi_pci_link_get_possible` appends the `_PRS` walk to the log and
keeps the `device` member. -/
theorem get_possible_trace_device (e : Env) (link : acpi_pci_link) (tr : List Call) :
    (acpi_pci_link_get_possible e link tr).trace =
        tr ++ [Call.acpi_walk_resources link.device Method.PRS] ∧
      (acpi_pci_link_get_possible e link tr).link.device = link.device := by
  have hwalk : ∀ (final : Bool) (ds : List acpi_resource) (l : acpi_pci_link),
      (walk_list acpi_pci_link_check_possible final ds l).2.device = l.device := by
    intro final ds
    induction ds with
    | nil => intro l; rfl
    | cons r rs ih =>
      intro l
      unfold walk_list
      have hd := check_possible_device r l
      cases hc : acpi_pci_link_check_possible r l with
      | mk st l2 =>
        rw [hc] at hd
        cases st with
        | AE_OK => simp only []; rw [ih l2]; exact hd
        | AE_CTRL_TERMINATE => exact hd
  unfold acpi_pci_link_get_possible acpi_walk_resources
  simp only []
  split_ifs
  · exact ⟨rfl, hwalk _ _ link⟩
  · exact ⟨rfl, hwalk _ _ link⟩

/-- C16: when the `_PRS` walk that `acpi_pci_link_add` starts reports
failure, the function returns the error `-ENODEV` and the registry (and the
penalty table) is what it was before the call. -/
theorem add_enumeration_failure (e : Env) (s : State) (device : Nat)
    (hk : e.platform.kzalloc s.trace = true)
    (hfail : (acpi_walk_resources
        (e.platform.acpi_walk_resources (s.trace ++ [Call.kzalloc] ++ [Call.mutex_lock])
          device Method.PRS)
        acpi_pci_link_check_possible (acpi_pci_link.fresh device)).1 = false) :
    (acpi_pci_link_add e s device).1 = -ENODEV ∧
      (acpi_pci_link_add e s device).2.acpi_link_list = s.acpi_link_list ∧
      (acpi_pci_link_add e s device).2.acpi_irq_penalty = s.acpi_irq_penalty := by
  have hp : (acpi_pci_link_get_possible e (acpi_pci_link.fresh device)
      (s.trace ++ [Call.kzalloc] ++ [Call.mutex_lock])).result = -ENODEV := by
    unfold acpi_pci_link_get_possible
    simp only [show (acpi_pci_link.fresh device).device = device from rfl]
    rw [if_pos hfail]
  unfold acpi_pci_link_add
  rw [if_neg (by rw [hk]; decide)]
  simp only []
  rw [if_pos (by rw [hp]; decide), hp]
  exact ⟨rfl, rfl, rfl⟩

/-- Witness for C16: registering device 1 on firmware whose `_PRS` cannot be
evaluated. -/
theorem add_enumeration_failure_witness :
    (acpi_pci_link_add (sample_env (prs_platform ⟨[], false⟩)) State.init 1).1 = -ENODEV ∧
      (acpi_pci_link_add (sample_env (prs_platform ⟨[], false⟩)) State.init 1).2.acpi_link_list =
        State.init.acpi_link_list ∧
      (acpi_pci_link_add (sample_env (prs_platform ⟨[], false⟩)) State.init 1).2.acpi_irq_penalty =
        State.init.acpi_irq_penalty :=
  add_enumeration_failure (sample_env (prs_platform ⟨[], false⟩)) State.init 1
    (by decide) (by decide)

/-- C17 (as amended): in strict mode, when the device reports enabled and
the `_CRS` walk during `acpi_pci_link_add` reads line 0,
`acpi_pci_link_get_current` returns the error `-ENODEV` and leaves
`active = 0`; `acpi_pci_link_add` drops that return value, so registration
returns 0 and appends the record, with `active = 0`, to the registry. -/
theorem add_ignores_current_error (e : Env) (s : State) (device : Nat)
    (hstrict : e.acpi_strict = true)
    (hk : e.platform.kzalloc s.trace = true)
    (hp : (acpi_pci_link_get_possible e (acpi_pci_link.fresh device)
      (s.trace ++ [Call.kzalloc] ++ [Call.mutex_lock])).result = 0)
    (hsta : e.platform.acpi_bus_get_status
      (s.trace ++ [Call.kzalloc] ++ [Call.mutex_lock] ++
        [Call.acpi_walk_resources device Method.PRS]) device = ⟨0, true⟩)
    (hcrs : acpi_walk_resources
        (e.platform.acpi_walk_resources
          (s.trace ++ [Call.kzalloc] ++ [Call.mutex_lock] ++
            [Call.acpi_walk_resources device Method.PRS] ++
            [Call.acpi_bus_get_status device]) device Method.CRS)
        acpi_pci_link_check_current 0 = (true, 0)) :
    (acpi_pci_link_get_current e
        (acpi_pci_link_get_possible e (acpi_pci_link.fresh device)
          (s.trace ++ [Call.kzalloc] ++ [Call.mutex_lock])).link
        (acpi_pci_link_get_possible e (acpi_pci_link.fresh device)
          (s.trace ++ [Call.kzalloc] ++ [Call.mutex_lock])).trace).result = -ENODEV ∧
      (acpi_pci_link_add e s device).1 = 0 ∧
      (acpi_pci_link_add e s device).2.acpi_link_list =
        s.acpi_link_list ++
          [{ (acpi_pci_link_get_possible e (acpi_pci_link.fresh device)
                (s.trace ++ [Call.kzalloc] ++ [Call.mutex_lock])).link with
              irq := { (acpi_pci_link_get_possible e (acpi_pci_link.fresh device)
                (s.trace ++ [Call.kzalloc] ++ [Call.mutex_lock])).link.irq with
                active := 0 } }] := by
  obtain ⟨htr, hdev⟩ := get_possible_trace_device e (acpi_pci_link.fresh device)
    (s.trace ++ [Call.kzalloc] ++ [Call.mutex_lock])
  have hdev2 : (acpi_pci_link_get_possible e (acpi_pci_link.fresh device)
      (s.trace ++ [Call.kzalloc] ++ [Call.mutex_lock])).link.device = device := hdev
  have htr2 : (acpi_pci_link_get_possible e (acpi_pci_link.fresh device)
      (s.trace ++ [Call.kzalloc] ++ [Call.mutex_lock])).trace =
      s.trace ++ [Call.kzalloc] ++ [Call.mutex_lock] ++
        [Call.acpi_walk_resources device Method.PRS] := htr
  have hget : acpi_pci_link_get_current e
      (acpi_pci_link_get_possible e (acpi_pci_link.fresh device)
        (s.trace ++ [Call.kzalloc] ++ [Call.mutex_lock])).link
      (acpi_pci_link_get_possible e (acpi_pci_link.fresh device)
        (s.trace ++ [Call.kzalloc] ++ [Call.mutex_lock])).trace =
      ⟨-ENODEV,
        { (acpi_pci_link_get_possible e (acpi_pci_link.fresh device)
              (s.trace ++ [Call.kzalloc] ++ [Call.mutex_lock])).link with
            irq := { (acpi_pci_link_get_possible e (acpi_pci_link.fresh device)
              (s.trace ++ [Call.kzalloc] ++ [Call.mutex_lock])).link.irq with
              active := 0 } },
        s.trace ++ [Call.kzalloc] ++ [Call.mutex_lock] ++
          [Call.acpi_walk_resources device Method.PRS] ++
          [Call.acpi_bus_get_status device] ++
          [Call.acpi_walk_resources device Method.CRS]⟩ := by
    unfold acpi_pci_link_get_current get_current_query
    simp only [hdev2, htr2, hstrict, hsta, hcrs]
    simp
  refine ⟨by rw [hget], ?_, ?_⟩
  · unfold acpi_pci_link_add
    rw [if_neg (by rw [hk]; decide)]
    simp only []
    rw [if_neg (not_not_intro hp)]
  · unfold acpi_pci_link_add
    rw [if_neg (by rw [hk]; decide)]
    simp only []
    rw [if_neg (not_not_intro hp), hget]

/-- Witness for C17 (as amended): strict mode, firmware that advertises
lines 9, 10, 11, reports the device enabled and reads back line 0. -/
theorem add_ignores_current_error_witness :
    (acpi_pci_link_get_current ⟨sample_platform 0, true, 0⟩
        (acpi_pci_link_get_possible ⟨sample_platform 0, true, 0⟩ (acpi_pci_link.fresh 1)
          (State.init.trace ++ [Call.kzalloc] ++ [Call.mutex_lock])).link
        (acpi_pci_link_get_possible ⟨sample_platform 0, true, 0⟩ (acpi_pci_link.fresh 1)
          (State.init.trace ++ [Call.kzalloc] ++ [Call.mutex_lock])).trace).result = -ENODEV ∧
      (acpi_pci_link_add ⟨sample_platform 0, true, 0⟩ State.init 1).1 = 0 ∧
      (acpi_pci_link_add ⟨sample_platform 0, true, 0⟩ State.init 1).2.acpi_link_list =
        State.init.acpi_link_list ++
          [{ (acpi_pci_link_get_possible ⟨sample_platform 0, true, 0⟩ (acpi_pci_link.fresh 1)
                (State.init.trace ++ [Call.kzalloc] ++ [Call.mutex_lock])).link with
              irq := { (acpi_pci_link_get_possible ⟨sample_platform 0, true, 0⟩
                (acpi_pci_link.fresh 1)
                (State.init.trace ++ [Call.kzalloc] ++ [Call.mutex_lock])).link.irq with
                active := 0 } }] :=
  add_ignores_current_error ⟨sample_platform 0, true, 0⟩ State.init 1
    (by decide) (by decide) (by decide) (by decide) (by decide)

/-- C17 counterexample: strict mode, the device enabled, `_CRS` reads line
0.  `acpi_pci_link_get_current` signals `-ENODEV`, yet `acpi_pci_link_add`
returns 0 and the registry holds the new record. -/
theorem add_succeeds_on_invalid_current :
    (acpi_pci_link_get_current ⟨sample_platform 0, true, 0⟩ (sample_link 0)
        [Call.kzalloc, Call.mutex_lock, Call.acpi_walk_resources 1 Method.PRS]).result =
        -ENODEV ∧
      (acpi_pci_link_add ⟨sample_platform 0, true, 0⟩ State.init 1).1 = 0 ∧
      (acpi_pci_link_add ⟨sample_platform 0, true, 0⟩ State.init 1).2.acpi_link_list =
        [sample_link 0] ∧
      (acpi_pci_link_add ⟨sample_platform 0, true, 0⟩ State.init 1).2.trace =
        [Call.kzalloc, Call.mutex_lock, Call.acpi_walk_resources 1 Method.PRS,
         Call.acpi_bus_get_status 1, Call.acpi_walk_resources 1 Method.CRS,
         Call.acpi_evaluate_DIS 1, Call.mutex_unlock] := by
  decide

/-! ## Administrative overrides: lemmas and claim -/

/-- The loop stops at once when `get_option` finds no number. -/
theorem penalty_update_loop_nil (used : Bool) (n : Nat) (t : PenaltyTable) :
    penalty_update_loop used n [] t = t := by
  cases n <;> rfl

/-- One number read by the loop has the effect of `penalty_override`. -/
theorem penalty_update_loop_cons (used : Bool) (n : Nat) (retval : Nat) (irq : Int)
    (rest : List (Nat × Int)) (t : PenaltyTable) (hr : retval ≠ 0) :
    penalty_update_loop used (n + 1) ((retval, irq) :: rest) t =
      if retval ≠ 2 ∧ 0 ≤ irq ∧ irq < 256 then penalty_override used t irq
      else penalty_update_loop used n rest (penalty_override used t irq) := by
  have hmax : ((ACPI_MAX_IRQS : Nat) : Int) = 256 := rfl
  rw [penalty_update_loop]
  unfold penalty_override
  rw [if_neg hr, hmax]
  simp only []
  split_ifs <;> first | rfl | (exfalso; omega)

/-- A comma separated list of fewer than 16 numbers and a last number. -/
theorem penalty_update_loop_list (used : Bool) (retval : Nat) (hr : retval ≠ 0)
    (last : Int) :
    ∀ (lines : List Int) (n : Nat) (t : PenaltyTable), lines.length < n →
      penalty_update_loop used n (lines.map (fun x => ((2 : Nat), x)) ++ [(retval, last)]) t =
        (lines ++ [last]).foldl (penalty_override used) t := by
  intro lines
  induction lines with
  | nil =>
    intro n t hn
    obtain ⟨m, rfl⟩ : ∃ m, n = m + 1 := ⟨n - 1, by simp at hn; omega⟩
    simp only [List.map_nil, List.nil_append, List.foldl_cons, List.foldl_nil]
    rw [penalty_update_loop_cons used m retval last [] t hr, penalty_update_loop_nil]
    split <;> rfl
  | cons x xs ih =>
    intro n t hn
    obtain ⟨m, rfl⟩ : ∃ m, n = m + 1 := ⟨n - 1, by simp at hn; omega⟩
    simp only [List.map_cons, List.cons_append, List.foldl_cons]
    rw [penalty_update_loop_cons used m 2 x _ t (by decide), if_neg (fun h => h.1 rfl)]
    exact ih m _ (by simp at hn; omega)

/-- C18: for every table and every line number handed to
`acpi_irq_penalty_update` (a `get_option` result with a number): in range
`0 .. 255`, Available mode sets `penalty[line]` to 0 whatever it held and
UsedBias mode adds `PIRQ_PENALTY_ISA_USED = 16^5`, every other entry being
unchanged in both modes; a number below 0 or at or above 256 changes
nothing; and a list of up to 16 numbers has the effect of these overrides
applied in order. -/
theorem penalty_update_override (t : PenaltyTable) (retval : Nat) (irq : Int)
    (lines : List Int) (hr : retval ≠ 0) :
    (0 ≤ irq → irq < 256 →
      (acpi_irq_penalty_update [(retval, irq)] false t).2 irq.toNat = 0 ∧
      (acpi_irq_penalty_update [(retval, irq)] true t).2 irq.toNat =
        t irq.toNat + 16 ^ 5 ∧
      ∀ k : Nat, k ≠ irq.toNat →
        (acpi_irq_penalty_update [(retval, irq)] false t).2 k = t k ∧
        (acpi_irq_penalty_update [(retval, irq)] true t).2 k = t k) ∧
    ((irq < 0 ∨ 256 ≤ irq) →
      ∀ used : Bool, (acpi_irq_penalty_update [(retval, irq)] used t).2 = t) ∧
    (lines.length < 16 →
      ∀ used : Bool,
        (acpi_irq_penalty_update (lines.map (fun x => ((2 : Nat), x)) ++ [(retval, irq)])
          used t).2 = (lines ++ [irq]).foldl (penalty_override used) t) := by
  have hone : ∀ used : Bool,
      (acpi_irq_penalty_update [(retval, irq)] used t).2 = penalty_override used t irq := by
    intro used
    have h := penalty_update_loop_list used retval hr irq [] 16 t (by decide)
    simpa [acpi_irq_penalty_update] using h
  refine ⟨?_, ?_, ?_⟩
  · intro h0 h1
    have hin : ¬ (irq < 0 ∨ irq ≥ 256) := by omega
    refine ⟨?_, ?_, ?_⟩
    · rw [hone]
      unfold penalty_override
      rw [if_neg hin]
      simp
    · rw [hone]
      unfold penalty_override
      rw [if_neg hin]
      simp only [if_true, Function.update_same]
      norm_num
    · intro k hk
      rw [hone, hone]
      unfold penalty_override
      simp only [if_neg hin]
      simp [Function.update_noteq hk]
  · intro hout used
    rw [hone]
    unfold penalty_override
    rw [if_pos (by omega)]
  · intro hlen used
    exact penalty_update_loop_list used retval hr irq lines 16 t hlen

/-- Witness for C18: the static table, the single number 12 (line 12 holds
`16^5`) and the list `12,300,9`. -/
theorem penalty_update_override_witness :
    ((acpi_irq_penalty_update [(1, 12)] false acpi_irq_penalty).2 (12 : Int).toNat = 0 ∧
      (acpi_irq_penalty_update [(1, 12)] true acpi_irq_penalty).2 (12 : Int).toNat =
        acpi_irq_penalty (12 : Int).toNat + 16 ^ 5 ∧
      ∀ k : Nat, k ≠ (12 : Int).toNat →
        (acpi_irq_penalty_update [(1, 12)] false acpi_irq_penalty).2 k = acpi_irq_penalty k ∧
        (acpi_irq_penalty_update [(1, 12)] true acpi_irq_penalty).2 k = acpi_irq_penalty k) ∧
    (∀ used : Bool,
      (acpi_irq_penalty_update [(1, 300)] used acpi_irq_penalty).2 = acpi_irq_penalty) ∧
    (∀ used : Bool,
      (acpi_irq_penalty_update ([12, 300].map (fun x => ((2 : Nat), x)) ++ [(1, 9)])
        used acpi_irq_penalty).2 =
          ([12, 300] ++ [9]).foldl (penalty_override used) acpi_irq_penalty) ∧
    (acpi_irq_penalty_update [(2, 12), (2, 300), (1, 9)] true acpi_irq_penalty).2 12 =
      2 * 16 ^ 5 ∧
    (acpi_irq_penalty_update [(2, 12), (2, 300), (1, 9)] true acpi_irq_penalty).2 9 = 16 ^ 5 :=
  ⟨(penalty_update_override acpi_irq_penalty 1 12 [] (by decide)).1 (by decide) (by decide),
   (penalty_update_override acpi_irq_penalty 1 300 [] (by decide)).2.1 (Or.inr (by decide)),
   (penalty_update_override acpi_irq_penalty 1 9 [12, 300] (by decide)).2.2 (by decide),
   by decide, by decide⟩

/-! ## Monotonicity of the penalty table: lemmas and claim -/

/-- The bias of a record is never negative. -/
theorem penalty_init_bias_nonneg (link : acpi_pci_link) (line : Nat) :
    0 ≤ penalty_init_bias link line := by
  unfold penalty_init_bias
  split_ifs
  · exact mul_nonneg (Int.ediv_nonneg (by norm_num) (Int.ofNat_nonneg _))
      (Int.ofNat_nonneg _)
  · exact le_refl _
  · norm_num
  · exact le_refl _

/-- Adding a non-negative amount at one index lowers no entry. -/
theorem update_add_le (t : PenaltyTable) (i l : Nat) (d : Int) (hd : 0 ≤ d) :
    t l ≤ Function.update t i (t i + d) l := by
  by_cases h : l = i
  · subst h; rw [Function.update_same]; omega
  · rw [Function.update_noteq h]

/-- The UsedBias loop lowers no entry, whatever `get_option` returns. -/
theorem penalty_update_loop_used_le (l : Nat) :
    ∀ (n : Nat) (options : List (Nat × Int)) (t : PenaltyTable),
      t l ≤ penalty_update_loop true n options t l := by
  intro n
  induction n with
  | zero => intro options t; rw [penalty_update_loop]
  | succ n ih =>
    intro options t
    cases options with
    | nil => rw [penalty_update_loop]
    | cons o rest =>
      obtain ⟨retval, irq⟩ := o
      rw [penalty_update_loop]
      have h1 : t l ≤ Function.update t irq.toNat (t irq.toNat + PIRQ_PENALTY_ISA_USED) l :=
        update_add_le t irq.toNat l _ (by norm_num)
      simp only [if_true]
      split_ifs
      · exact le_refl _
      · exact ih rest t
      · exact ih rest t
      · exact h1
      · exact le_trans h1 (ih rest _)

/-- `acpi_pci_link_allocate` lowers no entry. -/
theorem allocate_penalty_le (e : Env) (link : acpi_pci_link) (penalty : PenaltyTable)
    (tr : List Call) (l : Nat) :
    penalty l ≤ (acpi_pci_link_allocate e link penalty tr).penalty l := by
  unfold acpi_pci_link_allocate
  simp only []
  split_ifs
  · exact le_refl _
  · exact le_refl _
  · exact le_refl _
  · exact update_add_le penalty _ l _ (by norm_num)

/-- `acpi_pci_link_allocate_irq` lowers no entry. -/
theorem allocate_irq_penalty_le (e : Env) (lookup : Option acpi_pci_link) (index : Int)
    (penalty : PenaltyTable) (tr : List Call) (l : Nat) :
    penalty l ≤ (acpi_pci_link_allocate_irq e lookup index penalty tr).penalty l := by
  unfold acpi_pci_link_allocate_irq
  cases lookup with
  | none => exact le_refl _
  | some link =>
    simp only []
    split_ifs
    · exact le_refl _
    · exact allocate_penalty_le e link penalty _ l
    · exact allocate_penalty_le e link penalty _ l
    · exact allocate_penalty_le e link penalty _ l

/-- `acpi_pci_link_free_irq` leaves the table alone. -/
theorem free_irq_penalty (lookup : Option acpi_pci_link) (penalty : PenaltyTable)
    (tr : List Call) : (acpi_pci_link_free_irq lookup penalty tr).penalty = penalty := by
  unfold acpi_pci_link_free_irq
  cases lookup with
  | none => rfl
  | some link =>
    simp only []
    split_ifs <;> rfl

/-- `acpi_pci_link_add` leaves the table alone. -/
theorem add_penalty (e : Env) (s : State) (device : Nat) :
    (acpi_pci_link_add e s device).2.acpi_irq_penalty = s.acpi_irq_penalty := by
  unfold acpi_pci_link_add
  simp only []
  split_ifs <;> rfl

/-- C19: for every line `l`, every operation other than the Available
override leaves `penalty[l]` at least as large as it was (over the
integers): the Penalty Initializer, `acpi_pci_link_allocate`, acquire,
release, resume, registration, `acpi_penalize_isa_irq` and the UsedBias
override; the Available override can lower an entry. -/
theorem penalty_only_increases (e : Env) (l : Nat) :
    (∀ (sci : Nat) (s : State),
      s.acpi_irq_penalty l ≤ (acpi_irq_penalty_init sci s).2.acpi_irq_penalty l) ∧
    (∀ (link : acpi_pci_link) (penalty : PenaltyTable) (tr : List Call),
      penalty l ≤ (acpi_pci_link_allocate e link penalty tr).penalty l) ∧
    (∀ (lookup : Option acpi_pci_link) (index : Int) (penalty : PenaltyTable)
        (tr : List Call),
      penalty l ≤ (acpi_pci_link_allocate_irq e lookup index penalty tr).penalty l) ∧
    (∀ (s : State) (handle : Nat) (index : Int),
      s.acpi_irq_penalty l ≤ (acquireLine e s handle index).2.acpi_irq_penalty l) ∧
    (∀ (lookup : Option acpi_pci_link) (penalty : PenaltyTable) (tr : List Call),
      (acpi_pci_link_free_irq lookup penalty tr).penalty l = penalty l) ∧
    (∀ (s : State) (handle : Nat),
      (releaseLine s handle).2.acpi_irq_penalty l = s.acpi_irq_penalty l) ∧
    (∀ s : State, (irqrouter_resume e s).2.acpi_irq_penalty l = s.acpi_irq_penalty l) ∧
    (∀ (s : State) (device : Nat),
      (acpi_pci_link_add e s device).2.acpi_irq_penalty l = s.acpi_irq_penalty l) ∧
    (∀ (irq active : Int) (penalty : PenaltyTable),
      penalty l ≤ acpi_penalize_isa_irq irq active penalty l) ∧
    (∀ (options : List (Nat × Int)) (penalty : PenaltyTable),
      penalty l ≤ (acpi_irq_penalty_update options true penalty).2 l) ∧
    (acpi_irq_penalty_update [(1, 12)] false acpi_irq_penalty).2 12 < acpi_irq_penalty 12 := by
  refine ⟨?_, ?_, ?_, ?_, ?_, ?_, ?_, ?_, ?_, ?_, ?_⟩
  · intro sci s
    rw [penalty_init_sum sci s l]
    have h1 : 0 ≤ (s.acpi_link_list.map (fun link => penalty_init_bias link l)).sum := by
      apply List.sum_nonneg
      intro x hx
      obtain ⟨link, _, rfl⟩ := List.mem_map.mp hx
      exact penalty_init_bias_nonneg link l
    have h2 : (0 : Int) ≤ if l = sci then 4096 else 0 := by split <;> norm_num
    omega
  · intro link penalty tr
    exact allocate_penalty_le e link penalty tr l
  · intro lookup index penalty tr
    exact allocate_irq_penalty_le e lookup index penalty tr l
  · intro s handle index
    exact allocate_irq_penalty_le e _ index s.acpi_irq_penalty s.trace l
  · intro lookup penalty tr
    rw [free_irq_penalty]
  · intro s handle
    exact congrFun (free_irq_penalty _ s.acpi_irq_penalty s.trace) l
  · intro s
    rfl
  · intro s device
    rw [add_penalty]
  · intro irq active penalty
    unfold acpi_penalize_isa_irq
    split_ifs
    · exact update_add_le penalty _ l _ (by norm_num)
    · exact update_add_le penalty _ l _ (by norm_num)
    · exact le_refl _
  · intro options penalty
    exact penalty_update_loop_used_le l 16 options penalty
  · decide

/-! ## The bound on `possible`: lemmas and claim -/

/-- One pass of the copy loop writes only at its own index, keeps the length
of the array and raises the count by at most one. -/
theorem check_possible_step_spec (p : acpi_resource) (link : acpi_pci_link) (i : Nat) :
    (check_possible_step p link i).irq.possible.length = link.irq.possible.length ∧
      (check_possible_step p link i).irq.possible_count ≤ link.irq.possible_count + 1 ∧
      ∀ j, j ≠ i →
        (check_possible_step p link i).irq.possible.getD j 0 = link.irq.possible.getD j 0 := by
  unfold check_possible_step
  split
  · exact ⟨rfl, by omega, fun _ _ => rfl⟩
  · refine ⟨by simp, ?_, ?_⟩
    · exact le_trans (Nat.mod_le _ _) (le_refl _)
    · intro j hj
      simp [List.getElem?_set_ne (Ne.symm hj)]

/-- The copy loop over indices that are all below a bound `b`. -/
theorem check_possible_fold_spec (p : acpi_resource) (b : Nat) :
    ∀ (is : List Nat) (link : acpi_pci_link), (∀ i ∈ is, i < b) →
      (is.foldl (check_possible_step p) link).irq.possible.length =
          link.irq.possible.length ∧
        (is.foldl (check_possible_step p) link).irq.possible_count ≤
          link.irq.possible_count + is.length ∧
        ∀ j, b ≤ j →
          (is.foldl (check_possible_step p) link).irq.possible.getD j 0 =
            link.irq.possible.getD j 0 := by
  intro is
  induction is with
  | nil => intro link _; exact ⟨rfl, by simp, fun _ _ => rfl⟩
  | cons i is ih =>
    intro link h
    obtain ⟨h1, h2, h3⟩ := check_possible_step_spec p link i
    obtain ⟨k1, k2, k3⟩ := ih (check_possible_step p link i)
      (fun x hx => h x (List.mem_cons_of_mem _ hx))
    rw [List.foldl_cons]
    refine ⟨by rw [k1, h1], ?_, ?_⟩
    · rw [List.length_cons]; omega
    · intro j hj
      have hi := h i (List.mem_cons_self _ _)
      rw [k3 j hj, h3 j (by omega)]

/-- The copy loop: every write is at an index below 16 (entries from index
16 on keep their value), the array keeps its length, and the count grows by
at most 16. -/
theorem check_possible_loop_spec (p : acpi_resource) (link : acpi_pci_link) :
    (check_possible_loop p link).irq.possible.length = link.irq.possible.length ∧
      (check_possible_loop p link).irq.possible_count ≤ link.irq.possible_count + 16 ∧
      ∀ j, 16 ≤ j →
        (check_possible_loop p link).irq.possible.getD j 0 = link.irq.possible.getD j 0 := by
  obtain ⟨h1, h2, h3⟩ := check_possible_fold_spec p 16
    (List.range (min p.interrupt_count ACPI_PCI_LINK_MAX_POSSIBLE)) link (by
      intro i hi
      rw [List.mem_range] at hi
      exact lt_of_lt_of_le hi (min_le_right _ _))
  refine ⟨h1, ?_, h3⟩
  unfold check_possible_loop
  rw [List.length_range] at h2
  have : min p.interrupt_count ACPI_PCI_LINK_MAX_POSSIBLE ≤ 16 := min_le_right _ _
  omega

/-- The `_PRS` callback: the same three facts for the whole callback. -/
theorem check_possible_spec (p : acpi_resource) (link : acpi_pci_link) :
    (acpi_pci_link_check_possible p link).2.irq.possible.length =
        link.irq.possible.length ∧
      (acpi_pci_link_check_possible p link).2.irq.possible_count ≤
        link.irq.possible_count + 16 ∧
      ∀ j, 16 ≤ j →
        (acpi_pci_link_check_possible p link).2.irq.possible.getD j 0 =
          link.irq.possible.getD j 0 := by
  obtain ⟨h1, h2, h3⟩ := check_possible_loop_spec p link
  unfold acpi_pci_link_check_possible
  split_ifs
  all_goals first
    | exact ⟨rfl, Nat.le_add_right _ _, fun _ _ => rfl⟩
    | exact ⟨h1, h2, h3⟩

/-- The record a `_PRS` walk leaves is the record it started from or what
the callback made of it at one descriptor. -/
theorem walk_list_possible (final : Bool) :
    ∀ (ds : List acpi_resource) (link : acpi_pci_link),
      (walk_list acpi_pci_link_check_possible final ds link).2 = link ∨
        ∃ d, (walk_list acpi_pci_link_check_possible final ds link).2 =
          (acpi_pci_link_check_possible d link).2 := by
  intro ds
  induction ds with
  | nil => intro link; exact Or.inl rfl
  | cons r rs ih =>
    intro link
    by_cases h : ends_walk r
    · right
      refine ⟨r, ?_⟩
      have h1 := walk_list_stops final r rs h [] link (by simp)
      rw [List.nil_append] at h1
      rw [h1]
    · unfold walk_list
      rw [check_possible_continue r link h]
      exact ih link

/-- Discovery on a record with an empty `possible` leaves a bounded record. -/
theorem get_possible_bounded (e : Env) (link : acpi_pci_link) (tr : List Call)
    (h0 : link.irq.possible_count = 0) (hlen : link.irq.possible.length = 16) :
    possible_bounded (acpi_pci_link_get_possible e link tr).link := by
  have hw : possible_bounded
      (walk_list acpi_pci_link_check_possible
        (e.platform.acpi_walk_resources tr link.device Method.PRS).status
        (e.platform.acpi_walk_resources tr link.device Method.PRS).resources link).2 := by
    rcases walk_list_possible (e.platform.acpi_walk_resources tr link.device Method.PRS).status
        (e.platform.acpi_walk_resources tr link.device Method.PRS).resources link
      with h | ⟨d, h⟩
    · rw [h]
      exact ⟨hlen, by rw [h0]; exact Nat.zero_le _⟩
    · rw [h]
      obtain ⟨h1, h2, _⟩ := check_possible_spec d link
      exact ⟨by rw [h1]; exact hlen, by rw [h0] at h2; simpa using h2⟩
  unfold acpi_pci_link_get_possible acpi_walk_resources
  simp only []
  split_ifs <;> exact hw

/-- `acpi_pci_link_set` writes neither `possible` nor `possible_count`. -/
theorem set_possible (e : Env) (link : acpi_pci_link) (tr : List Call) (irq : Nat) :
    (acpi_pci_link_set e link tr irq).link.irq.possible = link.irq.possible ∧
      (acpi_pci_link_set e link tr irq).link.irq.possible_count =
        link.irq.possible_count := by
  have h := set_frame e link tr irq
  constructor <;> rw [h]

/-- `acpi_pci_link_allocate` writes neither `possible` nor
`possible_count`. -/
theorem allocate_possible (e : Env) (link : acpi_pci_link) (penalty : PenaltyTable)
    (tr : List Call) :
    (acpi_pci_link_allocate e link penalty tr).link.irq.possible = link.irq.possible ∧
      (acpi_pci_link_allocate e link penalty tr).link.irq.possible_count =
        link.irq.possible_count := by
  have hv := (allocate_validate_spec link).1
  have hv1 : (allocate_validate link).irq.possible = link.irq.possible := by rw [hv]
  have hv2 : (allocate_validate link).irq.possible_count = link.irq.possible_count := by
    rw [hv]
  obtain ⟨h1, h2⟩ := set_possible e link tr link.irq.active
  obtain ⟨k1, k2⟩ := set_possible e (allocate_validate link) tr
    (allocate_select e (allocate_validate link) penalty)
  unfold acpi_pci_link_allocate
  simp only []
  split_ifs
  · exact ⟨h1, h2⟩
  · exact ⟨rfl, rfl⟩
  · exact ⟨k1.trans hv1, k2.trans hv2⟩
  · exact ⟨k1.trans hv1, k2.trans hv2⟩

/-- The record `acpi_pci_link_allocate_irq` leaves is bounded when the
record it was given is. -/
theorem allocate_irq_bounded (e : Env) (link : acpi_pci_link) (index : Int)
    (penalty : PenaltyTable) (tr : List Call) (hb : possible_bounded link) :
    ∀ after, (acpi_pci_link_allocate_irq e (some link) index penalty tr).link = some after →
      possible_bounded after := by
  obtain ⟨h1, h2⟩ := allocate_possible e link penalty (tr ++ [Call.mutex_lock])
  have hba : possible_bounded
      (acpi_pci_link_allocate e link penalty (tr ++ [Call.mutex_lock])).link := by
    unfold possible_bounded
    rw [h1, h2]
    exact hb
  intro after
  unfold acpi_pci_link_allocate_irq
  simp only []
  split_ifs
  all_goals
    intro h
    simp only [Option.some.injEq] at h
    subst h
    first
      | exact hb
      | exact hba

/-- `acpi_pci_link_free_irq` hands the record back as it was. -/
theorem free_irq_link (lookup : Option acpi_pci_link) (penalty : PenaltyTable)
    (tr : List Call) : (acpi_pci_link_free_irq lookup penalty tr).link = lookup := by
  unfold acpi_pci_link_free_irq
  cases lookup with
  | none => rfl
  | some link =>
    simp only []
    split_ifs <;> rfl

/-- A record of the list after `store_link` is the stored one or an old
one. -/
theorem store_link_mem (handle : Nat) (new : acpi_pci_link) :
    ∀ (ls : List acpi_pci_link) (x : acpi_pci_link),
      x ∈ store_link handle new ls → x = new ∨ x ∈ ls := by
  intro ls
  induction ls with
  | nil => intro x hx; simp [store_link] at hx
  | cons l ls ih =>
    intro x hx
    unfold store_link at hx
    split at hx
    · rcases List.mem_cons.mp hx with h | h
      · exact Or.inl h
      · exact Or.inr (List.mem_cons_of_mem _ h)
    · rcases List.mem_cons.mp hx with h | h
      · exact Or.inr (by rw [h]; exact List.mem_cons_self _ _)
      · rcases ih x h with h2 | h2
        · exact Or.inl h2
        · exact Or.inr (List.mem_cons_of_mem _ h2)

/-- The loop of `irqrouter_resume` keeps every record bounded. -/
theorem resume_list_bounded (e : Env) :
    ∀ (ls : List acpi_pci_link) (tr : List Call),
      (∀ l ∈ ls, possible_bounded l) →
      ∀ x ∈ (resume_list e ls tr).1, possible_bounded x := by
  intro ls
  induction ls with
  | nil => intro tr _ x hx; simp [resume_list] at hx
  | cons l ls ih =>
    intro tr h x hx
    unfold resume_list at hx
    simp only [] at hx
    rcases List.mem_cons.mp hx with hx1 | hx1
    · have hl := h l (List.mem_cons_self _ _)
      rw [hx1]
      unfold acpi_pci_link_resume
      split_ifs
      · obtain ⟨h1, h2⟩ := set_possible e l tr l.irq.active
        unfold possible_bounded
        rw [h1, h2]
        exact hl
      · exact hl
    · exact ih _ (fun y hy => h y (List.mem_cons_of_mem _ hy)) x hx1

/-- Every operation keeps every registered record bounded. -/
theorem step_bounded (e : Env) (s : State) (op : Op)
    (h : ∀ l ∈ s.acpi_link_list, possible_bounded l) :
    ∀ l ∈ (step e s op).acpi_link_list, possible_bounded l := by
  cases op with
  | add device =>
    intro l hl
    unfold step acpi_pci_link_add at hl
    simp only [] at hl
    split_ifs at hl
    · exact h l hl
    · exact h l hl
    · rcases List.mem_append.mp hl with h1 | h1
      · exact h l h1
      · rw [List.mem_singleton] at h1
        have hg := get_current_frame e
          (acpi_pci_link_get_possible e (acpi_pci_link.fresh device)
            (s.trace ++ [Call.kzalloc] ++ [Call.mutex_lock])).link
          (acpi_pci_link_get_possible e (acpi_pci_link.fresh device)
            (s.trace ++ [Call.kzalloc] ++ [Call.mutex_lock])).trace
        have hb := get_possible_bounded e (acpi_pci_link.fresh device)
          (s.trace ++ [Call.kzalloc] ++ [Call.mutex_lock]) rfl rfl
        rw [h1, hg]
        exact hb
  | remove device =>
    intro l hl
    exact h l (List.mem_of_mem_filter hl)
  | penalty_init sci => exact h
  | acquire handle index =>
    intro l hl
    unfold step acquireLine at hl
    simp only [] at hl
    cases hf : find_link s.acpi_link_list handle with
    | none =>
      rw [hf] at hl
      exact h l hl
    | some link =>
      rw [hf] at hl
      have hmem : link ∈ s.acpi_link_list := List.mem_of_find?_eq_some hf
      have hb := allocate_irq_bounded e link index s.acpi_irq_penalty s.trace (h link hmem)
      cases hr : (acpi_pci_link_allocate_irq e (some link) index s.acpi_irq_penalty
          s.trace).link with
      | none =>
        rw [hr] at hl
        exact h l hl
      | some after =>
        rw [hr] at hl
        rcases store_link_mem handle after _ l hl with h1 | h1
        · rw [h1]; exact hb after hr
        · exact h l h1
  | release handle =>
    intro l hl
    unfold step releaseLine at hl
    simp only [free_irq_link] at hl
    cases hf : find_link s.acpi_link_list handle with
    | none =>
      rw [hf] at hl
      exact h l hl
    | some link =>
      rw [hf] at hl
      rcases store_link_mem handle link _ l hl with h1 | h1
      · rw [h1]; exact h link (List.mem_of_find?_eq_some hf)
      · exact h l h1
  | resume =>
    intro l hl
    exact resume_list_bounded e s.acpi_link_list s.trace h l hl
  | penalty_update options used => exact h
  | penalize_isa_irq irq active => exact h

/-- In every state reached from the initial one every registered record is
bounded. -/
theorem run_bounded (e : Env) :
    ∀ (ops : List Op) (s : State), (∀ l ∈ s.acpi_link_list, possible_bounded l) →
      ∀ l ∈ (run e s ops).acpi_link_list, possible_bounded l := by
  intro ops
  induction ops with
  | nil => intro s h; exact h
  | cons op ops ih =>
    intro s h
    exact ih (step e s op) (step_bounded e s op h)

/-- C20: whatever descriptors the `_PRS` walk presents to a fresh record,
with whatever `interrupt_count`, the record ends with `possible_count ≤ 16`
and its 16-entry array; the callback writes `possible` only at indices below
16 (from index 16 on nothing changes, and the length is kept); and in every
state reached from the initial one by registration, removal, the Penalty
Initializer, acquire, release, resume and the overrides, every registered
record has its 16-entry `possible` and `possible_count ≤ 16`. -/
theorem possible_within_array (e : Env) :
    (∀ (device : Nat) (tr : List Call),
      possible_bounded (acpi_pci_link_get_possible e (acpi_pci_link.fresh device) tr).link) ∧
    (∀ (p : acpi_resource) (link : acpi_pci_link) (j : Nat), 16 ≤ j →
      (acpi_pci_link_check_possible p link).2.irq.possible.getD j 0 =
        link.irq.possible.getD j 0) ∧
    (∀ (p : acpi_resource) (link : acpi_pci_link),
      (acpi_pci_link_check_possible p link).2.irq.possible.length =
        link.irq.possible.length) ∧
    (∀ (ops : List Op), ∀ l ∈ (run e State.init ops).acpi_link_list,
      l.irq.possible.length = 16 ∧ l.irq.possible_count ≤ 16) := by
  refine ⟨?_, ?_, ?_, ?_⟩
  · intro device tr
    exact get_possible_bounded e (acpi_pci_link.fresh device) tr rfl rfl
  · intro p link j hj
    exact (check_possible_spec p link).2.2 j hj
  · intro p link
    exact (check_possible_spec p link).1
  · intro ops l hl
    exact run_bounded e ops State.init (by intro x hx; simp [State.init] at hx) l hl

/-- Witness for C20: a Simple-IRQ descriptor with `interrupt_count = 20`
listing lines 1 to 20.  Sixteen lines are copied and `possible_count` is
16; registering and acquiring the device keeps the record bounded. -/
theorem possible_within_array_witness :
    possible_bounded
        (acpi_pci_link_get_possible
          (sample_env (prs_platform
            ⟨[irq_descriptor
              [1, 2, 3, 4, 5, 6, 7, 8, 9, 10, 11, 12, 13, 14, 15, 16, 17, 18, 19, 20]],
              true⟩))
          (acpi_pci_link.fresh 1) []).link ∧
      (acpi_pci_link_get_possible
          (sample_env (prs_platform
            ⟨[irq_descriptor
              [1, 2, 3, 4, 5, 6, 7, 8, 9, 10, 11, 12, 13, 14, 15, 16, 17, 18, 19, 20]],
              true⟩))
          (acpi_pci_link.fresh 1) []).link.irq.possible_count = 16 ∧
      (acpi_pci_link_get_possible
          (sample_env (prs_platform
            ⟨[irq_descriptor
              [1, 2, 3, 4, 5, 6, 7, 8, 9, 10, 11, 12, 13, 14, 15, 16, 17, 18, 19, 20]],
              true⟩))
          (acpi_pci_link.fresh 1) []).link.irq.possible =
        [1, 2, 3, 4, 5, 6, 7, 8, 9, 10, 11, 12, 13, 14, 15, 16] ∧
      (∀ l ∈ (run (sample_env (sample_platform 0)) State.init
            [Op.add 1, Op.penalty_init 9, Op.acquire 1 0, Op.resume]).acpi_link_list,
        l.irq.possible.length = 16 ∧ l.irq.possible_count ≤ 16) :=
  ⟨(possible_within_array
      (sample_env (prs_platform
        ⟨[irq_descriptor
          [1, 2, 3, 4, 5, 6, 7, 8, 9, 10, 11, 12, 13, 14, 15, 16, 17, 18, 19, 20]],
          true⟩))).1 1 [],
   by decide, by decide,
   (possible_within_array (sample_env (sample_platform 0))).2.2.2
      [Op.add 1, Op.penalty_init 9, Op.acquire 1 0, Op.resume]⟩

/-! ## The allocator: further lemmas and claims -/

/-- A nonzero chosen line of a well-formed record is a possible line and a
`u8`. -/
theorem allocate_select_nonzero (e : Env) (link : acpi_pci_link) (penalty : PenaltyTable)
    (hwf : link.wf)
    (hc : allocate_select e (allocate_validate link) penalty ≠ 0) :
    link.irq.is_possible (allocate_select e (allocate_validate link) penalty) ∧
      allocate_select e (allocate_validate link) penalty < 256 := by
  obtain ⟨hv, hva⟩ := allocate_validate_spec link
  have hcount : link.irq.possible_count ≠ 0 := by
    intro h0
    exact hc (allocate_select_empty e link penalty h0)
  have h1 : (allocate_validate link).irq.is_possible
      (allocate_select e (allocate_validate link) penalty) := by
    apply allocate_select_possible
    · rw [hv]; exact hcount
    · rcases hva with h | ⟨h1, h2⟩
      · exact Or.inl h
      · rw [h1]; exact Or.inr h2
  have hvcount : (allocate_validate link).irq.possible_count = link.irq.possible_count := by
    rw [hv]
  have hvposs : (allocate_validate link).irq.possible = link.irq.possible := by
    rw [hv]
  have h2 : link.irq.is_possible (allocate_select e (allocate_validate link) penalty) := by
    obtain ⟨i, hi, h⟩ := h1
    exact ⟨i, by rw [← hvcount]; exact hi, by rw [← hvposs]; exact h⟩
  exact ⟨h2, is_possible_lt link hwf _ h2⟩

/-- On success the record ends with the chosen line, which is possible. -/
theorem allocate_unbound_success_active (e : Env) (link : acpi_pci_link)
    (penalty : PenaltyTable) (tr : List Call) (hwf : link.wf)
    (hun : link.irq.initialized = false)
    (hok : (acpi_pci_link_allocate e link penalty tr).result = 0) :
    (acpi_pci_link_allocate e link penalty tr).link.irq.active =
        allocate_select e (allocate_validate link) penalty ∧
      link.irq.is_possible (allocate_select e (allocate_validate link) penalty) := by
  have hset := allocate_unbound_success e link penalty tr hun hok
  obtain ⟨hact, hc0⟩ := set_success e _ tr _ hset
  obtain ⟨hposs, hlt⟩ := allocate_select_nonzero e link penalty hwf hc0
  rw [Nat.mod_eq_of_lt hlt] at hact
  refine ⟨?_, hposs⟩
  rw [allocate_unbound e link penalty tr hun, if_neg (by simpa using hset)]
  exact hact

/-- C21: after `acpi_pci_link_allocate` on a well-formed Unbound record,
whether it returns 0 or an error and whatever the firmware did, the record's
`active` is 0 or one of `possible[0 .. possible_count-1]`. -/
theorem allocate_active_zero_or_possible (e : Env) (link : acpi_pci_link)
    (penalty : PenaltyTable) (tr : List Call) (hwf : link.wf)
    (hun : link.irq.initialized = false) :
    (acpi_pci_link_allocate e link penalty tr).link.irq.active = 0 ∨
      (acpi_pci_link_allocate e link penalty tr).link.irq.is_possible
        (acpi_pci_link_allocate e link penalty tr).link.irq.active := by
  obtain ⟨hp1, hp2⟩ := allocate_possible e link penalty tr
  have hcongr : ∀ x, link.irq.is_possible x →
      (acpi_pci_link_allocate e link penalty tr).link.irq.is_possible x := by
    intro x ⟨i, hi, h⟩
    exact ⟨i, by rw [hp2]; exact hi, by rw [hp1]; exact h⟩
  by_cases hok : (acpi_pci_link_allocate e link penalty tr).result = 0
  · obtain ⟨h1, h2⟩ := allocate_unbound_success_active e link penalty tr hwf hun hok
    right
    rw [h1]
    exact hcongr _ h2
  · have hset : (acpi_pci_link_set e (allocate_validate link) tr
        (allocate_select e (allocate_validate link) penalty)).result ≠ 0 := by
      intro h
      apply hok
      rw [allocate_unbound e link penalty tr hun, if_neg (not_not_intro h)]
    have hlink : (acpi_pci_link_allocate e link penalty tr).link =
        (acpi_pci_link_set e (allocate_validate link) tr
          (allocate_select e (allocate_validate link) penalty)).link := by
      rw [allocate_unbound e link penalty tr hun, if_pos hset]
    obtain ⟨_, hva⟩ := allocate_validate_spec link
    rcases set_fail_active e (allocate_validate link) tr _ hset with h | h
    · rcases hva with h0 | ⟨h1, h2⟩
      · left; rw [hlink, h, h0]
      · right
        have h3 : (acpi_pci_link_allocate e link penalty tr).link.irq.active =
            link.irq.active := by rw [hlink, h, h1]
        rw [h3]
        exact hcongr _ h2
    · left; rw [hlink, h]

/-- Witness for C21: the sample record with the untrusted active line 7, on
firmware that rejects every `_SRS`: the allocation fails and leaves
`active = 0`. -/
theorem allocate_active_zero_or_possible_witness :
    ((acpi_pci_link_allocate (sample_env rejecting_platform) (sample_link 7)
          acpi_irq_penalty []).link.irq.active = 0 ∨
      (acpi_pci_link_allocate (sample_env rejecting_platform) (sample_link 7)
          acpi_irq_penalty []).link.irq.is_possible
        (acpi_pci_link_allocate (sample_env rejecting_platform) (sample_link 7)
          acpi_irq_penalty []).link.irq.active) ∧
      (acpi_pci_link_allocate (sample_env rejecting_platform) (sample_link 7)
          acpi_irq_penalty []).result = -ENODEV ∧
      (acpi_pci_link_allocate (sample_env rejecting_platform) (sample_link 7)
          acpi_irq_penalty []).link.irq.active = 0 :=
  ⟨allocate_active_zero_or_possible (sample_env rejecting_platform) (sample_link 7)
      acpi_irq_penalty [] (by decide) (by decide),
   by decide, by decide⟩

/-- C28: when `acpi_pci_link_allocate` on an Unbound record returns an
error, the penalty table is unchanged and the record differs from the one
before the call in `active` at most (`refcnt`, `possible`, `possible_count`,
`triggering`, `polarity`, `resource_type`, `device` and the Unbound flag are
the same), and `active` is its old value or 0. -/
theorem allocate_error_frame (e : Env) (link : acpi_pci_link) (penalty : PenaltyTable)
    (tr : List Call) (hun : link.irq.initialized = false)
    (herr : (acpi_pci_link_allocate e link penalty tr).result ≠ 0) :
    (acpi_pci_link_allocate e link penalty tr).penalty = penalty ∧
      (acpi_pci_link_allocate e link penalty tr).link =
        { link with irq := { link.irq with
            active := (acpi_pci_link_allocate e link penalty tr).link.irq.active } } ∧
      ((acpi_pci_link_allocate e link penalty tr).link.irq.active = link.irq.active ∨
        (acpi_pci_link_allocate e link penalty tr).link.irq.active = 0) := by
  have hset : (acpi_pci_link_set e (allocate_validate link) tr
      (allocate_select e (allocate_validate link) penalty)).result ≠ 0 := by
    intro h
    apply herr
    rw [allocate_unbound e link penalty tr hun, if_neg (not_not_intro h)]
  have hfr := set_frame e (allocate_validate link) tr
    (allocate_select e (allocate_validate link) penalty)
  obtain ⟨hv, hva⟩ := allocate_validate_spec link
  rw [allocate_unbound e link penalty tr hun, if_pos hset]
  refine ⟨rfl, ?_, ?_⟩
  · simp only []
    rw [hfr]
    simp only []
    rw [hv]
  · simp only []
    rcases set_fail_active e (allocate_validate link) tr _ hset with h | h
    · rcases hva with h0 | ⟨h1, _⟩
      · right; rw [h, h0]
      · left; rw [h, h1]
    · right; exact h

/-- Witness for C28: the sample record with the untrusted active line 7 on
firmware that rejects every `_SRS`. -/
theorem allocate_error_frame_witness :
    (acpi_pci_link_allocate (sample_env rejecting_platform) (sample_link 7)
        acpi_irq_penalty []).penalty = acpi_irq_penalty ∧
      (acpi_pci_link_allocate (sample_env rejecting_platform) (sample_link 7)
        acpi_irq_penalty []).link =
        { sample_link 7 with irq := { (sample_link 7).irq with
            active := (acpi_pci_link_allocate (sample_env rejecting_platform) (sample_link 7)
              acpi_irq_penalty []).link.irq.active } } ∧
      ((acpi_pci_link_allocate (sample_env rejecting_platform) (sample_link 7)
          acpi_irq_penalty []).link.irq.active = (sample_link 7).irq.active ∨
        (acpi_pci_link_allocate (sample_env rejecting_platform) (sample_link 7)
          acpi_irq_penalty []).link.irq.active = 0) :=
  allocate_error_frame (sample_env rejecting_platform) (sample_link 7)
    acpi_irq_penalty [] (by decide) (by decide)

/-- C29: on an Unbound record with `possible_count = 0`, whatever its
active line, the table and the settings, the seed index
`possible_count - 1` is negative, the line chosen is 0, and
`acpi_pci_link_allocate` returns `-ENODEV` with the call log unchanged (the
firmware is not asked), `active` cleared to 0 and the record still Unbound;
`acpi_pci_link_allocate_irq` returns -1 with only the lock and the unlock
logged and leaves that same record, so every later attempt fails the same
way. -/
theorem allocate_empty_possible (e : Env) (link : acpi_pci_link) (penalty : PenaltyTable)
    (tr : List Call) (hun : link.irq.initialized = false)
    (h0 : link.irq.possible_count = 0) :
    (link.irq.possible_count : Int) - 1 < 0 ∧
      allocate_select e (allocate_validate link) penalty = 0 ∧
      acpi_pci_link_allocate e link penalty tr =
        ⟨-ENODEV, { link with irq := { link.irq with active := 0 } }, penalty, tr⟩ ∧
      (acpi_pci_link_allocate_irq e (some link) 0 penalty tr).ret = -1 ∧
      (acpi_pci_link_allocate_irq e (some link) 0 penalty tr).link =
        some { link with irq := { link.irq with active := 0 } } ∧
      (acpi_pci_link_allocate_irq e (some link) 0 penalty tr).penalty = penalty ∧
      (acpi_pci_link_allocate_irq e (some link) 0 penalty tr).trace =
        tr ++ [Call.mutex_lock] ++ [Call.mutex_unlock] := by
  have hv : allocate_validate link = { link with irq := { link.irq with active := 0 } } := by
    unfold allocate_validate
    rw [h0]
    rfl
  have hsel := allocate_select_empty e link penalty h0
  have hall : ∀ t : List Call, acpi_pci_link_allocate e link penalty t =
      ⟨-ENODEV, { link with irq := { link.irq with active := 0 } }, penalty, t⟩ := by
    intro t
    rw [allocate_unbound e link penalty t hun, hsel, hv]
    unfold acpi_pci_link_set
    simp
  refine ⟨by rw [h0]; decide, hsel, hall tr, ?_, ?_, ?_, ?_⟩
  all_goals
    unfold acpi_pci_link_allocate_irq
    simp only [hall]
    simp

/-- Witness for C29: a record with no possible line and the fixed active
line 5. -/
theorem allocate_empty_possible_witness :
    (fixed_link.irq.possible_count : Int) - 1 < 0 ∧
      allocate_select (sample_env (sample_platform 5)) (allocate_validate fixed_link)
        acpi_irq_penalty = 0 ∧
      acpi_pci_link_allocate (sample_env (sample_platform 5)) fixed_link
          acpi_irq_penalty [] =
        ⟨-ENODEV, { fixed_link with irq := { fixed_link.irq with active := 0 } },
          acpi_irq_penalty, []⟩ ∧
      (acpi_pci_link_allocate_irq (sample_env (sample_platform 5)) (some fixed_link) 0
          acpi_irq_penalty []).ret = -1 ∧
      (acpi_pci_link_allocate_irq (sample_env (sample_platform 5)) (some fixed_link) 0
          acpi_irq_penalty []).link =
        some { fixed_link with irq := { fixed_link.irq with active := 0 } } ∧
      (acpi_pci_link_allocate_irq (sample_env (sample_platform 5)) (some fixed_link) 0
          acpi_irq_penalty []).penalty = acpi_irq_penalty ∧
      (acpi_pci_link_allocate_irq (sample_env (sample_platform 5)) (some fixed_link) 0
          acpi_irq_penalty []).trace = [] ++ [Call.mutex_lock] ++ [Call.mutex_unlock] :=
  allocate_empty_possible (sample_env (sample_platform 5)) fixed_link
    acpi_irq_penalty [] (by decide) (by decide)

/-! ## A device that reports disabled after the set: lemma and claim -/

/-- `acpi_pci_link_set` succeeds when the allocation, the `_SRS` call, the
status query and `acpi_pci_link_get_current` all succeed. -/
theorem set_result_zero (e : Env) (link : acpi_pci_link) (tr : List Call) (irq : Nat)
    (h0 : irq ≠ 0) (hk : e.platform.kzalloc tr = true)
    (hty : link.irq.resource_type = ACPI_RESOURCE_TYPE_IRQ ∨
      link.irq.resource_type = ACPI_RESOURCE_TYPE_EXTENDED_IRQ)
    (hsrs : e.platform.acpi_set_current_resources (tr ++ [Call.kzalloc]) link.device
      (set_resource link irq) = true)
    (hsta : (e.platform.acpi_bus_get_status
      (tr ++ [Call.kzalloc] ++
        [Call.acpi_set_current_resources link.device (set_resource link irq)])
      link.device).result = 0)
    (hget : (acpi_pci_link_get_current e link (set_readback_trace link tr irq)).result = 0) :
    (acpi_pci_link_set e link tr irq).result = 0 := by
  unfold set_readback_trace at hget
  unfold acpi_pci_link_set
  simp only []
  rw [if_neg h0, if_neg (by rw [hk]; decide), if_neg (by omega),
    if_neg (by rw [hsrs]; decide), if_neg (not_not_intro hsta),
    if_neg (not_not_intro hget)]
  split_ifs <;> rfl

/-- C26 (as amended): on a well-formed Unbound record with chosen line `c`,
if the `_SRS` call succeeds and the status query after it succeeds and
reports the device disabled, then in strict mode, where the status query of
the readback reports disabled as well, and in non-strict mode, provided the
`_CRS` walk of the readback succeeds, the allocation returns 0, ends with
`active = c`, adds 4096 to `penalty[c]` and marks the record Bound. -/
theorem allocate_disabled_after_set (e : Env) (link : acpi_pci_link)
    (penalty : PenaltyTable) (tr : List Call) (c : Nat) (hwf : link.wf)
    (hun : link.irq.initialized = false)
    (hc : allocate_select e (allocate_validate link) penalty = c) (hc0 : c ≠ 0)
    (hk : e.platform.kzalloc tr = true)
    (hty : link.irq.resource_type = ACPI_RESOURCE_TYPE_IRQ ∨
      link.irq.resource_type = ACPI_RESOURCE_TYPE_EXTENDED_IRQ)
    (hsrs : e.platform.acpi_set_current_resources (tr ++ [Call.kzalloc]) link.device
      (set_resource link c) = true)
    (hsta : e.platform.acpi_bus_get_status
      (tr ++ [Call.kzalloc] ++
        [Call.acpi_set_current_resources link.device (set_resource link c)])
      link.device = ⟨0, false⟩)
    (hstrict : e.acpi_strict = true →
      e.platform.acpi_bus_get_status (set_readback_trace link tr c) link.device = ⟨0, false⟩)
    (hloose : e.acpi_strict = false →
      (acpi_walk_resources
        (e.platform.acpi_walk_resources (set_readback_trace link tr c) link.device Method.CRS)
        acpi_pci_link_check_current 0).1 = true) :
    (acpi_pci_link_allocate e link penalty tr).result = 0 ∧
      (acpi_pci_link_allocate e link penalty tr).link.irq.active = c ∧
      (acpi_pci_link_allocate e link penalty tr).penalty c = penalty c + 4096 ∧
      (acpi_pci_link_allocate e link penalty tr).link.irq.initialized = true := by
  obtain ⟨hv, _⟩ := allocate_validate_spec link
  have hdev : (allocate_validate link).device = link.device := by rw [hv]
  have hres : set_resource (allocate_validate link) c = set_resource link c := by
    rw [hv]; rfl
  have htype : (allocate_validate link).irq.resource_type = link.irq.resource_type := by
    rw [hv]
  have htrace : set_readback_trace (allocate_validate link) tr c =
      set_readback_trace link tr c := by
    unfold set_readback_trace
    rw [hdev, hres]
  have hget : (acpi_pci_link_get_current e (allocate_validate link)
      (set_readback_trace (allocate_validate link) tr c)).result = 0 := by
    rw [htrace]
    unfold acpi_pci_link_get_current get_current_query
    rw [hdev]
    cases hs : e.acpi_strict with
    | true => simp [hstrict hs]
    | false => simp [hloose hs]
  have hset : (acpi_pci_link_set e (allocate_validate link) tr c).result = 0 := by
    apply set_result_zero e (allocate_validate link) tr c hc0 hk
    · rw [htype]; exact hty
    · rw [hdev, hres]; exact hsrs
    · rw [hdev, hres, hsta]
    · exact hget
  have hact := (set_success e (allocate_validate link) tr c hset).1
  have hlt : c < 256 := by
    have := allocate_select_nonzero e link penalty hwf (by rw [hc]; exact hc0)
    rw [hc] at this
    exact this.2
  rw [Nat.mod_eq_of_lt hlt] at hact
  rw [allocate_unbound e link penalty tr hun, hc, if_neg (not_not_intro hset)]
  refine ⟨rfl, hact, ?_, rfl⟩
  simp only []
  rw [hact, Function.update_same]
  norm_num

/-- Witness for C26 (as amended): the sample record in strict mode on
firmware that reports the device disabled after the set. -/
theorem allocate_disabled_after_set_witness :
    (acpi_pci_link_allocate ⟨disabled_platform false, true, 0⟩ (sample_link 0)
        acpi_irq_penalty []).result = 0 ∧
      (acpi_pci_link_allocate ⟨disabled_platform false, true, 0⟩ (sample_link 0)
        acpi_irq_penalty []).link.irq.active = 11 ∧
      (acpi_pci_link_allocate ⟨disabled_platform false, true, 0⟩ (sample_link 0)
        acpi_irq_penalty []).penalty 11 = acpi_irq_penalty 11 + 4096 ∧
      (acpi_pci_link_allocate ⟨disabled_platform false, true, 0⟩ (sample_link 0)
        acpi_irq_penalty []).link.irq.initialized = true :=
  allocate_disabled_after_set ⟨disabled_platform false, true, 0⟩ (sample_link 0)
    acpi_irq_penalty [] 11 (by decide) (by decide) (by decide) (by decide) (by decide)
    (by decide) (by decide) (by decide) (by decide) (by decide)

/-- The non-strict case of C26 (as amended) at a sample input: the readback
walk succeeds and lists no line, and the allocation succeeds. -/
theorem allocate_disabled_after_set_loose :
    (acpi_pci_link_allocate (sample_env (disabled_platform true)) (sample_link 0)
        acpi_irq_penalty []).result = 0 ∧
      (acpi_pci_link_allocate (sample_env (disabled_platform true)) (sample_link 0)
        acpi_irq_penalty []).link.irq.active = 11 := by
  decide

/-- C26 counterexample: non-strict mode, the sample record, firmware that
accepts the `_SRS` for line 11, answers the status query with "disabled",
and whose `_CRS` cannot be evaluated.  The allocation fails with `-ENODEV`,
the record stays Unbound with `active = 0`, and `penalty[11]` is
unchanged. -/
theorem allocate_disabled_readback_fails :
    (acpi_pci_link_allocate (sample_env (disabled_platform false)) (sample_link 0)
        acpi_irq_penalty []).trace =
        [Call.kzalloc,
         Call.acpi_set_current_resources 1 (set_resource (sample_link 0) 11),
         Call.acpi_bus_get_status 1, Call.acpi_walk_resources 1 Method.CRS] ∧
      (disabled_platform false).acpi_set_current_resources [Call.kzalloc] 1
        (set_resource (sample_link 0) 11) = true ∧
      (disabled_platform false).acpi_bus_get_status
        [Call.kzalloc, Call.acpi_set_current_resources 1 (set_resource (sample_link 0) 11)]
        1 = ⟨0, false⟩ ∧
      (acpi_pci_link_allocate (sample_env (disabled_platform false)) (sample_link 0)
        acpi_irq_penalty []).result = -ENODEV ∧
      (acpi_pci_link_allocate (sample_env (disabled_platform false)) (sample_link 0)
        acpi_irq_penalty []).link.irq.initialized = false ∧
      (acpi_pci_link_allocate (sample_env (disabled_platform false)) (sample_link 0)
        acpi_irq_penalty []).link.irq.active = 0 ∧
      (acpi_pci_link_allocate (sample_env (disabled_platform false)) (sample_link 0)
        acpi_irq_penalty []).penalty 11 = acpi_irq_penalty 11 := by
  decide

/-! ## Resume: what it leaves unchanged -/

/-- What `acpi_pci_link_set` does to `active`: it keeps it, or it leaves 0
because `acpi_pci_link_get_current` failed at the readback, or it succeeds
and stores the line asked for. -/
theorem set_active_cases (e : Env) (link : acpi_pci_link) (tr : List Call) (irq : Nat) :
    (acpi_pci_link_set e link tr irq).link.irq.active = link.irq.active ∨
      ((acpi_pci_link_set e link tr irq).link.irq.active = 0 ∧
        (acpi_pci_link_get_current e link (set_readback_trace link tr irq)).result ≠ 0) ∨
      (acpi_pci_link_set e link tr irq).link.irq.active = irq % 256 := by
  by_cases hres : (acpi_pci_link_set e link tr irq).result = 0
  · exact Or.inr (Or.inr (set_success e link tr irq hres).1)
  · revert hres
    unfold acpi_pci_link_set set_readback_trace
    simp only []
    split_ifs with h1 h2 h3 h4 h5 h6 h7
    any_goals (intro _; left; rfl)
    all_goals first
      | (intro _; right; left;
         exact ⟨get_current_active_of_fail e link _ h6, h6⟩)
      | (intro h; exact absurd rfl h)

/-- One record under `acpi_pci_link_resume`: nothing but `active` changes,
and `active` keeps its value or becomes 0, the latter only when
`acpi_pci_link_get_current` failed at the readback. -/
theorem resume_link_frame (e : Env) (link : acpi_pci_link) (tr : List Call)
    (hlt : link.irq.active < 256) :
    (acpi_pci_link_resume e link tr).link =
        { link with irq := { link.irq with
            active := (acpi_pci_link_resume e link tr).link.irq.active } } ∧
      ((acpi_pci_link_resume e link tr).link.irq.active = link.irq.active ∨
        ((acpi_pci_link_resume e link tr).link.irq.active = 0 ∧
          (acpi_pci_link_get_current e link
            (set_readback_trace link tr link.irq.active)).result ≠ 0)) := by
  unfold acpi_pci_link_resume
  split_ifs
  · refine ⟨set_frame e link tr link.irq.active, ?_⟩
    rcases set_active_cases e link tr link.irq.active with h | h | h
    · exact Or.inl h
    · exact Or.inr h
    · left; rw [h, Nat.mod_eq_of_lt hlt]
  · exact ⟨rfl, Or.inl rfl⟩

/-- The loop of `irqrouter_resume`, record by record. -/
theorem resume_list_frame (e : Env) :
    ∀ (ls : List acpi_pci_link) (tr : List Call), (∀ l ∈ ls, l.irq.active < 256) →
      List.Forall₂
        (fun a b : acpi_pci_link =>
          b = { a with irq := { a.irq with active := b.irq.active } } ∧
            (b.irq.active = a.irq.active ∨ b.irq.active = 0))
        ls (resume_list e ls tr).1 := by
  intro ls
  induction ls with
  | nil => intro tr _; exact List.Forall₂.nil
  | cons l ls ih =>
    intro tr h
    unfold resume_list
    simp only []
    obtain ⟨h1, h2⟩ := resume_link_frame e l tr (h l (List.mem_cons_self _ _))
    refine List.Forall₂.cons ⟨h1, ?_⟩ (ih _ (fun x hx => h x (List.mem_cons_of_mem _ hx)))
    rcases h2 with h2 | h2
    · exact Or.inl h2
    · exact Or.inr h2.1

/-- C30: `irqrouter_resume` leaves the penalty table unchanged; record by
record, in registry order, the record afterwards differs from the record
before in `active` at most (so `refcnt`, `initialized`, `possible`,
`triggering`, `polarity` and `resource_type` are unchanged) and `active` is
its old value or 0; and for one record, `active` changes only to 0 and only
when `acpi_pci_link_get_current` (status query and `_CRS` readback of the
re-applied set) returned an error. -/
theorem irqrouter_resume_frame (e : Env) (s : State)
    (hu8 : ∀ l ∈ s.acpi_link_list, l.irq.active < 256) :
    (irqrouter_resume e s).2.acpi_irq_penalty = s.acpi_irq_penalty ∧
      List.Forall₂
        (fun a b : acpi_pci_link =>
          b = { a with irq := { a.irq with active := b.irq.active } } ∧
            (b.irq.active = a.irq.active ∨ b.irq.active = 0))
        s.acpi_link_list (irqrouter_resume e s).2.acpi_link_list ∧
      (∀ (link : acpi_pci_link) (tr : List Call), link.irq.active < 256 →
        (acpi_pci_link_resume e link tr).link.irq.active ≠ link.irq.active →
        (acpi_pci_link_resume e link tr).link.irq.active = 0 ∧
          (acpi_pci_link_get_current e link
            (set_readback_trace link tr link.irq.active)).result ≠ 0) := by
  refine ⟨rfl, resume_list_frame e s.acpi_link_list s.trace hu8, ?_⟩
  intro link tr hlt hne
  rcases (resume_link_frame e link tr hlt).2 with h | h
  · exact absurd h hne
  · exact h

/-- Witness for C30: the registry reached by registering and acquiring
device 1 on `flaky_platform`; the resume clears `active` from 11 to 0
because the `_CRS` readback fails, and changes nothing else. -/
theorem irqrouter_resume_frame_witness :
    (irqrouter_resume (sample_env flaky_platform) flaky_acquired).2.acpi_irq_penalty =
        flaky_acquired.acpi_irq_penalty ∧
      List.Forall₂
        (fun a b : acpi_pci_link =>
          b = { a with irq := { a.irq with active := b.irq.active } } ∧
            (b.irq.active = a.irq.active ∨ b.irq.active = 0))
        flaky_acquired.acpi_link_list
        (irqrouter_resume (sample_env flaky_platform) flaky_acquired).2.acpi_link_list ∧
      flaky_acquired.acpi_link_list = [bound_link 11] ∧
      (irqrouter_resume (sample_env flaky_platform) flaky_acquired).2.acpi_link_list =
        [bound_link 0] :=
  ⟨(irqrouter_resume_frame (sample_env flaky_platform) flaky_acquired (by decide)).1,
   (irqrouter_resume_frame (sample_env flaky_platform) flaky_acquired (by decide)).2.1,
   by decide, by decide⟩

/-! ## The reference count of a bound record -/

/-- One iteration of the copy loop keeps a discovered record discovered. -/
theorem check_possible_step_discovered (p : acpi_resource) (link : acpi_pci_link) (i : Nat)
    (h : discovered link) : discovered (check_possible_step p link i) := by
  unfold check_possible_step
  split_ifs
  · exact h
  · obtain ⟨h1, h2, h3, h4, h5, h6, h7⟩ := h
    refine ⟨h1, h2, h3, h4, ?_, h6, h7⟩
    intro x hx
    rcases List.mem_or_eq_of_mem_set hx with hx1 | hx1
    · exact h5 x hx1
    · rw [hx1]; exact Nat.mod_lt _ (by decide)

/-- The copy loop keeps a discovered record discovered. -/
theorem check_possible_fold_discovered (p : acpi_resource) :
    ∀ (is : List Nat) (link : acpi_pci_link), discovered link →
      discovered (is.foldl (check_possible_step p) link) := by
  intro is
  induction is with
  | nil => intro link h; exact h
  | cons i is ih =>
    intro link h
    exact ih _ (check_possible_step_discovered p link i h)

/-- The `_PRS` callback keeps a discovered record discovered. -/
theorem check_possible_discovered (p : acpi_resource) (link : acpi_pci_link)
    (h : discovered link) : discovered (acpi_pci_link_check_possible p link).2 := by
  have hl : discovered (check_possible_loop p link) :=
    check_possible_fold_discovered p _ link h
  obtain ⟨h1, h2, h3, h4, h5, h6, h7⟩ := hl
  unfold acpi_pci_link_check_possible
  simp only []
  split_ifs
  all_goals first
    | exact h
    | exact ⟨h1, Nat.mod_lt _ (by decide), Nat.mod_lt _ (by decide),
        (by decide : (0 : Nat) < 256), h5, h6, h7⟩
    | exact ⟨h1, Nat.mod_lt _ (by decide), Nat.mod_lt _ (by decide),
        (by decide : (15 : Nat) < 256), h5, h6, h7⟩

/-- Discovery keeps a discovered record discovered. -/
theorem get_possible_discovered (e : Env) (link : acpi_pci_link) (tr : List Call)
    (h : discovered link) : discovered (acpi_pci_link_get_possible e link tr).link := by
  have hw : discovered
      (walk_list acpi_pci_link_check_possible
        (e.platform.acpi_walk_resources tr link.device Method.PRS).status
        (e.platform.acpi_walk_resources tr link.device Method.PRS).resources link).2 := by
    rcases walk_list_possible (e.platform.acpi_walk_resources tr link.device Method.PRS).status
        (e.platform.acpi_walk_resources tr link.device Method.PRS).resources link
      with h1 | ⟨d, h1⟩
    · rw [h1]; exact h
    · rw [h1]; exact check_possible_discovered d link h
  unfold acpi_pci_link_get_possible acpi_walk_resources
  simp only []
  split_ifs <;> exact hw

/-- The record `acpi_pci_link_add` registers satisfies the reference-count
invariant and is unbound. -/
theorem add_record_referenced (e : Env) (device : Nat) (tr : List Call) :
    referenced_when_bound
        (acpi_pci_link_get_current e
          (acpi_pci_link_get_possible e (acpi_pci_link.fresh device) tr).link
          (acpi_pci_link_get_possible e (acpi_pci_link.fresh device) tr).trace).link ∧
      (acpi_pci_link_get_current e
          (acpi_pci_link_get_possible e (acpi_pci_link.fresh device) tr).link
          (acpi_pci_link_get_possible e (acpi_pci_link.fresh device) tr).trace).link.irq.initialized
        = false := by
  have hd : discovered (acpi_pci_link_get_possible e (acpi_pci_link.fresh device) tr).link :=
    get_possible_discovered e _ tr
      ⟨rfl, (by decide : (0 : Nat) < 256), (by decide : (0 : Nat) < 256),
        (by decide : (0 : Nat) < 256),
        (by decide : ∀ x ∈ List.replicate 16 0, x < 256), rfl, rfl⟩
  have hb := get_possible_bounded e (acpi_pci_link.fresh device) tr rfl rfl
  have hg := get_current_frame e
    (acpi_pci_link_get_possible e (acpi_pci_link.fresh device) tr).link
    (acpi_pci_link_get_possible e (acpi_pci_link.fresh device) tr).trace
  have hl := get_current_active_lt e
    (acpi_pci_link_get_possible e (acpi_pci_link.fresh device) tr).link
    (acpi_pci_link_get_possible e (acpi_pci_link.fresh device) tr).trace
  obtain ⟨h1, h2, h3, h4, h5, h6, h7⟩ := hd
  obtain ⟨b1, b2⟩ := hb
  rw [hg]
  refine ⟨⟨⟨hl, h2, h3, h4, b2, b1, h5⟩, ?_, ?_⟩, h6⟩
  · show (0 : Int) ≤ (acpi_pci_link_get_possible e (acpi_pci_link.fresh device) tr).link.refcnt
    rw [h7]
  · intro hi
    have hi2 : (acpi_pci_link_get_possible e (acpi_pci_link.fresh device)
        tr).link.irq.initialized = true := hi
    rw [h6] at hi2
    exact absurd hi2 (by decide)

/-- The record `acpi_pci_link_allocate` leaves differs from the one it was
given in `active` and `initialized` at most. -/
theorem allocate_link_frame (e : Env) (link : acpi_pci_link) (penalty : PenaltyTable)
    (tr : List Call) :
    (acpi_pci_link_allocate e link penalty tr).link =
      { link with irq := { link.irq with
          active := (acpi_pci_link_allocate e link penalty tr).link.irq.active,
          initialized := (acpi_pci_link_allocate e link penalty tr).link.irq.initialized } } := by
  have hv := (allocate_validate_spec link).1
  have h1 := set_frame e link tr link.irq.active
  have h2 := set_frame e (allocate_validate link) tr
    (allocate_select e (allocate_validate link) penalty)
  unfold acpi_pci_link_allocate
  simp only []
  split_ifs
  · show (acpi_pci_link_set e link tr link.irq.active).link = _
    rw [h1]
  · rfl
  · show (acpi_pci_link_set e (allocate_validate link) tr
      (allocate_select e (allocate_validate link) penalty)).link = _
    rw [h2, hv]
  · show ({ (acpi_pci_link_set e (allocate_validate link) tr
        (allocate_select e (allocate_validate link) penalty)).link with
        irq := { (acpi_pci_link_set e (allocate_validate link) tr
          (allocate_select e (allocate_validate link) penalty)).link.irq with
          initialized := true } } : acpi_pci_link) = _
    rw [h2, hv]

/-- A reflexive relation holds between a list and itself. -/
theorem forall₂_self {α : Type} (R : α → α → Prop) (hR : ∀ a, R a a) :
    ∀ ls : List α, List.Forall₂ R ls ls := by
  intro ls
  induction ls with
  | nil => exact List.Forall₂.nil
  | cons l ls ih => exact List.Forall₂.cons (hR l) ih

/-- Writing through the pointer found by `find_link` relates the lists
position by position when the record found is related to the one stored. -/
theorem store_link_forall₂ (R : acpi_pci_link → acpi_pci_link → Prop) (hR : ∀ a, R a a)
    (handle : Nat) (new : acpi_pci_link) :
    ∀ ls : List acpi_pci_link,
      (∀ link, find_link ls handle = some link → R link new) →
      List.Forall₂ R ls (store_link handle new ls) := by
  intro ls
  induction ls with
  | nil => intro _; exact List.Forall₂.nil
  | cons l ls ih =>
    intro h
    unfold store_link
    by_cases hd : l.device = handle
    · rw [if_pos hd]
      refine List.Forall₂.cons (h l ?_) (forall₂_self R hR ls)
      unfold find_link
      rw [List.find?_cons_of_pos]
      exact decide_eq_true hd
    · rw [if_neg hd]
      refine List.Forall₂.cons (hR l) (ih ?_)
      intro link hf
      apply h link
      unfold find_link at hf ⊢
      rw [List.find?_cons_of_neg]
      · exact hf
      · simp [hd]

/-- `acpi_pci_link_resume` writes neither `device` nor `initialized`. -/
theorem resume_flag (e : Env) (link : acpi_pci_link) (tr : List Call) :
    link.device = (acpi_pci_link_resume e link tr).link.device ∧
      link.irq.initialized = (acpi_pci_link_resume e link tr).link.irq.initialized := by
  unfold acpi_pci_link_resume
  split_ifs
  · have hf := set_frame e link tr link.irq.active
    constructor <;> rw [hf]
  · exact ⟨rfl, rfl⟩

/-- The loop of `irqrouter_resume` keeps every device and flag in place. -/
theorem resume_list_flags (e : Env) :
    ∀ (ls : List acpi_pci_link) (tr : List Call),
      List.Forall₂
        (fun a b : acpi_pci_link =>
          a.device = b.device ∧ a.irq.initialized = b.irq.initialized)
        ls (resume_list e ls tr).1 := by
  intro ls
  induction ls with
  | nil => intro tr; exact List.Forall₂.nil
  | cons l ls ih =>
    intro tr
    unfold resume_list
    simp only []
    exact List.Forall₂.cons (resume_flag e l tr) (ih _)

/-- Records related by equal flags have equal lists of flags. -/
theorem flags_of_forall₂ :
    ∀ (ls ms : List acpi_pci_link),
      List.Forall₂
        (fun a b : acpi_pci_link =>
          a.device = b.device ∧ a.irq.initialized = b.irq.initialized) ls ms →
      ms.map (fun l => l.irq.initialized) = ls.map (fun l => l.irq.initialized) := by
  intro ls ms h
  induction h with
  | nil => rfl
  | cons hab _ ih => rw [List.map_cons, List.map_cons, ih, hab.2]

/-- The per-record state machine under `acpi_pci_link_allocate`: a bound
record stays bound, and an unbound record is bound afterwards exactly when
the call returns 0. -/
theorem allocate_flag (e : Env) (link : acpi_pci_link) (penalty : PenaltyTable)
    (tr : List Call) :
    (link.irq.initialized = true →
      (acpi_pci_link_allocate e link penalty tr).link.irq.initialized = true) ∧
    (link.irq.initialized = false →
      ((acpi_pci_link_allocate e link penalty tr).link.irq.initialized = true ↔
        (acpi_pci_link_allocate e link penalty tr).result = 0)) := by
  constructor
  · intro hin
    have hf := set_frame e link tr link.irq.active
    unfold acpi_pci_link_allocate
    simp only []
    rw [if_pos hin]
    split_ifs
    · show (acpi_pci_link_set e link tr link.irq.active).link.irq.initialized = true
      rw [hf]; exact hin
    · exact hin
  · intro hun
    by_cases hset : (acpi_pci_link_set e (allocate_validate link) tr
        (allocate_select e (allocate_validate link) penalty)).result = 0
    · rw [allocate_unbound e link penalty tr hun, if_neg (not_not_intro hset)]
      exact ⟨fun _ => rfl, fun _ => rfl⟩
    · obtain ⟨h1, h2, _⟩ := allocate_fails_of_set_fails e link penalty tr hun hset
      rw [h1, h2]
      constructor
      · intro h; exact absurd h (by decide)
      · intro h; exact absurd h (by decide)

/-- The per-record state machine under `acpi_pci_link_allocate_irq`: the
device is kept, a bound record stays bound, and a record bound afterwards
was bound before or went through a successful `acpi_pci_link_allocate`. -/
theorem allocate_irq_flag (e : Env) (link : acpi_pci_link) (index : Int)
    (penalty : PenaltyTable) (tr : List Call) :
    ∀ after, (acpi_pci_link_allocate_irq e (some link) index penalty tr).link = some after →
      stays_bound link after ∧
        (after.irq.initialized = true →
          link.irq.initialized = true ∨
            (index = 0 ∧
              (acpi_pci_link_allocate e link penalty (tr ++ [Call.mutex_lock])).result = 0)) := by
  have hfr := allocate_link_frame e link penalty (tr ++ [Call.mutex_lock])
  obtain ⟨hb, hu⟩ := allocate_flag e link penalty (tr ++ [Call.mutex_lock])
  have hdev : link.device =
      (acpi_pci_link_allocate e link penalty (tr ++ [Call.mutex_lock])).link.device := by
    rw [hfr]
  have hback : (acpi_pci_link_allocate e link penalty
        (tr ++ [Call.mutex_lock])).link.irq.initialized = true →
      index = 0 →
      link.irq.initialized = true ∨
        (index = 0 ∧
          (acpi_pci_link_allocate e link penalty (tr ++ [Call.mutex_lock])).result = 0) := by
    intro hi hidx
    cases hx : link.irq.initialized with
    | true => exact Or.inl rfl
    | false => exact Or.inr ⟨hidx, (hu hx).mp hi⟩
  intro after
  unfold acpi_pci_link_allocate_irq
  simp only []
  split_ifs with h1 h2 h3
  · intro ha
    simp only [Option.some.injEq] at ha
    subst ha
    exact ⟨⟨rfl, fun h => h⟩, fun h => Or.inl h⟩
  · intro ha
    simp only [Option.some.injEq] at ha
    subst ha
    exact ⟨⟨hdev, hb⟩, fun h => hback h (not_not.mp h1)⟩
  · intro ha
    simp only [Option.some.injEq] at ha
    subst ha
    exact ⟨⟨hdev, hb⟩, fun h => hback h (not_not.mp h1)⟩
  · intro ha
    simp only [Option.some.injEq] at ha
    subst ha
    exact ⟨⟨hdev, hb⟩, fun h => hback h (not_not.mp h1)⟩

/-- An acquire relates the registry before and after position by position. -/
theorem acquire_stays_bound (e : Env) (s : State) (handle : Nat) (index : Int) :
    List.Forall₂ stays_bound s.acpi_link_list
      (acquireLine e s handle index).2.acpi_link_list := by
  unfold acquireLine
  simp only []
  cases hf : find_link s.acpi_link_list handle with
  | none => exact forall₂_self stays_bound (fun a => ⟨rfl, fun h => h⟩) _
  | some link =>
    cases hr : (acpi_pci_link_allocate_irq e (some link) index s.acpi_irq_penalty
        s.trace).link with
    | none => exact forall₂_self stays_bound (fun a => ⟨rfl, fun h => h⟩) _
    | some after =>
      refine store_link_forall₂ stays_bound (fun a => ⟨rfl, fun h => h⟩) handle after _ ?_
      intro link2 hf2
      rw [hf] at hf2
      simp only [Option.some.injEq] at hf2
      subst hf2
      exact (allocate_irq_flag e link index s.acpi_irq_penalty s.trace after hr).1

/-- A release leaves the registry as it is. -/
theorem release_list (s : State) (handle : Nat) :
    (releaseLine s handle).2.acpi_link_list = s.acpi_link_list := by
  unfold releaseLine
  simp only [free_irq_link]
  cases hf : find_link s.acpi_link_list handle with
  | none => rfl
  | some link => exact store_link_find handle link _ hf

/-- Registration appends one unbound record or leaves the registry as it
is. -/
theorem add_list (e : Env) (s : State) (device : Nat) :
    (acpi_pci_link_add e s device).2.acpi_link_list = s.acpi_link_list ∨
      ∃ l, (acpi_pci_link_add e s device).2.acpi_link_list = s.acpi_link_list ++ [l] ∧
        l.irq.initialized = false ∧ l.refcnt = 0 := by
  unfold acpi_pci_link_add
  simp only []
  split_ifs
  · exact Or.inl rfl
  · exact Or.inl rfl
  · right
    have h := add_record_referenced e device (s.trace ++ [Call.kzalloc] ++ [Call.mutex_lock])
    have hd := get_possible_discovered e (acpi_pci_link.fresh device)
      (s.trace ++ [Call.kzalloc] ++ [Call.mutex_lock])
      ⟨rfl, (by decide : (0 : Nat) < 256), (by decide : (0 : Nat) < 256),
        (by decide : (0 : Nat) < 256),
        (by decide : ∀ x ∈ List.replicate 16 0, x < 256), rfl, rfl⟩
    have hg := get_current_frame e
      (acpi_pci_link_get_possible e (acpi_pci_link.fresh device)
        (s.trace ++ [Call.kzalloc] ++ [Call.mutex_lock])).link
      (acpi_pci_link_get_possible e (acpi_pci_link.fresh device)
        (s.trace ++ [Call.kzalloc] ++ [Call.mutex_lock])).trace
    refine ⟨_, rfl, h.2, ?_⟩
    rw [hg]
    exact hd.2.2.2.2.2.2

/-- C22: the per-record state machine only moves forward.  Registration
leaves the registry as it is or appends one record with
`initialized = false`; `acpi_pci_link_allocate` keeps a bound record bound
and binds an unbound record exactly when it returns 0; every operation other
than registration and removal (acquire, release, resume, the Penalty
Initializer, the overrides) relates the registry before and after position
by position, same device and bound afterwards when bound before; the
operations other than acquire among them leave every flag as it is; a record
that an acquire leaves bound was bound before or went through a successful
`acpi_pci_link_allocate`; and removal only drops records. -/
theorem record_state_forward (e : Env) :
    (∀ (s : State) (device : Nat),
      (acpi_pci_link_add e s device).2.acpi_link_list = s.acpi_link_list ∨
        ∃ l, (acpi_pci_link_add e s device).2.acpi_link_list = s.acpi_link_list ++ [l] ∧
          l.irq.initialized = false) ∧
    (∀ (link : acpi_pci_link) (penalty : PenaltyTable) (tr : List Call),
      (link.irq.initialized = true →
        (acpi_pci_link_allocate e link penalty tr).link.irq.initialized = true) ∧
      (link.irq.initialized = false →
        ((acpi_pci_link_allocate e link penalty tr).link.irq.initialized = true ↔
          (acpi_pci_link_allocate e link penalty tr).result = 0))) ∧
    (∀ (s : State) (op : Op), (∀ d, op ≠ Op.add d) → (∀ d, op ≠ Op.remove d) →
      List.Forall₂ stays_bound s.acpi_link_list (step e s op).acpi_link_list) ∧
    (∀ (s : State) (op : Op), (∀ d, op ≠ Op.add d) → (∀ d, op ≠ Op.remove d) →
      (∀ h i, op ≠ Op.acquire h i) →
      initialized_flags (step e s op) = initialized_flags s) ∧
    (∀ (link : acpi_pci_link) (index : Int) (penalty : PenaltyTable) (tr : List Call)
      (after : acpi_pci_link),
      (acpi_pci_link_allocate_irq e (some link) index penalty tr).link = some after →
      after.irq.initialized = true →
      link.irq.initialized = true ∨
        (index = 0 ∧
          (acpi_pci_link_allocate e link penalty (tr ++ [Call.mutex_lock])).result = 0)) ∧
    (∀ (s : State) (device : Nat),
      (step e s (Op.remove device)).acpi_link_list.Sublist s.acpi_link_list) := by
  refine ⟨?_, fun link penalty tr => allocate_flag e link penalty tr, ?_, ?_, ?_, ?_⟩
  · intro s device
    rcases add_list e s device with h | ⟨l, h1, h2, _⟩
    · exact Or.inl h
    · exact Or.inr ⟨l, h1, h2⟩
  · intro s op hadd hrem
    have hs : List.Forall₂ stays_bound s.acpi_link_list s.acpi_link_list :=
      forall₂_self stays_bound (fun a => ⟨rfl, fun h => h⟩) _
    cases op with
    | add device => exact absurd rfl (hadd device)
    | remove device => exact absurd rfl (hrem device)
    | penalty_init sci => exact hs
    | acquire handle index => exact acquire_stays_bound e s handle index
    | release handle =>
      show List.Forall₂ stays_bound s.acpi_link_list (releaseLine s handle).2.acpi_link_list
      rw [release_list]
      exact hs
    | resume =>
      exact List.Forall₂.imp (fun a b h => ⟨h.1, fun hi => by rw [← h.2]; exact hi⟩)
        (resume_list_flags e s.acpi_link_list s.trace)
    | penalty_update options used => exact hs
    | penalize_isa_irq irq active => exact hs
  · intro s op hadd hrem hacq
    cases op with
    | add device => exact absurd rfl (hadd device)
    | remove device => exact absurd rfl (hrem device)
    | penalty_init sci => rfl
    | acquire handle index => exact absurd rfl (hacq handle index)
    | release handle =>
      show (releaseLine s handle).2.acpi_link_list.map _ = _
      rw [release_list]
      rfl
    | resume => exact flags_of_forall₂ _ _ (resume_list_flags e s.acpi_link_list s.trace)
    | penalty_update options used => rfl
    | penalize_isa_irq irq active => rfl
  · intro link index penalty tr after h
    exact (allocate_irq_flag e link index penalty tr after h).2
  · intro s device
    exact List.filter_sublist _

/-- Witness for C22: on `resume_sample` (two bound records and an unbound
one) an acquire of the unbound device 3 fails on firmware that rejects every
`_SRS`, and every record keeps its state; a resume leaves the flags as they
are; and the sample record becomes bound by the successful allocate on
firmware that accepts the request. -/
theorem record_state_forward_witness :
    List.Forall₂ stays_bound resume_sample.acpi_link_list
        (step (sample_env rejecting_platform) resume_sample (Op.acquire 3 0)).acpi_link_list ∧
      initialized_flags (step (sample_env rejecting_platform) resume_sample Op.resume) =
        [true, true, false] ∧
      (acpi_pci_link_allocate (sample_env (sample_platform 0)) (sample_link 0)
        acpi_irq_penalty []).link.irq.initialized = true :=
  ⟨(record_state_forward (sample_env rejecting_platform)).2.2.1 resume_sample
      (Op.acquire 3 0) (by simp) (by simp),
   ((record_state_forward (sample_env rejecting_platform)).2.2.2.1 resume_sample
      Op.resume (by simp) (by simp) (by simp)).trans (by decide),
   ((record_state_forward (sample_env (sample_platform 0))).2.1 (sample_link 0)
      acpi_irq_penalty []).2 (by decide) |>.mpr (by decide)⟩

/-! ## The registry lock -/

/-- Calls that neither take nor release the lock, made while it is held,
do not affect the lock discipline of what follows. -/
theorem locked_calls_inner :
    ∀ (suf rest : List Call), (∀ c ∈ suf, c.is_lock = false) →
      locked_calls true (suf ++ rest) = locked_calls true rest := by
  intro suf
  induction suf with
  | nil => intro rest _; rfl
  | cons c suf ih =>
    intro rest h
    have hc := h c (List.mem_cons_self _ _)
    have hr := ih rest (fun x hx => h x (List.mem_cons_of_mem _ hx))
    cases c with
    | mutex_lock => exact absurd hc (by decide)
    | mutex_unlock => exact absurd hc (by decide)
    | kzalloc => simpa [locked_calls] using hr
    | acpi_walk_resources h m => simpa [locked_calls] using hr
    | acpi_set_current_resources h res => simpa [locked_calls] using hr
    | acpi_bus_get_status h => simpa [locked_calls] using hr
    | acpi_evaluate_DIS h => simpa [locked_calls] using hr

/-- `acpi_pci_link_get_current` neither takes nor releases the lock. -/
theorem get_current_no_lock (e : Env) (link : acpi_pci_link) (tr : List Call) :
    ∃ suf, (acpi_pci_link_get_current e link tr).trace = tr ++ suf ∧
      ∀ c ∈ suf, c.is_lock = false := by
  obtain ⟨g, hg1, hg2⟩ := get_current_trace e link tr
  refine ⟨g, hg1, ?_⟩
  intro c hc
  rcases hg2 c hc with h | h <;> rw [h] <;> rfl

/-- `acpi_pci_link_set` neither takes nor releases the lock. -/
theorem set_no_lock (e : Env) (link : acpi_pci_link) (tr : List Call) (irq : Nat) :
    ∃ suf, (acpi_pci_link_set e link tr irq).trace = tr ++ suf ∧
      ∀ c ∈ suf, c.is_lock = false := by
  obtain ⟨g, hg1, hg2⟩ := get_current_no_lock e link
    (tr ++ [Call.kzalloc] ++
      [Call.acpi_set_current_resources link.device (set_resource link irq)] ++
      [Call.acpi_bus_get_status link.device])
  unfold acpi_pci_link_set
  simp only []
  split_ifs
  · exact ⟨[], by simp, by simp⟩
  · exact ⟨[Call.kzalloc], rfl, by simp [Call.is_lock]⟩
  · exact ⟨[Call.kzalloc], rfl, by simp [Call.is_lock]⟩
  · exact ⟨[Call.kzalloc,
      Call.acpi_set_current_resources link.device (set_resource link irq)], by simp,
      by simp [Call.is_lock]⟩
  · exact ⟨[Call.kzalloc,
      Call.acpi_set_current_resources link.device (set_resource link irq),
      Call.acpi_bus_get_status link.device], by simp, by simp [Call.is_lock]⟩
  all_goals
    refine ⟨[Call.kzalloc,
      Call.acpi_set_current_resources link.device (set_resource link irq),
      Call.acpi_bus_get_status link.device] ++ g, by simp only [hg1]; simp, ?_⟩
    intro c hc
    rcases List.mem_append.mp hc with h | h
    · simp at h
      rcases h with h | h | h <;> rw [h] <;> rfl
    · exact hg2 c h

/-- `acpi_pci_link_allocate` neither takes nor releases the lock. -/
theorem allocate_no_lock (e : Env) (link : acpi_pci_link) (penalty : PenaltyTable)
    (tr : List Call) :
    ∃ suf, (acpi_pci_link_allocate e link penalty tr).trace = tr ++ suf ∧
      ∀ c ∈ suf, c.is_lock = false := by
  have h1 := set_no_lock e link tr link.irq.active
  have h2 := set_no_lock e (allocate_validate link) tr
    (allocate_select e (allocate_validate link) penalty)
  unfold acpi_pci_link_allocate
  simp only []
  split_ifs
  · exact h1
  · exact ⟨[], by simp, by simp⟩
  · exact h2
  · exact h2

/-- `acpi_pci_link_resume` neither takes nor releases the lock. -/
theorem resume_no_lock (e : Env) (link : acpi_pci_link) (tr : List Call) :
    ∃ suf, (acpi_pci_link_resume e link tr).trace = tr ++ suf ∧
      ∀ c ∈ suf, c.is_lock = false := by
  unfold acpi_pci_link_resume
  split_ifs
  · exact set_no_lock e link tr link.irq.active
  · exact ⟨[], by simp, by simp⟩

/-- The loop of `irqrouter_resume` neither takes nor releases the lock. -/
theorem resume_list_no_lock (e : Env) :
    ∀ (ls : List acpi_pci_link) (tr : List Call),
      ∃ suf, (resume_list e ls tr).2 = tr ++ suf ∧ ∀ c ∈ suf, c.is_lock = false := by
  intro ls
  induction ls with
  | nil => intro tr; exact ⟨[], by simp [resume_list], by simp⟩
  | cons l ls ih =>
    intro tr
    obtain ⟨s1, h1, h2⟩ := resume_no_lock e l tr
    obtain ⟨s2, k1, k2⟩ := ih (acpi_pci_link_resume e l tr).trace
    refine ⟨s1 ++ s2, ?_, ?_⟩
    · unfold resume_list
      simp only []
      rw [k1, h1, List.append_assoc]
    · intro c hc
      rcases List.mem_append.mp hc with h | h
      · exact h2 c h
      · exact k2 c h

/-- The calls of `acpi_pci_link_allocate_irq` keep the lock discipline. -/
theorem allocate_irq_locked (e : Env) (lookup : Option acpi_pci_link) (index : Int)
    (penalty : PenaltyTable) (tr : List Call) :
    locked_calls false
      ((acpi_pci_link_allocate_irq e lookup index penalty tr).trace.drop tr.length) = true := by
  cases lookup with
  | none => simp [acpi_pci_link_allocate_irq, locked_calls]
  | some link =>
    obtain ⟨suf, h1, h2⟩ := allocate_no_lock e link penalty (tr ++ [Call.mutex_lock])
    have hin := locked_calls_inner suf [Call.mutex_unlock] h2
    have hd : (tr ++ [Call.mutex_lock] ++ suf ++ [Call.mutex_unlock]).drop tr.length =
        Call.mutex_lock :: (suf ++ [Call.mutex_unlock]) := by
      rw [List.append_assoc, List.append_assoc, List.drop_left]
      rfl
    have hfin : locked_calls false (Call.mutex_lock :: (suf ++ [Call.mutex_unlock])) = true := by
      simp only [locked_calls, hin]
      rfl
    unfold acpi_pci_link_allocate_irq
    simp only []
    split_ifs
    · simp [locked_calls]
    all_goals
      show locked_calls false
        (((acpi_pci_link_allocate e link penalty (tr ++ [Call.mutex_lock])).trace ++
          [Call.mutex_unlock]).drop tr.length) = true
      rw [h1, hd]
      exact hfin

/-- The calls of `acpi_pci_link_free_irq` keep the lock discipline. -/
theorem free_irq_locked (lookup : Option acpi_pci_link) (penalty : PenaltyTable)
    (tr : List Call) :
    locked_calls false
      ((acpi_pci_link_free_irq lookup penalty tr).trace.drop tr.length) = true := by
  cases lookup with
  | none => simp [acpi_pci_link_free_irq, locked_calls]
  | some link =>
    unfold acpi_pci_link_free_irq
    simp only []
    split_ifs
    all_goals
      simp only [List.append_assoc, List.drop_left]
      rfl

/-- The calls of `acpi_pci_link_add` keep the lock discipline. -/
theorem add_locked (e : Env) (s : State) (device : Nat) :
    locked_calls false
      ((acpi_pci_link_add e s device).2.trace.drop s.trace.length) = true := by
  have hp : (acpi_pci_link_get_possible e (acpi_pci_link.fresh device)
      (s.trace ++ [Call.kzalloc] ++ [Call.mutex_lock])).trace =
      s.trace ++ [Call.kzalloc] ++ [Call.mutex_lock] ++
        [Call.acpi_walk_resources device Method.PRS] := by
    unfold acpi_pci_link_get_possible
    simp only []
    split_ifs <;> rfl
  obtain ⟨g, hg1, hg2⟩ := get_current_no_lock e
    (acpi_pci_link_get_possible e (acpi_pci_link.fresh device)
      (s.trace ++ [Call.kzalloc] ++ [Call.mutex_lock])).link
    (acpi_pci_link_get_possible e (acpi_pci_link.fresh device)
      (s.trace ++ [Call.kzalloc] ++ [Call.mutex_lock])).trace
  have hin := locked_calls_inner g [Call.acpi_evaluate_DIS device, Call.mutex_unlock] hg2
  unfold acpi_pci_link_add
  simp only []
  split_ifs
  · simp only [List.drop_left]
    rfl
  · rw [hp]
    simp only [List.append_assoc, List.drop_left]
    rfl
  · rw [hg1, hp]
    simp only [List.append_assoc, List.drop_left]
    show locked_calls false
      (Call.kzalloc :: Call.mutex_lock :: Call.acpi_walk_resources device Method.PRS ::
        (g ++ [Call.acpi_evaluate_DIS device, Call.mutex_unlock])) = true
    simp only [locked_calls, hin]
    rfl

/-- C23 (as amended): on any platform, registration
(`acpi_pci_link_add`, with its discovery of the possible and the current
line), acquire (`acpi_pci_link_allocate_irq`, with the allocation) and
release (`acpi_pci_link_free_irq`) take `acpi_link_lock` when it is free,
release it before they return, and make every one of their Resource Provider
calls (resource walks, `_SRS`, status queries, `_DIS`) while holding it;
`irqrouter_resume` neither takes nor releases the lock. -/
theorem provider_calls_locked (e : Env) :
    (∀ (s : State) (device : Nat),
      locked_calls false
        ((acpi_pci_link_add e s device).2.trace.drop s.trace.length) = true) ∧
    (∀ (lookup : Option acpi_pci_link) (index : Int) (penalty : PenaltyTable)
      (tr : List Call),
      locked_calls false
        ((acpi_pci_link_allocate_irq e lookup index penalty tr).trace.drop tr.length) =
          true) ∧
    (∀ (lookup : Option acpi_pci_link) (penalty : PenaltyTable) (tr : List Call),
      locked_calls false
        ((acpi_pci_link_free_irq lookup penalty tr).trace.drop tr.length) = true) ∧
    (∀ (s : State), ∀ c ∈ (irqrouter_resume e s).2.trace.drop s.trace.length,
      c.is_lock = false) := by
  refine ⟨add_locked e, allocate_irq_locked e, free_irq_locked, ?_⟩
  intro s c hc
  obtain ⟨suf, h1, h2⟩ := resume_list_no_lock e s.acpi_link_list s.trace
  have ht : (irqrouter_resume e s).2.trace = s.trace ++ suf := h1
  rw [ht, List.drop_left] at hc
  exact h2 c hc

/-- Witness for C23 (as amended): registering device 1 on the sample
firmware logs the allocation, then the lock, the `_PRS` and `_CRS` walks and
`_DIS` under the lock, then the unlock. -/
theorem provider_calls_locked_witness :
    locked_calls false
        ((acpi_pci_link_add (sample_env (sample_platform 0)) State.init 1).2.trace.drop
          State.init.trace.length) = true ∧
      (acpi_pci_link_add (sample_env (sample_platform 0)) State.init 1).2.trace =
        [Call.kzalloc, Call.mutex_lock, Call.acpi_walk_resources 1 Method.PRS,
         Call.acpi_walk_resources 1 Method.CRS, Call.acpi_evaluate_DIS 1,
         Call.mutex_unlock] :=
  ⟨(provider_calls_locked (sample_env (sample_platform 0))).1 State.init 1, by decide⟩

/-- Counterexample to C23 as stated: the resume re-apply on `resume_sample`
sends an `_SRS` request for each of the two bound records, and the log of the
resume holds no `mutex_lock`: the requests are made without the lock. -/
theorem resume_provider_calls_unlocked :
    (irqrouter_resume (sample_env rejecting_platform) resume_sample).2.trace =
        [Call.kzalloc, resume_request (bound_link 11),
         Call.kzalloc, resume_request { bound_link 10 with device := 2 }] ∧
      (resume_request (bound_link 11)).is_provider = true ∧
      Call.mutex_lock ∉
        (irqrouter_resume (sample_env rejecting_platform) resume_sample).2.trace ∧
      locked_calls false
        ((irqrouter_resume (sample_env rejecting_platform) resume_sample).2.trace.drop
          resume_sample.trace.length) = false := by
  decide

end PciLink
